import Mathlib

/-!
# DrivingGame: room registry (src/server/game.js), player relay
(src/server/index.js) and client simulation (src/client/main.js)

A shallow embedding of the `Game` class, of the relay handlers, and of the
client functions `startGame`, `updateLocalPlayer`, `sendPlayerUpdate`,
`addOtherPlayer`, the `player-updated` and `player-input-update` handlers,
`updateRemotePlayers` and `shortAngleDist`, followed by the properties
established about them.

Conventions of the embedding

* A JavaScript `Map` is the list of its entries in insertion order
  (`JsMap`).  `set` overwrites in place or appends, `delete` drops the entry;
  a genuine `Map` never holds a key twice, which is the predicate
  `JsMap.UniqueKeys`.
* `Date.now()` and `Math.random().toString(36).substr(2, 9)` are inputs of the
  operation that reads them (`now`, `rand`).
* Values taken from the wire are `JsVal`; a property that is absent (reads
  `undefined`) is `none`.
* A thrown `TypeError` is the `Completion.threw` outcome.
* `console.log` is left out.  `socket.join` does not touch the registry; the
  socket.io rooms it fills are kept beside the registry in `Server`.
* The client computes with doubles: `Binary64` gives them in integer
  arithmetic, with rounding to nearest.
-/

namespace DrivingGame

/-! ## JavaScript values -/

/-- Primitive JSON values. -/
inductive Prim where
  | null
  | bool (b : Bool)
  | num (n : ℚ)
  | str (s : String)
  deriving DecidableEq

/-- Own enumerable properties of an object, in insertion order. -/
abbrev Obj := List (String × Prim)

/-- A value received from the wire: a primitive or an object of primitives. -/
inductive JsVal where
  | prim (p : Prim)
  | obj (o : Obj)
  deriving DecidableEq

/-- JavaScript truthiness of a property read (`none` is `undefined`). -/
def truthy : Option JsVal → Bool
  | none => false
  | some (JsVal.prim Prim.null) => false
  | some (JsVal.prim (Prim.bool b)) => b
  | some (JsVal.prim (Prim.num n)) => n != 0
  | some (JsVal.prim (Prim.str s)) => s != ""
  | some (JsVal.obj _) => true

/-- The expression `a || d` for a default `d` that is a value. -/
def jsOr (a : Option JsVal) (d : JsVal) : JsVal :=
  match a with
  | some v => if truthy (some v) then v else d
  | none => d

/-- Outcome of a call that may throw. -/
inductive Completion (α : Type) where
  | returned (v : α)
  | threw
  deriving DecidableEq

/-! ## Insertion-ordered maps -/

/-- Entries of a JavaScript `Map` with string keys, in insertion order. -/
abbrev JsMap (β : Type) := List (String × β)

namespace JsMap

variable {β : Type}

/-- Keys in iteration order. -/
def keys (m : JsMap β) : List String := m.map Prod.fst

/-- No key occurs twice. -/
def UniqueKeys (m : JsMap β) : Prop := (keys m).Nodup

instance decidableUniqueKeys (m : JsMap β) : Decidable (UniqueKeys m) :=
  inferInstanceAs (Decidable (keys m).Nodup)

/-- The method `Map.prototype.get`. -/
def get : JsMap β → String → Option β
  | [], _ => none
  | (k', v) :: rest, k => if k' = k then some v else get rest k

/-- The method `Map.prototype.has`. -/
def has (m : JsMap β) (k : String) : Bool := (get m k).isSome

/-- The method `Map.prototype.set`: overwrite in place, or append. -/
def set : JsMap β → String → β → JsMap β
  | [], k, v => [(k, v)]
  | (k', v') :: rest, k, v =>
    if k' = k then (k, v) :: rest else (k', v') :: set rest k v

/-- The method `Map.prototype.delete`. -/
def delete : JsMap β → String → JsMap β
  | [], _ => []
  | (k', v') :: rest, k => if k' = k then rest else (k', v') :: delete rest k

/-- The property `Map.prototype.size`. -/
def size (m : JsMap β) : Nat := m.length

end JsMap

/-- The function `Object.assign(target, source)` on own properties. -/
def objAssign (target source : Obj) : Obj :=
  source.foldl (fun acc e => JsMap.set acc e.1 e.2) target

/-- Index properties of a string, `"ab"` giving `0: "a", 1: "b"`. -/
def strProps (cs : List Char) (i : Nat) : Obj :=
  match cs with
  | [] => []
  | c :: rest => (toString i, Prim.str (String.singleton c)) :: strProps rest (i + 1)

/-- Own enumerable properties copied by a spread or by `Object.assign`. -/
def ownProps : JsVal → Obj
  | JsVal.obj o => o
  | JsVal.prim (Prim.str s) => strProps s.toList 0
  | JsVal.prim _ => []

/-! ## Registry data model (src/server/game.js) -/

/-- Server-side player record built by `addPlayer`. -/
structure Player where
  id : String
  name : JsVal
  position : JsVal
  rotation : JsVal
  velocity : Obj
  roomId : String
  lastUpdate : Int
  input : Obj
  deriving DecidableEq

/-- Room record built by `createRoom`. -/
structure Room where
  players : JsMap Player
  objects : List JsVal
  lastActivity : Int
  deriving DecidableEq

/-- The `Game` instance: `this.rooms`. -/
structure Game where
  rooms : JsMap Room
  deriving DecidableEq

/-- Field `this.maxPlayersPerRoom`, assigned once in the constructor. -/
def maxPlayersPerRoom : Nat := 10

/-- State after `new Game()`. -/
def Game.new : Game := { rooms := [] }

/-- Payload of `player-join`; a field that is absent is `none`. -/
structure JoinData where
  name : Option JsVal
  position : Option JsVal
  rotation : Option JsVal
  deriving DecidableEq

/-- Payload of `player-update` (and `{ input }` for `player-input`). -/
structure UpdateData where
  input : Option JsVal
  position : Option JsVal
  rotation : Option JsVal
  velocity : Option JsVal
  timestamp : Option JsVal
  deriving DecidableEq

/-- Method `createRoom` (game.js 9-18). -/
def createRoom (g : Game) (rand : String) (now : Int) : String × Game :=
  (rand, { rooms := JsMap.set g.rooms rand { players := [], objects := [], lastActivity := now } })

/-- Method `findAvailableRoom` (game.js 21-30): the loop returns at the first
room below capacity, otherwise a room is created. -/
def findAvailableRoom (g : Game) (rand : String) (now : Int) : String × Game :=
  match g.rooms.find? (fun e => decide (JsMap.size e.2.players < maxPlayersPerRoom)) with
  | some e => (e.1, g)
  | none => createRoom g rand now

/-- Method `addPlayer` (game.js 33-58).  `playerData = none` is a `null` or
`undefined` payload, whose property read throws after the room was resolved.
The three clock readings are the ones of `createRoom`, of `lastUpdate` and of
`room.lastActivity`. -/
def addPlayer (g : Game) (socketId : String) (playerData : Option JoinData)
    (rand : String) (tCreate tPlayer tRoom : Int) : Completion (Player × Room) × Game :=
  let (roomId, g1) := findAvailableRoom g rand tCreate
  match JsMap.get g1.rooms roomId with
  | none => (Completion.threw, g1)
  | some room =>
    match playerData with
    | none => (Completion.threw, g1)
    | some pd =>
      let player : Player :=
        { id := socketId
          name := jsOr pd.name (JsVal.prim (Prim.str ("Player_" ++ socketId.take 4)))
          position := jsOr pd.position
            (JsVal.obj [("x", Prim.num 0), ("y", Prim.num 0), ("z", Prim.num 0)])
          rotation := jsOr pd.rotation (JsVal.prim (Prim.num 0))
          velocity := [("x", Prim.num 0), ("y", Prim.num 0), ("z", Prim.num 0)]
          roomId := roomId
          lastUpdate := tPlayer
          input := [("forward", Prim.bool false), ("backward", Prim.bool false),
                    ("left", Prim.bool false), ("right", Prim.bool false)] }
      let room1 : Room :=
        { room with players := JsMap.set room.players socketId player, lastActivity := tRoom }
      (Completion.returned (player, room1), { rooms := JsMap.set g1.rooms roomId room1 })

/-- Loop of `removePlayer` (game.js 61-79) over the entries still to visit. -/
def removePlayerLoop : List (String × Room) → Game → String → Option (Player × String) × Game
  | [], g, _ => (none, g)
  | (roomId, room) :: rest, g, socketId =>
    match JsMap.get room.players socketId with
    | some player =>
      let room1 : Room := { room with players := JsMap.delete room.players socketId }
      let g1 : Game := { rooms := JsMap.set g.rooms roomId room1 }
      let g2 : Game :=
        if JsMap.size room1.players = 0 then { rooms := JsMap.delete g1.rooms roomId } else g1
      (some (player, roomId), g2)
    | none => removePlayerLoop rest g socketId

/-- Method `removePlayer`; `none` is the returned `null`. -/
def removePlayer (g : Game) (socketId : String) : Option (Player × String) × Game :=
  removePlayerLoop g.rooms g socketId

/-- Value that an update carries for field `f` of a payload member
(`data.input`, `data.position`): the own property `f` of the member, nothing
when the member is absent or has no such property. -/
def payloadField (member : Option JsVal) (f : String) : Option Prim :=
  match member with
  | some v => JsMap.get (ownProps v) f
  | none => none

/-- Body of `updatePlayer` for the player found (game.js 87-100). -/
def mergeUpdate (player : Player) (data : UpdateData) (now : Int) : Player :=
  let input1 : Obj :=
    match data.input with
    | some v => if truthy (some v) then objAssign player.input (ownProps v) else player.input
    | none => player.input
  let position1 : JsVal :=
    match data.position with
    | some v =>
      if truthy (some v) then
        JsVal.obj (objAssign (objAssign [] (ownProps player.position)) (ownProps v))
      else player.position
    | none => player.position
  let rotation1 : JsVal :=
    match data.rotation with
    | some r => r
    | none => player.rotation
  { player with input := input1, position := position1, rotation := rotation1, lastUpdate := now }

/-- Loop of `updatePlayer` (game.js 82-105) over the entries still to visit.
`data = none` is a `null` or `undefined` payload: reading `data.input` throws
once the player's room has been found. -/
def updatePlayerLoop : List (String × Room) → Game → String → Option UpdateData → Int →
    Completion (Option (Player × Room)) × Game
  | [], g, _, _, _ => (Completion.returned none, g)
  | (roomId, room) :: rest, g, socketId, data, now =>
    match JsMap.get room.players socketId with
    | some player =>
      match data with
      | none => (Completion.threw, g)
      | some d =>
        let player1 := mergeUpdate player d now
        let room1 : Room := { room with players := JsMap.set room.players socketId player1 }
        (Completion.returned (some (player1, room1)), { rooms := JsMap.set g.rooms roomId room1 })
    | none => updatePlayerLoop rest g socketId data now

/-- Method `updatePlayer`; `returned none` is the returned `null`. -/
def updatePlayer (g : Game) (socketId : String) (data : Option UpdateData) (now : Int) :
    Completion (Option (Player × Room)) × Game :=
  updatePlayerLoop g.rooms g socketId data now

/-- Method `getPlayer` (game.js 108-115): the player of the first room, in
iteration order, that holds the connection. -/
def getPlayer (g : Game) (socketId : String) : Option Player :=
  g.rooms.findSome? (fun e => JsMap.get e.2.players socketId)

/-- Loop of `cleanupInactiveRooms` (game.js 143-149) over the entries still to
visit, carrying the registry and the counter `removed`. -/
def cleanupLoop : List (String × Room) → Game → Nat → Int → Int → Nat × Game
  | [], g, removed, _, _ => (removed, g)
  | (roomId, room) :: rest, g, removed, now, maxInactiveTime =>
    if now - room.lastActivity > maxInactiveTime then
      cleanupLoop rest { rooms := JsMap.delete g.rooms roomId } (removed + 1) now maxInactiveTime
    else
      cleanupLoop rest g removed now maxInactiveTime

/-- Method `cleanupInactiveRooms` (game.js 139-156). -/
def cleanupInactiveRooms (g : Game) (now : Int) (maxInactiveTime : Int) : Nat × Game :=
  cleanupLoop g.rooms g 0 now maxInactiveTime

/-- One call on the registry, with the values it reads from its environment. -/
inductive Op where
  | addPlayer (socketId : String) (playerData : Option JoinData) (rand : String)
      (tCreate tPlayer tRoom : Int)
  | removePlayer (socketId : String)
  | updatePlayer (socketId : String) (data : Option UpdateData) (now : Int)
  | findAvailableRoom (rand : String) (now : Int)
  | createRoom (rand : String) (now : Int)
  | cleanupInactiveRooms (now : Int) (maxInactiveTime : Int)

/-- Registry after one call. -/
def applyOp (g : Game) : Op → Game
  | Op.addPlayer s pd r t1 t2 t3 => (addPlayer g s pd r t1 t2 t3).2
  | Op.removePlayer s => (removePlayer g s).2
  | Op.updatePlayer s d t => (updatePlayer g s d t).2
  | Op.findAvailableRoom r t => (findAvailableRoom g r t).2
  | Op.createRoom r t => (createRoom g r t).2
  | Op.cleanupInactiveRooms t m => (cleanupInactiveRooms g t m).2

/-- Registry after a sequence of calls, oldest first. -/
def run (ops : List Op) (g : Game) : Game := ops.foldl applyOp g

/-! ## Remote-player interpolation (src/client/main.js)

Numbers are elements of an ordered field `α` (`ℚ` when evaluated, `ℝ` for the
angle bound); `Math.PI` is the parameter `pi`.  A result that is not finite
(`Infinity`, `-Infinity`, `NaN`) is `none`; every arithmetic operation used
below maps a non-finite operand to a non-finite result.  The wheel spin of the
mesh is presentation only and is left out. -/

section Client

variable {α : Type} [LinearOrderedField α] [FloorRing α]

/-- Rounding toward zero, as in `Math.trunc`. -/
def jsTrunc (q : α) : ℤ :=
  if 0 ≤ q then ⌊q⌋ else ⌈q⌉

/-- JavaScript `x % m` on finite operands with `m ≠ 0`: the remainder of the
division truncated toward zero, which has the sign of `x`. -/
def jsRem (x m : α) : α :=
  x - m * (jsTrunc (x / m) : α)

/-- Function `shortAngleDist` (main.js 1076-1080). -/
def shortAngleDist (pi a b : α) : α :=
  let max := pi * 2
  let da := jsRem (b - a) max
  jsRem (2 * da) max - da

/-- JavaScript `a / b` on finite operands: not finite when `b` is zero. -/
def jsDiv (a b : α) : Option α :=
  if b = 0 then none else some (a / b)

/-- Three coordinates. -/
structure Vec3 (β : Type) where
  x : β
  y : β
  z : β
  deriving DecidableEq

/-- Entry of `player.buffer`, pushed by the `player-updated` handler. -/
structure TimedState (α : Type) where
  position : Vec3 α
  rotation : α
  velocity : Option (Vec3 α)
  timestamp : α
  deriving DecidableEq

/-- Pose of `player.mesh`: `position` and `rotation.y`. -/
structure Mesh (α : Type) where
  position : Vec3 (Option α)
  rotationY : Option α
  deriving DecidableEq

/-- Entry of `gameState.players`; a field that was never assigned is `none`.
The fields `id`, `name`, `position`, `rotation` are the ones written by
`addOtherPlayer`, `input` the one written by the `player-input-update`
handler; none of them is read by `updateRemotePlayers`. -/
structure RemotePlayer (α : Type) where
  mesh : Option (Mesh α)
  buffer : Option (List (TimedState α))
  velocity : Option (Vec3 α)
  angularVelocity : Option α
  id : Option String := none
  name : Option JsVal := none
  position : Option (Vec3 (Option α)) := none
  rotation : Option α := none
  input : Option Obj := none
  deriving DecidableEq

/-- The `while` loop of main.js 1007-1010, started at index `i`. -/
def findTargetIndex (buffer : List (TimedState α)) (now : α) : Nat → Nat
  | 0 => 0
  | i + 1 =>
    match buffer[i + 1]? with
    | some s => if s.timestamp > now - 100 then findTargetIndex buffer now i else i + 1
    | none => i + 1

/-- Value of `targetIndex` after the loop. -/
def selectTargetIndex (buffer : List (TimedState α)) (now : α) : Nat :=
  findTargetIndex buffer now (buffer.length - 1)

/-- The filter of main.js 1015-1017. -/
def pruneBuffer (buffer : List (TimedState α)) (now : α) : List (TimedState α) :=
  buffer.filter (fun p => decide (p.timestamp > now - 1000))

/-- The entry `next` when the test of main.js 1020 succeeds, `none` when it
fails. -/
def nextEntry (buffer : List (TimedState α)) (now : α) : Option (TimedState α) :=
  if (selectTargetIndex buffer now : Int) < ((pruneBuffer buffer now).length : Int) - 1 then
    (pruneBuffer buffer now)[selectTargetIndex buffer now + 1]?
  else none

/-- Library call `Vector3.lerpVectors(v1, v2, alpha)` of three.js:
`v1 + (v2 - v1) * alpha` on each coordinate. -/
def lerpVectors (v1 v2 : Vec3 α) (alpha : Option α) : Vec3 (Option α) :=
  { x := alpha.map (fun a => v1.x + (v2.x - v1.x) * a)
    y := alpha.map (fun a => v1.y + (v2.y - v1.y) * a)
    z := alpha.map (fun a => v1.z + (v2.z - v1.z) * a) }

/-- Library call `Vector3.lerp(v, alpha)` of three.js:
`this += (v - this) * alpha` on each coordinate. -/
def lerp (self : Vec3 (Option α)) (v : Vec3 α) (alpha : α) : Vec3 (Option α) :=
  { x := self.x.map (fun s => s + (v.x - s) * alpha)
    y := self.y.map (fun s => s + (v.y - s) * alpha)
    z := self.z.map (fun s => s + (v.z - s) * alpha) }

/-- The divisor of `alpha` (main.js 1022). -/
def alphaSpan (target next : TimedState α) : α :=
  next.timestamp - target.timestamp

/-- The value `alpha` (main.js 1022). -/
def interpAlpha (now : α) (target next : TimedState α) : Option α :=
  jsDiv (now - target.timestamp) (alphaSpan target next)

/-- Body of the `forEach` of `updateRemotePlayers` (main.js 999-1072) for one
player at clock reading `now`. -/
def updateRemotePlayer (pi now : α) (player : RemotePlayer α) : RemotePlayer α :=
  match player.mesh with
  | none => player
  | some mesh =>
    match player.buffer with
    | none => player
    | some buffer =>
      if buffer.length = 0 then player
      else
        match buffer[selectTargetIndex buffer now]? with
        | none => player
        | some target =>
          let pruned := pruneBuffer buffer now
          match nextEntry buffer now with
          | some next =>
            let alpha := interpAlpha now target next
            { player with
              buffer := some pruned
              mesh := some
                { position := lerpVectors target.position next.position alpha
                  rotationY := alpha.map (fun a =>
                    target.rotation + shortAngleDist pi target.rotation next.rotation * a) } }
          | none =>
            match player.velocity with
            | some velocity =>
              let extrapolationTime := (now - target.timestamp) / 1000
              let extrapolatedPos : Vec3 α :=
                { x := target.position.x + velocity.x * extrapolationTime
                  y := target.position.y
                  z := target.position.z + velocity.z * extrapolationTime }
              let rotationY1 : Option α :=
                match player.angularVelocity with
                | some w =>
                  if w = 0 then mesh.rotationY
                  else some (target.rotation + w * extrapolationTime)
                | none => mesh.rotationY
              { player with
                buffer := some pruned
                mesh := some
                  { position := lerp mesh.position extrapolatedPos (1 / 10)
                    rotationY := rotationY1 } }
            | none => { player with buffer := some pruned }

end Client

/-! ## Player relay (src/server/index.js)

A handler returns the event it emits, if any, with the registry after it.  The
`try`/`catch` of each handler turns a thrown error into a log line: nothing is
emitted. -/

/-- Payload of an event emitted by the relay. -/
inductive ServerEvent where
  | playerInputUpdate (id : String) (input : Obj)
  | playerUpdated (id : String) (position : JsVal) (rotation : JsVal) (velocity : Obj)
      (timestamp : Int)
  | playerLeft (id : String)
  deriving DecidableEq

/-- One call of `emit`: the socket.io room addressed and, for `socket.to`, the
sending connection, which is skipped (`none` for `io.to`). -/
structure Emit where
  room : String
  exceptSender : Option String
  event : ServerEvent
  deriving DecidableEq

/-- Handler of `player-input` (index.js 81-94); `input` is the raw payload,
wrapped as `{ input }`. -/
def onPlayerInput (g : Game) (socketId : String) (input : Option JsVal) (now : Int) :
    Option Emit × Game :=
  match updatePlayer g socketId
      (some { input := input, position := none, rotation := none, velocity := none,
              timestamp := none }) now with
  | (Completion.returned (some result), g1) =>
    (some { room := result.1.roomId, exceptSender := some socketId
            event := ServerEvent.playerInputUpdate socketId result.1.input }, g1)
  | (Completion.returned none, g1) => (none, g1)
  | (Completion.threw, g1) => (none, g1)

/-- Handler of `player-update` (index.js 97-113); `tUpdate` is the clock
reading inside `updatePlayer`, `tEmit` the one of the broadcast. -/
def onPlayerUpdate (g : Game) (socketId : String) (data : Option UpdateData)
    (tUpdate tEmit : Int) : Option Emit × Game :=
  match updatePlayer g socketId data tUpdate with
  | (Completion.returned (some result), g1) =>
    (some { room := result.1.roomId, exceptSender := some socketId
            event := ServerEvent.playerUpdated socketId result.1.position result.1.rotation
              result.1.velocity tEmit }, g1)
  | (Completion.returned none, g1) => (none, g1)
  | (Completion.threw, g1) => (none, g1)

/-- Handler of `disconnect` (index.js 116-127). -/
def onDisconnect (g : Game) (socketId : String) : Option Emit × Game :=
  match removePlayer g socketId with
  | (some result, g1) =>
    (some { room := result.2, exceptSender := none, event := ServerEvent.playerLeft socketId }, g1)
  | (none, g1) => (none, g1)

/-- Entry of the roster in `join-success`, and payload of `player-joined`. -/
structure PlayerSummary where
  id : String
  name : JsVal
  position : JsVal
  rotation : JsVal
  deriving DecidableEq

/-- The fields of a player that the join handler sends. -/
def summaryOf (p : Player) : PlayerSummary :=
  { id := p.id, name := p.name, position := p.position, rotation := p.rotation }

/-- Events emitted by the `player-join` handler. -/
inductive JoinEmit where
  | joinSuccess (id roomId : String) (players : List PlayerSummary)
  | playerJoined (room exceptSender : String) (player : PlayerSummary)
  | error (message : String)
  deriving DecidableEq

/-- Handler of `player-join` (index.js 46-78): `addPlayer` is called for
every message, whether or not the connection is already in a room. -/
def onPlayerJoin (g : Game) (socketId : String) (playerData : Option JoinData)
    (rand : String) (tCreate tPlayer tRoom : Int) : List JoinEmit × Game :=
  match addPlayer g socketId playerData rand tCreate tPlayer tRoom with
  | (Completion.returned result, g1) =>
    ([JoinEmit.joinSuccess result.1.id result.1.roomId
        ((result.2.players.filter (fun q => q.2.id != socketId)).map (fun q => summaryOf q.2)),
      JoinEmit.playerJoined result.1.roomId socketId (summaryOf result.1)], g1)
  | (Completion.threw, g1) => ([JoinEmit.error "Failed to join game"], g1)

/-- Identifiers of the rooms whose player mapping has the connection as a
key, in iteration order. -/
def roomsOf (g : Game) (socketId : String) : List String :=
  (g.rooms.filter (fun e => JsMap.has e.2.players socketId)).map Prod.fst

/-- The relay with its socket.io rooms: `joined` lists the pairs (room,
connection) for which `socket.join` has run and the connection is still open,
in the order of the calls. -/
structure Server where
  game : Game
  joined : List (String × String)
  deriving DecidableEq

/-- A message from a connection, with the readings of the random generator
and of the clock taken while it is handled. -/
inductive ClientMessage where
  | playerJoin (playerData : Option JoinData) (rand : String) (tCreate tPlayer tRoom : Int)
  | playerInput (input : Option JsVal) (now : Int)
  | playerUpdate (data : Option UpdateData) (tUpdate tEmit : Int)
  | disconnect

/-- The call `socket.join(roomId)` of `addPlayer` (game.js 38); a socket.io
room is a set of connections. -/
def socketJoin (joined : List (String × String)) (roomId socketId : String) :
    List (String × String) :=
  if joined.contains (roomId, socketId) then joined else joined ++ [(roomId, socketId)]

/-- The relay after one message from connection `socketId`.  `player-join`
runs `socket.join` on the room that `findAvailableRoom` resolves, before the
payload is read; a closed connection has left its socket.io rooms when the
`disconnect` handler runs. -/
def handle (s : Server) (socketId : String) : ClientMessage → Server
  | ClientMessage.playerJoin playerData rand tCreate tPlayer tRoom =>
    { game := (onPlayerJoin s.game socketId playerData rand tCreate tPlayer tRoom).2
      joined := socketJoin s.joined (findAvailableRoom s.game rand tCreate).1 socketId }
  | ClientMessage.playerInput input now =>
    { s with game := (onPlayerInput s.game socketId input now).2 }
  | ClientMessage.playerUpdate data tUpdate tEmit =>
    { s with game := (onPlayerUpdate s.game socketId data tUpdate tEmit).2 }
  | ClientMessage.disconnect =>
    { game := (onDisconnect s.game socketId).2
      joined := s.joined.filter (fun e => e.2 != socketId) }

/-- The relay after a sequence of messages, oldest first, each with the
connection that sent it. -/
def serve (s : Server) (messages : List (String × ClientMessage)) : Server :=
  messages.foldl (fun t m => handle t m.1 m.2) s

/-- The connections that an emit reaches: those in the socket.io room
addressed, without the sender for `socket.to`. -/
def recipients (joined : List (String × String)) (e : Emit) : List String :=
  (joined.filter (fun q => q.1 == e.room && some q.2 != e.exceptSender)).map Prod.snd

/-- The velocity `{ x: 0, y: 0, z: 0 }` given to a player by `addPlayer`. -/
def zeroVelocity : Obj := [("x", Prim.num 0), ("y", Prim.num 0), ("z", Prim.num 0)]

/-! ## Double-precision numbers

A JavaScript number is an IEEE 754 binary64 value.  A finite one is a sign, a
significand and an exponent, `(-1)^neg * mant * 2^exp`; a double has
`mant < 2^53` and `-1074 ≤ exp`.  Addition, subtraction, multiplication,
division and square root give the exact result rounded to the nearest double,
ties to the even significand, with gradual underflow; they are computed here
in integer arithmetic.  `NaN` and the infinities are not represented: a
result of magnitude `2^1024` or more, a division by zero and the square root
of a negative number are outside the model, and so is the sign of a zero
result. -/

/-- A finite binary floating-point value `(-1)^neg * mant * 2^exp`. -/
structure Binary64 where
  neg : Bool
  mant : Nat
  exp : Int
  deriving DecidableEq

namespace Binary64

/-- The double of a natural number below `2^53`. -/
def ofNat (n : Nat) : Binary64 := { neg := false, mant := n, exp := 0 }

/-- The rational number denoted. -/
def toRat (d : Binary64) : ℚ :=
  (if d.neg then -(d.mant : ℚ) else (d.mant : ℚ)) * (2 : ℚ) ^ d.exp

/-- Number of binary digits of `n`, by halving at most `fuel` times. -/
def bitLengthAux : Nat → Nat → Nat
  | 0, _ => 0
  | fuel + 1, n => if n = 0 then 0 else bitLengthAux fuel (n / 2) + 1

/-- Number of binary digits of `n` (0 for 0). -/
def bitLength (n : Nat) : Nat := bitLengthAux n n

/-- Integer square root, one binary digit for each level of `fuel`. -/
def isqrtAux : Nat → Nat → Nat
  | 0, _ => 0
  | fuel + 1, n =>
    if n = 0 then 0
    else
      let r := 2 * isqrtAux fuel (n / 4)
      if (r + 1) * (r + 1) ≤ n then r + 1 else r

/-- Integer square root: the greatest `r` with `r * r ≤ n`. -/
def isqrt (n : Nat) : Nat := isqrtAux n n

/-- The signed significand of `d` at the exponent `e ≤ d.exp`. -/
def scaled (d : Binary64) (e : Int) : Int :=
  if d.neg then -((d.mant * 2 ^ (d.exp - e).toNat : Nat) : Int)
  else ((d.mant * 2 ^ (d.exp - e).toNat : Nat) : Int)

/-- The comparison `a > b`. -/
def gt (a b : Binary64) : Bool :=
  decide (scaled b (min a.exp b.exp) < scaled a (min a.exp b.exp))

/-- Equality of the values denoted (`a === b` on finite numbers). -/
def same (a b : Binary64) : Bool :=
  decide (scaled a (min a.exp b.exp) = scaled b (min a.exp b.exp))

/-- The product, not rounded. -/
def exactMul (a b : Binary64) : Binary64 :=
  { neg := xor a.neg b.neg, mant := a.mant * b.mant, exp := a.exp + b.exp }

/-- The sum, not rounded. -/
def exactAdd (a b : Binary64) : Binary64 :=
  { neg := decide (scaled a (min a.exp b.exp) + scaled b (min a.exp b.exp) < 0)
    mant := (scaled a (min a.exp b.exp) + scaled b (min a.exp b.exp)).natAbs
    exp := min a.exp b.exp }

/-- The opposite number. -/
def negate (a : Binary64) : Binary64 := { a with neg := !a.neg }

/-- Rounding to the nearest double, ties to even.  `k` low digits of the
significand are dropped: those beyond 53 digits, and those below `2^-1074`.
`sticky` tells that the exact value is above `d`, by less than one unit of the
last digit of `d`. -/
def round (sticky : Bool) (d : Binary64) : Binary64 :=
  let k : Int := max ((bitLength d.mant : Int) - 53) (-1074 - d.exp)
  if k ≤ 0 then d
  else
    let q := d.mant / 2 ^ k.toNat
    let r := d.mant % 2 ^ k.toNat
    let half := 2 ^ (k.toNat - 1)
    { neg := d.neg
      mant :=
        if decide (half < r) || (decide (r = half) && (sticky || decide (q % 2 = 1))) then q + 1
        else q
      exp := d.exp + k }

/-- The operation `a + b`. -/
def add (a b : Binary64) : Binary64 := round false (exactAdd a b)

/-- The operation `a - b`. -/
def sub (a b : Binary64) : Binary64 := round false (exactAdd a (negate b))

/-- The operation `a * b`. -/
def mul (a b : Binary64) : Binary64 := round false (exactMul a b)

/-- The function `Math.abs`. -/
def abs (a : Binary64) : Binary64 := { a with neg := false }

/-- The operation `a / b` for `b ≠ 0`: the quotient of the significands is
taken with at least 64 digits, the remainder is the sticky digit. -/
def div (a b : Binary64) : Binary64 :=
  round (decide ((a.mant * 2 ^ (bitLength b.mant + 64)) % b.mant ≠ 0))
    { neg := xor a.neg b.neg
      mant := (a.mant * 2 ^ (bitLength b.mant + 64)) / b.mant
      exp := a.exp - b.exp - ((bitLength b.mant + 64 : Nat) : Int) }

/-- The function `Math.sqrt` for `a ≥ 0`: the exponent is made even, the
integer square root of the significand is taken with 64 more digits, and its
remainder is the sticky digit. -/
def sqrt (a : Binary64) : Binary64 :=
  let m := if a.exp % 2 = 0 then a.mant else 2 * a.mant
  let e := if a.exp % 2 = 0 then a.exp else a.exp - 1
  round (decide (isqrt (m * 2 ^ 128) * isqrt (m * 2 ^ 128) ≠ m * 2 ^ 128))
    { neg := false, mant := isqrt (m * 2 ^ 128), exp := e / 2 - 64 }

/-- A decimal literal `num / den` with both below `2^53`, such as `0.01`: the
double nearest to the quotient. -/
def literal (num den : Nat) : Binary64 := div (ofNat num) (ofNat den)

/-- Half the distance from 1 to the next double: the largest relative error
of one rounding in the normal range. -/
def unitRoundoff : ℚ := 1 / 2 ^ 53

/-- The smallest positive normal double. -/
def minNormal : ℚ := 1 / 2 ^ 1022

/-- Lower end `2^-500` of the magnitudes considered for a velocity. -/
def rangeLow : ℚ := 1 / 2 ^ 500

/-- Upper end `2^500` of the magnitudes considered for a velocity. -/
def rangeHigh : ℚ := 2 ^ 500

/-- The value is zero or has a magnitude from `2^-500` to `2^500`: then no
operation of the speed limit overflows or leaves the normal range. -/
def InRange (d : Binary64) : Prop :=
  |toRat d| ≤ rangeHigh ∧ (toRat d = 0 ∨ rangeLow ≤ |toRat d|)

instance decidableInRange (d : Binary64) : Decidable (InRange d) := by
  unfold InRange
  infer_instance

/-- Constant `CONSTANTS.MAX_SPEED` as a double. -/
def MAX_SPEED : Binary64 := ofNat 30

/-- Constant `CONSTANTS.SEND_RATE` as a double. -/
def SEND_RATE : Binary64 := ofNat 20

end Binary64

/-! ## Local player (src/client/main.js)

`Math.cos`, `Math.sin`, `Math.sqrt` and `Math.pow` are the fields of a
`JsMath` argument.  The wheel animation (`updateWheels`) is presentation only
and is left out.

The speed limit and the send gate are given twice: `clampSpeed` and
`sendPlayerUpdate` compute in doubles, as the code does; `clampSpeedExact` and
`sendPlayerUpdateExact` are the same statements read in exact arithmetic of an
ordered field, which is what `updateLocalPlayer` below composes. -/

/-- The functions of `Math` used by the local simulation. -/
structure JsMath (α : Type) where
  cos : α → α
  sin : α → α
  sqrt : α → α
  pow : α → α → α

namespace CONSTANTS

variable {α : Type} [LinearOrderedField α]

/-- Constant `CONSTANTS.ACCELERATION`. -/
def ACCELERATION : α := 15

/-- Constant `CONSTANTS.ROTATION_SPEED`. -/
def ROTATION_SPEED : α := 5 / 2

/-- Constant `CONSTANTS.MAX_SPEED`. -/
def MAX_SPEED : α := 30

/-- Constant `CONSTANTS.DRAG`. -/
def DRAG : α := 19 / 20

/-- Constant `CONSTANTS.SEND_RATE`. -/
def SEND_RATE : α := 20

/-- Constant `CONSTANTS.INTERPOLATION_BUFFER_SIZE`. -/
def INTERPOLATION_BUFFER_SIZE : Nat := 10

end CONSTANTS

section LocalPlayer

variable {α : Type} [LinearOrderedField α]

/-- The function `Math.sign` on finite numbers. -/
def jsSign (x : α) : α :=
  if 0 < x then 1 else if x < 0 then -1 else 0

/-- The object `gameState.input`. -/
structure InputState where
  forward : Bool
  backward : Bool
  left : Bool
  right : Bool
  deriving DecidableEq

/-- Pose of `gameState.car`: `position` and `rotation.y`. -/
structure Car (α : Type) where
  position : Vec3 α
  rotationY : α
  deriving DecidableEq

/-- Payload of the `player-update` message sent by the client. -/
structure OutboundUpdate (α : Type) where
  position : Vec3 α
  rotation : α
  velocity : Vec3 α
  timestamp : α
  deriving DecidableEq

/-- The part of `gameState` read and written by the local simulation.
`socket` tells whether `gameState.socket` is set; `keys` lists the key codes
whose entry of `gameState.keys` is `true`. -/
structure LocalState (α : Type) where
  socket : Bool
  car : Option (Car α)
  velocity : Vec3 α
  input : InputState
  keys : List String
  lastSentPosition : Vec3 α
  lastSentRotation : α
  lastSendTime : α
  deriving DecidableEq

/-- Input read from the keys (main.js 874-877). -/
def readInput (keys : List String) : InputState :=
  { forward := keys.contains "ArrowUp" || keys.contains "KeyW" || false
    backward := keys.contains "ArrowDown" || keys.contains "KeyS" || false
    left := keys.contains "ArrowLeft" || keys.contains "KeyA" || false
    right := keys.contains "ArrowRight" || keys.contains "KeyD" || false }

/-- Forces from the input (main.js 880-890), on the velocity. -/
def applyForces (M : JsMath α) (input : InputState) (rotationY deltaTime : α)
    (velocity : Vec3 α) : Vec3 α :=
  let v1 : Vec3 α :=
    if input.forward then
      { x := velocity.x - M.sin rotationY * CONSTANTS.ACCELERATION * deltaTime
        y := velocity.y
        z := velocity.z - M.cos rotationY * CONSTANTS.ACCELERATION * deltaTime }
    else velocity
  if input.backward then
    { x := v1.x + M.sin rotationY * CONSTANTS.ACCELERATION * (6 / 10) * deltaTime
      y := v1.y
      z := v1.z + M.cos rotationY * CONSTANTS.ACCELERATION * (6 / 10) * deltaTime }
  else v1

/-- Steering (main.js 892-902): the new `car.rotation.y`, from the velocity
after the forces. -/
def applySteering (input : InputState) (velocity : Vec3 α) (rotationY deltaTime : α) : α :=
  if |velocity.x| > 1 / 10 ∨ |velocity.z| > 1 / 10 then
    let r1 :=
      if input.left then rotationY + CONSTANTS.ROTATION_SPEED * deltaTime * jsSign velocity.z
      else rotationY
    if input.right then r1 - CONSTANTS.ROTATION_SPEED * deltaTime * jsSign velocity.z
    else r1
  else rotationY

/-- The flag `moved` (main.js 872-902). -/
def movedFlag (input : InputState) (velocity : Vec3 α) : Bool :=
  input.forward || input.backward ||
    (decide (|velocity.x| > 1 / 10 ∨ |velocity.z| > 1 / 10) && (input.left || input.right))

/-- Drag (main.js 904-906). -/
def applyDrag (M : JsMath α) (deltaTime : α) (velocity : Vec3 α) : Vec3 α :=
  { x := velocity.x * M.pow CONSTANTS.DRAG deltaTime
    y := velocity.y
    z := velocity.z * M.pow CONSTANTS.DRAG deltaTime }

/-- Speed limit (main.js 908-913) read in exact arithmetic, `sqrt` being the
square root.  The division is reached only with `speed > MAX_SPEED`, so never
with a zero divisor. -/
def clampSpeedExact (sqrt : α → α) (velocity : Vec3 α) : Vec3 α :=
  let speed := sqrt (velocity.x * velocity.x + velocity.z * velocity.z)
  if speed > CONSTANTS.MAX_SPEED then
    { x := velocity.x / speed * CONSTANTS.MAX_SPEED
      y := velocity.y
      z := velocity.z / speed * CONSTANTS.MAX_SPEED }
  else velocity

/-- Function `sendPlayerUpdate` (main.js 961-992) read in exact arithmetic, at
clock reading `now`: the message emitted, if any, and the state after the
call. -/
def sendPlayerUpdateExact (s : LocalState α) (force : Bool) (now : α) :
    Option (OutboundUpdate α) × LocalState α :=
  if !s.socket then (none, s)
  else
    match s.car with
    | none => (none, s)
    | some car =>
      let pos := car.position
      let rot := car.rotationY
      if force = true ∨ now - s.lastSendTime > 1000 / CONSTANTS.SEND_RATE then
        if force = true ∨
            |pos.x - s.lastSentPosition.x| > 1 / 100 ∨
            |pos.z - s.lastSentPosition.z| > 1 / 100 ∨
            |rot - s.lastSentRotation| > 1 / 100 then
          (some { position := pos, rotation := rot, velocity := s.velocity, timestamp := now },
            { s with lastSentPosition := pos, lastSentRotation := rot, lastSendTime := now })
        else (none, s)
      else (none, s)

/-- Function `updateLocalPlayer` (main.js 866-927) for a frame of `deltaTime`
seconds at clock reading `now`, in exact arithmetic. -/
def updateLocalPlayer (M : JsMath α) (s : LocalState α) (deltaTime now : α) :
    Option (OutboundUpdate α) × LocalState α :=
  match s.car with
  | none => (none, s)
  | some car =>
    let input := readInput s.keys
    let v1 := applyForces M input car.rotationY deltaTime s.velocity
    let rotation1 := applySteering input v1 car.rotationY deltaTime
    let moved := movedFlag input v1
    let v2 := clampSpeedExact M.sqrt (applyDrag M deltaTime v1)
    let car1 : Car α :=
      { position :=
          { x := car.position.x + v2.x * deltaTime
            y := 1 / 2
            z := car.position.z + v2.z * deltaTime }
        rotationY := rotation1 }
    sendPlayerUpdateExact { s with input := input, velocity := v2, car := some car1 } moved now

end LocalPlayer

/-- The value of `speed` (main.js 909) in double arithmetic: the rounded
square root of the rounded sum of the rounded squares. -/
def planarSpeed (velocity : Vec3 Binary64) : Binary64 :=
  Binary64.sqrt (Binary64.add (Binary64.mul velocity.x velocity.x)
    (Binary64.mul velocity.z velocity.z))

/-- The square of the planar magnitude of a velocity, as a rational number
(no rounding). -/
def planarSq (velocity : Vec3 Binary64) : ℚ :=
  Binary64.toRat velocity.x * Binary64.toRat velocity.x +
    Binary64.toRat velocity.z * Binary64.toRat velocity.z

/-- Speed limit (main.js 908-913) in double arithmetic: `speed` is the
rounded square root of the rounded sum of the rounded squares; above
`MAX_SPEED` each planar component is divided by `speed`, rounded, multiplied
by `MAX_SPEED` and rounded.  The division is reached only with
`speed > MAX_SPEED`, so never with a zero divisor. -/
def clampSpeed (velocity : Vec3 Binary64) : Vec3 Binary64 :=
  let speed := planarSpeed velocity
  if Binary64.gt speed Binary64.MAX_SPEED then
    { x := Binary64.mul (Binary64.div velocity.x speed) Binary64.MAX_SPEED
      y := velocity.y
      z := Binary64.mul (Binary64.div velocity.z speed) Binary64.MAX_SPEED }
  else velocity

/-- Function `sendPlayerUpdate` (main.js 961-992) in double arithmetic, at
clock reading `now`: the message emitted, if any, and the state after the
call.  The differences are rounded before `Math.abs`, and `0.01` is the double
nearest to one hundredth. -/
def sendPlayerUpdate (s : LocalState Binary64) (force : Bool) (now : Binary64) :
    Option (OutboundUpdate Binary64) × LocalState Binary64 :=
  if !s.socket then (none, s)
  else
    match s.car with
    | none => (none, s)
    | some car =>
      let pos := car.position
      let rot := car.rotationY
      if force ||
          Binary64.gt (Binary64.sub now s.lastSendTime)
            (Binary64.div (Binary64.ofNat 1000) Binary64.SEND_RATE) then
        if force ||
            Binary64.gt (Binary64.abs (Binary64.sub pos.x s.lastSentPosition.x))
              (Binary64.literal 1 100) ||
            Binary64.gt (Binary64.abs (Binary64.sub pos.z s.lastSentPosition.z))
              (Binary64.literal 1 100) ||
            Binary64.gt (Binary64.abs (Binary64.sub rot s.lastSentRotation))
              (Binary64.literal 1 100) then
          (some { position := pos, rotation := rot, velocity := s.velocity, timestamp := now },
            { s with lastSentPosition := pos, lastSentRotation := rot, lastSendTime := now })
        else (none, s)
      else (none, s)

/-! ## Joining from the start screen (src/client/main.js) -/

/-- Code points removed by `String.prototype.trim`: the white space and line
terminator characters of ECMAScript. -/
def isJsWhiteSpace (c : Char) : Bool :=
  [0x9, 0xA, 0xB, 0xC, 0xD, 0x20, 0xA0, 0x1680, 0x2028, 0x2029, 0x202F, 0x205F, 0x3000,
    0xFEFF].contains c.toNat || (decide (0x2000 ≤ c.toNat) && decide (c.toNat ≤ 0x200A))

/-- The method `String.prototype.trim`. -/
def jsTrim (s : String) : String :=
  String.mk ((s.toList.dropWhile isJsWhiteSpace).reverse.dropWhile isJsWhiteSpace).reverse

/-- The property `length` of a string: its number of UTF-16 code units. -/
def utf16Length (s : String) : Nat :=
  (s.toList.map (fun c => if c.toNat < 0x10000 then 1 else 2)).sum

/-- Outcome of `startGame`: the name stored in `gameState.playerName` and
whether `connectToServer` was called. -/
structure StartResult where
  playerName : String
  connected : Bool
  deriving DecidableEq

/-- Function `startGame` (main.js 590-627) for the text `value` of the name
field. -/
def startGame (value : String) : StartResult :=
  let playerName := if jsTrim value = "" then "Player" else jsTrim value
  if utf16Length playerName < 2 ∨ utf16Length playerName > 20 then
    { playerName := playerName, connected := false }
  else
    { playerName := playerName, connected := true }

/-! ## Buffering remote states (src/client/main.js) -/

section RemoteBuffer

variable {α : Type} [LinearOrderedField α]

/-- Payload of `player-updated` as the client reads it; `timestamp = none` is
a message without timestamp. -/
structure PlayerUpdatedMsg (α : Type) where
  id : String
  position : Vec3 α
  rotation : α
  velocity : Option (Vec3 α)
  timestamp : Option α
  deriving DecidableEq

/-- The expression `data.timestamp || now`. -/
def timestampOr (timestamp : Option α) (now : α) : α :=
  match timestamp with
  | some t => if t = 0 then now else t
  | none => now

/-- The state pushed on the buffer (main.js 698-703). -/
def bufferedState (data : PlayerUpdatedMsg α) (now : α) : TimedState α :=
  { position := data.position, rotation := data.rotation, velocity := data.velocity
    timestamp := timestampOr data.timestamp now }

/-- Handler of `player-updated` (main.js 688-718) on `gameState.players` at
clock reading `now`.  The ping statistic it also refreshes is not part of the
players and is left out. -/
def onPlayerUpdated (players : JsMap (RemotePlayer α)) (now : α) (data : PlayerUpdatedMsg α) :
    JsMap (RemotePlayer α) :=
  match JsMap.get players data.id with
  | none => players
  | some player =>
    let buffer0 : List (TimedState α) :=
      match player.buffer with
      | some b => b
      | none => []
    let buffer1 := buffer0 ++ [bufferedState data now]
    let buffer2 :=
      if buffer1.length > CONSTANTS.INTERPOLATION_BUFFER_SIZE then buffer1.tail else buffer1
    JsMap.set players data.id { player with buffer := some buffer2 }

end RemoteBuffer

/-! ## Remote player views (src/client/main.js) -/

section RemoteViews

variable {α : Type} [LinearOrderedField α] [FloorRing α]

/-- Payload of `player-joined` and roster entry of `join-success` as the
client reads it; a coordinate or rotation that is absent is `none`. -/
structure OtherPlayerData (α : Type) where
  id : String
  name : Option JsVal
  position : Vec3 (Option α)
  rotation : Option α
  deriving DecidableEq

/-- The expression `a || d` on numbers. -/
def jsNumOr (a : Option α) (d : α) : α :=
  match a with
  | some v => if v = 0 then d else v
  | none => d

/-- Function `addOtherPlayer` (main.js 813-833) on `gameState.players`. -/
def addOtherPlayer (players : JsMap (RemotePlayer α)) (playerData : OtherPlayerData α) :
    JsMap (RemotePlayer α) :=
  match JsMap.get players playerData.id with
  | some _ => players
  | none =>
    JsMap.set players playerData.id
      { id := some playerData.id
        name := playerData.name
        mesh := some
          { position :=
              { x := some (jsNumOr playerData.position.x 0)
                y := some (jsNumOr playerData.position.y 0)
                z := some (jsNumOr playerData.position.z 0) }
            rotationY := some (jsNumOr playerData.rotation 0) }
        position := some playerData.position
        rotation := some (jsNumOr playerData.rotation 0)
        buffer := none
        velocity := none
        angularVelocity := none
        input := none }

/-- Handler of `player-input-update` (main.js 680-685). -/
def onPlayerInputUpdate (players : JsMap (RemotePlayer α)) (id : String) (input : Obj) :
    JsMap (RemotePlayer α) :=
  match JsMap.get players id with
  | some player => JsMap.set players id { player with input := some input }
  | none => players

/-- Function `updateRemotePlayers` (main.js 996-1073): the body is run for
every entry of `gameState.players`. -/
def updateRemotePlayers (pi now : α) (players : JsMap (RemotePlayer α)) :
    JsMap (RemotePlayer α) :=
  players.map (fun e => (e.1, updateRemotePlayer pi now e.2))

/-- What can happen to `gameState.players` between a view's creation and its
removal: a view is added, a message for a view arrives, or a frame is drawn. -/
inductive ClientEvent (α : Type) where
  | addOtherPlayer (playerData : OtherPlayerData α)
  | playerInputUpdate (id : String) (input : Obj)
  | playerUpdated (now : α) (data : PlayerUpdatedMsg α)
  | updateRemotePlayers (now : α)

/-- The object `gameState.players` after one event. -/
def applyClientEvent (pi : α) (players : JsMap (RemotePlayer α)) :
    ClientEvent α → JsMap (RemotePlayer α)
  | ClientEvent.addOtherPlayer d => addOtherPlayer players d
  | ClientEvent.playerInputUpdate id input => onPlayerInputUpdate players id input
  | ClientEvent.playerUpdated now data => onPlayerUpdated players now data
  | ClientEvent.updateRemotePlayers now => updateRemotePlayers pi now players

/-- The object `gameState.players` after a sequence of events, oldest first. -/
def runClient (pi : α) (events : List (ClientEvent α)) (players : JsMap (RemotePlayer α)) :
    JsMap (RemotePlayer α) :=
  events.foldl (applyClientEvent pi) players

end RemoteViews

/-! ## Concrete registries and buffers used as instances -/

/-- A join payload without any field. -/
def emptyJoin : JoinData := { name := none, position := none, rotation := none }

/-- An update payload without any field. -/
def emptyUpdate : UpdateData :=
  { input := none, position := none, rotation := none, velocity := none, timestamp := none }

/-- Ten connections join while the generator yields the identifier `"i"`
(`Math.random()` returning `0.5`, whose base-36 form is `"0.i"`). -/
def tenJoins : List Op :=
  ["p0", "p1", "p2", "p3", "p4", "p5", "p6", "p7", "p8", "p9"].map
    (fun s => Op.addPlayer s (some emptyJoin) "i" 0 0 0)

/-- Registry with the single room `"i"` holding ten players. -/
def fullRegistry : Game := run tenJoins Game.new

/-- The registry `fullRegistry` after connection `"p0"` joined a second time:
room `"i"` is full, so a room `"j"` is created and `"p0"` is in both. -/
def twiceJoined : Game := run (tenJoins ++ [Op.addPlayer "p0" (some emptyJoin) "j" 1 1 1]) Game.new

/-- A player as `addPlayer` builds it from a payload without fields. -/
def defaultPlayer (socketId roomId : String) : Player :=
  { id := socketId
    name := JsVal.prim (Prim.str ("Player_" ++ socketId.take 4))
    position := JsVal.obj [("x", Prim.num 0), ("y", Prim.num 0), ("z", Prim.num 0)]
    rotation := JsVal.prim (Prim.num 0)
    velocity := [("x", Prim.num 0), ("y", Prim.num 0), ("z", Prim.num 0)]
    roomId := roomId
    lastUpdate := 0
    input := [("forward", Prim.bool false), ("backward", Prim.bool false),
              ("left", Prim.bool false), ("right", Prim.bool false)] }

/-- Room `"a"` of `twoRooms`: one player. -/
def roomA : Room :=
  { players := [("x", defaultPlayer "x" "a")], objects := [], lastActivity := 0 }

/-- Room `"b"` of `twoRooms`: two players. -/
def roomB : Room :=
  { players := [("y", defaultPlayer "y" "b"), ("z", defaultPlayer "z" "b")], objects := []
    lastActivity := 400000 }

/-- Registry with room `"a"` (last active at 0) and room `"b"` (last active at
400000). -/
def twoRooms : Game := { rooms := [("a", roomA), ("b", roomB)] }

/-- Registry after a single join at clock reading 0. -/
def soloRegistry : Game := run [Op.addPlayer "a" (some emptyJoin) "i" 0 0 0] Game.new

/-- The payload `{input: {forward: true}}`. -/
def forwardOnly : UpdateData :=
  { emptyUpdate with input := some (JsVal.obj [("forward", Prim.bool true)]) }

/-- The double nearest to pi, the value of `Math.PI`. -/
def mathPI : ℚ := 884279719003555 / 281474976710656

/-- A buffered state at timestamp `t` whose position is `(x, 0, 0)`. -/
def sample (t x : ℚ) : TimedState ℚ :=
  { position := { x := x, y := 0, z := 0 }, rotation := 0, velocity := none, timestamp := t }

/-- A remote player as `addOtherPlayer` leaves it (no `velocity`, no
`angularVelocity`), with its mesh at the origin and the given buffer. -/
def remoteWith (buffer : List (TimedState ℚ)) : RemotePlayer ℚ :=
  { mesh := some { position := { x := some 0, y := some 0, z := some 0 }, rotationY := some 0 }
    buffer := some buffer
    velocity := none
    angularVelocity := none }

/-- Registry whose first room is full and whose second room has two players. -/
def crowded : Game := { rooms := fullRegistry.rooms ++ [("b", roomB)] }

/-- A join payload whose name has one character. -/
def shortName : JoinData :=
  { name := some (JsVal.prim (Prim.str "a")), position := none, rotation := none }

/-- A join payload whose name has twenty-six characters. -/
def longName : JoinData :=
  { name := some (JsVal.prim (Prim.str "abcdefghijklmnopqrstuvwxyz")), position := none
    rotation := none }

/-- The payload `{position: {x: 5, z: 3}, rotation: 1.0, timestamp: 42}`. -/
def moveTo : UpdateData :=
  { emptyUpdate with
    position := some (JsVal.obj [("x", Prim.num 5), ("z", Prim.num 3)])
    rotation := some (JsVal.prim (Prim.num 1))
    timestamp := some (JsVal.prim (Prim.num 42)) }

/-- Ten buffered states, 50 ms apart. -/
def tenSamples : List (TimedState ℚ) :=
  [sample 0 0, sample 50 1, sample 100 2, sample 150 3, sample 200 4, sample 250 5,
    sample 300 6, sample 350 7, sample 400 8, sample 450 9]

/-- The object `gameState.players` with one remote player `"r"` whose buffer
is full. -/
def remotePlayers : JsMap (RemotePlayer ℚ) := [("r", remoteWith tenSamples)]

/-- An eleventh state for player `"r"`, stamped 500. -/
def eleventh : PlayerUpdatedMsg ℚ :=
  { id := "r", position := { x := 10, y := 0, z := 0 }, rotation := 0, velocity := none
    timestamp := some 500 }

/-- Input with only `left` pressed. -/
def leftOnly : InputState := { forward := false, backward := false, left := true, right := false }

/-- Local state before `connectToServer`: the car exists (`initThree`), the
socket does not. -/
def offlineState : LocalState Binary64 :=
  { socket := false
    car := some { position := { x := Binary64.ofNat 3, y := Binary64.literal 1 2
                                z := Binary64.ofNat 4 }
                  rotationY := Binary64.ofNat 1 }
    velocity := { x := Binary64.ofNat 0, y := Binary64.ofNat 0, z := Binary64.ofNat 0 }
    input := leftOnly
    keys := ["KeyA"]
    lastSentPosition := { x := Binary64.ofNat 0, y := Binary64.ofNat 0, z := Binary64.ofNat 0 }
    lastSentRotation := Binary64.ofNat 0
    lastSendTime := Binary64.ofNat 0 }

/-- The state `offlineState` once the socket exists. -/
def onlineState : LocalState Binary64 := { offlineState with socket := true }

/-- A buffer whose first state is older than one second at `now = 1006`,
followed by three recent states. -/
def lingering : List (TimedState ℚ) :=
  [sample 0 0, sample 900 1, sample 950 2, sample 1000 3]

/-- The buffer `lingering` without its newest state. -/
def lingeringShort : List (TimedState ℚ) :=
  [sample 0 0, sample 900 1, sample 950 2]

/-- A remote player announced at `(1, 0, 2)` with rotation 0. -/
def announced : OtherPlayerData ℚ :=
  { id := "r", name := some (JsVal.prim (Prim.str "Ann"))
    position := { x := some 1, y := some 0, z := some 2 }, rotation := some 0 }

/-- A state update for `"r"` that carries a velocity. -/
def movingUpdate : PlayerUpdatedMsg ℚ :=
  { id := "r", position := { x := 4, y := 0, z := 2 }, rotation := 0
    velocity := some { x := 5, y := 0, z := 5 }, timestamp := some 990 }

/-- The view of `"r"` after `announced` and `movingUpdate`. -/
def announcedView : RemotePlayer ℚ :=
  { id := some "r"
    name := some (JsVal.prim (Prim.str "Ann"))
    mesh := some { position := { x := some 1, y := some 0, z := some 2 }, rotationY := some 0 }
    position := some { x := some 1, y := some 0, z := some 2 }
    rotation := some 0
    buffer := some [bufferedState movingUpdate 1000]
    velocity := none
    angularVelocity := none
    input := none }

/-- The payload `moveTo` with a velocity added. -/
def speeding : UpdateData :=
  { moveTo with
    velocity := some (JsVal.obj [("x", Prim.num 9), ("y", Prim.num 0), ("z", Prim.num 9)]) }

/-- Player `"y"` of `twoRooms` after merging `speeding` at clock reading 7. -/
def speedingY : Player := mergeUpdate (defaultPlayer "y" "b") speeding 7

/-- No view has a `velocity` or an `angularVelocity` field. -/
def NoVelocity {α : Type} (players : JsMap (RemotePlayer α)) : Prop :=
  ∀ e ∈ players, e.2.velocity = none ∧ e.2.angularVelocity = none

/-- The relay after connections `"p0"` to `"p9"` joined (room `"i"` is
full), `"p0"` joined a second time (room `"j"` is created) and `"p11"` joined
(room `"j"` has space). -/
def rejoined : Server :=
  serve { game := Game.new, joined := [] }
    ((["p0", "p1", "p2", "p3", "p4", "p5", "p6", "p7", "p8", "p9"].map
        (fun c => (c, ClientMessage.playerJoin (some emptyJoin) "i" 0 0 0))) ++
      [("p0", ClientMessage.playerJoin (some emptyJoin) "j" 1 1 1),
       ("p11", ClientMessage.playerJoin (some emptyJoin) "k" 2 2 2)])

/-- The velocity `(30.5, 0, 0.3)`: `0.3` is the double
`5404319552844595 * 2^-54`. -/
def fastVelocity : Vec3 Binary64 :=
  { x := { neg := false, mant := 61, exp := -1 }
    y := Binary64.ofNat 0
    z := { neg := false, mant := 5404319552844595, exp := -54 } }

/-- Local state with the socket and the car, last sent 60 ms before clock
reading 1060 at `x = lastX`, and the car now at `x`; `z` and the rotation are
the last sent ones. -/
def sentAt (lastX x : Binary64) : LocalState Binary64 :=
  { socket := true
    car := some { position := { x := x, y := Binary64.literal 1 2, z := Binary64.ofNat 4 }
                  rotationY := Binary64.ofNat 1 }
    velocity := { x := Binary64.ofNat 0, y := Binary64.ofNat 0, z := Binary64.ofNat 0 }
    input := leftOnly
    keys := []
    lastSentPosition := { x := lastX, y := Binary64.literal 1 2, z := Binary64.ofNat 4 }
    lastSentRotation := Binary64.ofNat 1
    lastSendTime := Binary64.ofNat 1000 }

/-- Every registered player has the velocity assigned at join. -/
def VelocityInv (g : Game) : Prop :=
  ∀ e ∈ g.rooms, ∀ q ∈ e.2.players, q.2.velocity = zeroVelocity

/-- Registry invariant: room identifiers are distinct and no room holds more
than `maxPlayersPerRoom` players. -/
def RegistryInv (g : Game) : Prop :=
  JsMap.UniqueKeys g.rooms ∧ ∀ e ∈ g.rooms, JsMap.size e.2.players ≤ maxPlayersPerRoom

/-! ## Lemmas on insertion-ordered maps -/

namespace JsMap

variable {β : Type}

theorem mem_keys_of_mem {m : JsMap β} {e : String × β} (h : e ∈ m) : e.1 ∈ keys m :=
  List.mem_map_of_mem Prod.fst h

theorem get_eq_none_of_not_mem_keys {m : JsMap β} {k : String} (h : k ∉ keys m) :
    get m k = none := by
  induction m with
  | nil => rfl
  | cons e rest ih =>
    obtain ⟨k1, v1⟩ := e
    simp only [keys, List.map_cons, List.mem_cons, not_or] at h
    simp only [get]
    rw [if_neg (fun hk => h.1 hk.symm)]
    exact ih h.2

theorem mem_of_get {m : JsMap β} {k : String} {v : β} (h : get m k = some v) : (k, v) ∈ m := by
  induction m with
  | nil => simp [get] at h
  | cons e rest ih =>
    obtain ⟨k1, v1⟩ := e
    simp only [get] at h
    by_cases hk : k1 = k
    · rw [if_pos hk] at h
      cases h
      subst hk
      exact List.mem_cons_self _ _
    · rw [if_neg hk] at h
      exact List.mem_cons_of_mem _ (ih h)

theorem get_of_mem {m : JsMap β} (hu : UniqueKeys m) {e : String × β} (h : e ∈ m) :
    get m e.1 = some e.2 := by
  induction m with
  | nil => cases h
  | cons e1 rest ih =>
    obtain ⟨k1, v1⟩ := e1
    have hu1 : k1 ∉ keys rest ∧ (keys rest).Nodup := by
      simpa [UniqueKeys, keys] using hu
    rcases List.mem_cons.mp h with h1 | h1
    · subst h1
      simp [get]
    · have hne : k1 ≠ e.1 := fun hk => hu1.1 (hk ▸ mem_keys_of_mem h1)
      simp only [get]
      rw [if_neg hne]
      exact ih hu1.2 h1

theorem get_set_same (m : JsMap β) (k : String) (v : β) : get (set m k v) k = some v := by
  induction m with
  | nil => simp [set, get]
  | cons e rest ih =>
    obtain ⟨k1, v1⟩ := e
    by_cases hk : k1 = k
    · simp [set, get, hk]
    · simp [set, get, hk, ih]

theorem get_set_other (m : JsMap β) {k k0 : String} (v : β) (h : k ≠ k0) :
    get (set m k v) k0 = get m k0 := by
  induction m with
  | nil => simp [set, get, h]
  | cons e rest ih =>
    obtain ⟨k1, v1⟩ := e
    by_cases hk : k1 = k
    · subst hk
      simp [set, get, h]
    · simp only [set, if_neg hk, get, ih]

theorem mem_set {m : JsMap β} {k : String} {v : β} {e : String × β} (h : e ∈ set m k v) :
    e = (k, v) ∨ e ∈ m := by
  induction m with
  | nil =>
    simp only [set, List.mem_singleton] at h
    exact Or.inl h
  | cons e1 rest ih =>
    obtain ⟨k1, v1⟩ := e1
    simp only [set] at h
    by_cases hk : k1 = k
    · rw [if_pos hk] at h
      rcases List.mem_cons.mp h with h1 | h1
      · exact Or.inl h1
      · exact Or.inr (List.mem_cons_of_mem _ h1)
    · rw [if_neg hk] at h
      rcases List.mem_cons.mp h with h1 | h1
      · exact Or.inr (h1 ▸ List.mem_cons_self _ _)
      · rcases ih h1 with h2 | h2
        · exact Or.inl h2
        · exact Or.inr (List.mem_cons_of_mem _ h2)

theorem set_of_not_mem_keys {m : JsMap β} {k : String} (v : β) (h : k ∉ keys m) :
    set m k v = m ++ [(k, v)] := by
  induction m with
  | nil => rfl
  | cons e rest ih =>
    obtain ⟨k1, v1⟩ := e
    simp only [keys, List.map_cons, List.mem_cons, not_or] at h
    simp only [set]
    rw [if_neg (fun hk => h.1 hk.symm), ih h.2]
    rfl

theorem keys_set_of_mem_keys {m : JsMap β} {k : String} (v : β) (h : k ∈ keys m) :
    keys (set m k v) = keys m := by
  induction m with
  | nil => simp [keys] at h
  | cons e rest ih =>
    obtain ⟨k1, v1⟩ := e
    by_cases hk : k1 = k
    · simp [set, keys, hk]
    · have h1 : k ∈ keys rest := by
        simp only [keys, List.map_cons, List.mem_cons] at h
        rcases h with h | h
        · exact absurd h.symm hk
        · exact h
      have := ih h1
      simp only [keys] at this
      simp [set, keys, hk, this]

theorem uniqueKeys_set {m : JsMap β} (hu : UniqueKeys m) (k : String) (v : β) :
    UniqueKeys (set m k v) := by
  by_cases h : k ∈ keys m
  · unfold UniqueKeys
    rw [keys_set_of_mem_keys v h]
    exact hu
  · unfold UniqueKeys
    rw [set_of_not_mem_keys v h]
    simp only [keys, List.map_append, List.map_cons, List.map_nil]
    refine List.Nodup.append hu (List.nodup_singleton k) ?_
    intro a ha hb
    rw [List.mem_singleton] at hb
    subst hb
    exact h ha

theorem length_set_le (m : JsMap β) (k : String) (v : β) : (set m k v).length ≤ m.length + 1 := by
  induction m with
  | nil => simp [set]
  | cons e rest ih =>
    obtain ⟨k1, v1⟩ := e
    by_cases hk : k1 = k
    · simp [set, hk]
    · simp [set, hk]
      omega

theorem length_set_of_get {m : JsMap β} {k : String} {v0 : β} (v : β) (h : get m k = some v0) :
    (set m k v).length = m.length := by
  induction m with
  | nil => simp [get] at h
  | cons e rest ih =>
    obtain ⟨k1, v1⟩ := e
    by_cases hk : k1 = k
    · simp [set, hk]
    · simp only [get, if_neg hk] at h
      simp [set, hk, ih h]

theorem delete_sublist (m : JsMap β) (k : String) : List.Sublist (delete m k) m := by
  induction m with
  | nil => exact List.Sublist.refl _
  | cons e rest ih =>
    obtain ⟨k1, v1⟩ := e
    by_cases hk : k1 = k
    · simp only [delete, if_pos hk]
      exact List.sublist_cons_self _ _
    · simp only [delete, if_neg hk]
      exact List.Sublist.cons₂ _ ih

theorem mem_of_mem_delete {m : JsMap β} {k : String} {e : String × β} (h : e ∈ delete m k) :
    e ∈ m :=
  (delete_sublist m k).subset h

theorem uniqueKeys_delete {m : JsMap β} (hu : UniqueKeys m) (k : String) :
    UniqueKeys (delete m k) :=
  List.Nodup.sublist ((delete_sublist m k).map Prod.fst) hu

theorem length_delete_le (m : JsMap β) (k : String) : (delete m k).length ≤ m.length :=
  (delete_sublist m k).length_le

theorem not_mem_keys_prefix {pre post : JsMap β} {k : String} {v : β}
    (hu : UniqueKeys (pre ++ (k, v) :: post)) : k ∉ keys pre := by
  intro hk
  have hu1 : (keys pre ++ k :: keys post).Nodup := by
    simpa [UniqueKeys, keys] using hu
  exact (List.nodup_append.mp hu1).2.2 hk (List.mem_cons_self _ _)

theorem set_append_of_not_mem {pre : JsMap β} {k : String} (v0 v : β) (post : JsMap β)
    (h : k ∉ keys pre) : set (pre ++ (k, v0) :: post) k v = pre ++ (k, v) :: post := by
  induction pre with
  | nil => simp [set]
  | cons e rest ih =>
    obtain ⟨k1, v1⟩ := e
    simp only [keys, List.map_cons, List.mem_cons, not_or] at h
    show set ((k1, v1) :: (rest ++ (k, v0) :: post)) k v = (k1, v1) :: (rest ++ (k, v) :: post)
    simp only [set]
    rw [if_neg (fun hk => h.1 hk.symm), ih h.2]

theorem delete_append_of_not_mem {pre : JsMap β} {k : String} (v0 : β) (post : JsMap β)
    (h : k ∉ keys pre) : delete (pre ++ (k, v0) :: post) k = pre ++ post := by
  induction pre with
  | nil => simp [delete]
  | cons e rest ih =>
    obtain ⟨k1, v1⟩ := e
    simp only [keys, List.map_cons, List.mem_cons, not_or] at h
    show delete ((k1, v1) :: (rest ++ (k, v0) :: post)) k = (k1, v1) :: (rest ++ post)
    simp only [delete]
    rw [if_neg (fun hk => h.1 hk.symm), ih h.2]

theorem get_delete_same {m : JsMap β} (hu : UniqueKeys m) (k : String) :
    get (delete m k) k = none := by
  induction m with
  | nil => rfl
  | cons e rest ih =>
    obtain ⟨k1, v1⟩ := e
    have hu1 : k1 ∉ keys rest ∧ (keys rest).Nodup := by
      simpa [UniqueKeys, keys] using hu
    by_cases hk : k1 = k
    · simp only [delete, if_pos hk]
      exact get_eq_none_of_not_mem_keys (hk ▸ hu1.1)
    · simp only [delete, if_neg hk, get]
      exact ih hu1.2

theorem get_delete_other (m : JsMap β) {k k0 : String} (h : k0 ≠ k) :
    get (delete m k) k0 = get m k0 := by
  induction m with
  | nil => rfl
  | cons e rest ih =>
    obtain ⟨k1, v1⟩ := e
    by_cases hk : k1 = k
    · have hne : k1 ≠ k0 := fun h0 => h (h0.symm.trans hk)
      simp only [delete, if_pos hk, get, if_neg hne]
    · simp only [delete, if_neg hk, get, ih]

theorem length_delete_of_get {m : JsMap β} {k : String} {v : β} (h : get m k = some v) :
    (delete m k).length + 1 = m.length := by
  induction m with
  | nil => simp [get] at h
  | cons e rest ih =>
    obtain ⟨k1, v1⟩ := e
    by_cases hk : k1 = k
    · simp [delete, hk]
    · simp only [get, if_neg hk] at h
      simp [delete, hk, ih h]

end JsMap

/-! ## Room lookup and creation -/

theorem find_open_room_get {g : Game} (hu : JsMap.UniqueKeys g.rooms) {e : String × Room}
    (h : g.rooms.find? (fun e => decide (JsMap.size e.2.players < maxPlayersPerRoom)) = some e) :
    JsMap.get g.rooms e.1 = some e.2 ∧ JsMap.size e.2.players < maxPlayersPerRoom := by
  refine ⟨JsMap.get_of_mem hu (List.mem_of_find?_eq_some h), ?_⟩
  have := List.find?_some h
  simpa using this

theorem findAvailableRoom_spec (g : Game) (hu : JsMap.UniqueKeys g.rooms) (rand : String)
    (now : Int) :
    JsMap.UniqueKeys (findAvailableRoom g rand now).2.rooms ∧
    ∃ room, JsMap.get (findAvailableRoom g rand now).2.rooms (findAvailableRoom g rand now).1
        = some room ∧
      JsMap.size room.players < maxPlayersPerRoom ∧
      (room ∈ g.rooms.map Prod.snd ∨ room.players = []) := by
  unfold findAvailableRoom
  cases hfind : g.rooms.find? (fun e => decide (JsMap.size e.2.players < maxPlayersPerRoom)) with
  | none =>
    refine ⟨JsMap.uniqueKeys_set hu _ _, _, JsMap.get_set_same _ _ _, ?_, Or.inr rfl⟩
    simp [JsMap.size, maxPlayersPerRoom]
  | some e =>
    obtain ⟨h1, h2⟩ := find_open_room_get hu hfind
    exact ⟨hu, e.2, h1, h2, Or.inl (List.mem_map_of_mem Prod.snd (List.mem_of_find?_eq_some hfind))⟩

/-- C1: on every registry (a `Map`, so no room identifier occurs twice) and
for every identifier and clock value read by `createRoom`, the identifier
returned by `findAvailableRoom` is registered after the call and its room holds
strictly fewer than `maxPlayersPerRoom` = 10 players. -/
theorem findAvailableRoom_below_capacity (g : Game) (hu : JsMap.UniqueKeys g.rooms)
    (rand : String) (now : Int) :
    ∃ room, JsMap.get (findAvailableRoom g rand now).2.rooms (findAvailableRoom g rand now).1
        = some room ∧
      JsMap.size room.players < maxPlayersPerRoom ∧ maxPlayersPerRoom = 10 := by
  obtain ⟨_, room, h1, h2, _⟩ := findAvailableRoom_spec g hu rand now
  exact ⟨room, h1, h2, rfl⟩

/-- Instance of C1 on the registry whose only room is full: the call creates
room `"j"`, registered and empty. -/
theorem findAvailableRoom_below_capacity_witness :
    JsMap.UniqueKeys fullRegistry.rooms ∧
    ∃ room, JsMap.get (findAvailableRoom fullRegistry "j" 7).2.rooms
        (findAvailableRoom fullRegistry "j" 7).1 = some room ∧
      JsMap.size room.players < maxPlayersPerRoom ∧ maxPlayersPerRoom = 10 :=
  ⟨by decide, findAvailableRoom_below_capacity fullRegistry (by decide) "j" 7⟩

/-- C2 as stated fails: the registry holds the single room `"i"` with ten
players; when the generator yields `"i"` again, `findAvailableRoom` returns
`"i"`, the registry still has one room, and that room has lost its players. -/
theorem findAvailableRoom_collision :
    fullRegistry.rooms.map (fun e => (e.1, JsMap.size e.2.players)) = [("i", 10)] ∧
    (findAvailableRoom fullRegistry "i" 5).1 = "i" ∧
    (findAvailableRoom fullRegistry "i" 5).2.rooms.map (fun e => (e.1, JsMap.size e.2.players))
      = [("i", 0)] := by
  decide

/-- C2 amended: when every registered room is at capacity and the generated
identifier is not yet registered, `findAvailableRoom` returns that identifier
and the registry is the old one, unchanged, followed by one new room without
players; it then has exactly one room more. -/
theorem findAvailableRoom_creates_one_room (g : Game) (rand : String) (now : Int)
    (hfull : ∀ e ∈ g.rooms, maxPlayersPerRoom ≤ JsMap.size e.2.players)
    (hfresh : rand ∉ JsMap.keys g.rooms) :
    findAvailableRoom g rand now =
      (rand, { rooms := g.rooms ++ [(rand, { players := [], objects := [], lastActivity := now })] })
    ∧ (findAvailableRoom g rand now).2.rooms.length = g.rooms.length + 1 := by
  have hnone : g.rooms.find? (fun e => decide (JsMap.size e.2.players < maxPlayersPerRoom))
      = none := by
    rw [List.find?_eq_none]
    intro e he
    have := hfull e he
    simp only [decide_eq_true_eq, not_lt]
    exact this
  have heq : findAvailableRoom g rand now =
      (rand, { rooms := g.rooms ++ [(rand, { players := [], objects := [], lastActivity := now })] }) := by
    unfold findAvailableRoom
    rw [hnone]
    simp only [createRoom]
    rw [JsMap.set_of_not_mem_keys _ hfresh]
  refine ⟨heq, ?_⟩
  rw [heq]
  simp

/-- Instance of the amended C2: one full room `"i"`, generated identifier `"j"`. -/
theorem findAvailableRoom_creates_one_room_witness :
    (findAvailableRoom fullRegistry "j" 7 =
      ("j", { rooms := fullRegistry.rooms ++
        [("j", { players := [], objects := [], lastActivity := 7 })] })
    ∧ (findAvailableRoom fullRegistry "j" 7).2.rooms.length = fullRegistry.rooms.length + 1) :=
  findAvailableRoom_creates_one_room fullRegistry "j" 7 (by decide) (by decide)

/-! ## Removing a player -/

theorem removePlayerLoop_skip (pre rest : List (String × Room)) (g : Game) (socketId : String)
    (hpre : ∀ e ∈ pre, JsMap.get e.2.players socketId = none) :
    removePlayerLoop (pre ++ rest) g socketId = removePlayerLoop rest g socketId := by
  induction pre with
  | nil => rfl
  | cons e tl ih =>
    obtain ⟨k1, r1⟩ := e
    have h1 : JsMap.get r1.players socketId = none := hpre (k1, r1) (List.mem_cons_self _ _)
    simp only [List.cons_append, removePlayerLoop, h1]
    exact ih (fun e he => hpre e (List.mem_cons_of_mem _ he))

/-- C3 fails on the code, through a repeated join: in `twiceJoined`, a
registry reached from the empty one, connection `"p0"` is in room `"i"` (ten
players) and in room `"j"` (alone).  `removePlayer "p0"` takes it out of `"i"`
and returns `"i"`; room `"j"`, whose only player is `"p0"`, is not deleted and
keeps `"p0"`. -/
theorem removePlayer_second_room_kept :
    twiceJoined.rooms.map (fun e => (e.1, JsMap.keys e.2.players)) =
      [("i", ["p0", "p1", "p2", "p3", "p4", "p5", "p6", "p7", "p8", "p9"]), ("j", ["p0"])] ∧
    (removePlayer twiceJoined "p0").1.map Prod.snd = some "i" ∧
    (removePlayer twiceJoined "p0").2.rooms.map (fun e => (e.1, JsMap.keys e.2.players)) =
      [("i", ["p1", "p2", "p3", "p4", "p5", "p6", "p7", "p8", "p9"]), ("j", ["p0"])] := by
  decide

/-- The loop of `removePlayer` at the room where it stops.  Let `R`,
registered as `roomId`, be the first room in iteration order that holds the
connection (its only room when it joined once), with `p` its player there.
`removePlayer` returns `p` and `roomId`.  If `R` has exactly one player, `R` is
deleted and the other rooms are unchanged; if `R` has at least two, it stays
registered in place with one player fewer, the connection is gone from it, and
every other player of `R` is unchanged. -/
theorem removePlayer_first_room (g : Game) (socketId roomId : String) (R : Room) (p : Player)
    (pre post : List (String × Room))
    (hu : JsMap.UniqueKeys g.rooms) (hR : JsMap.UniqueKeys R.players)
    (hg : g.rooms = pre ++ (roomId, R) :: post)
    (hpre : ∀ e ∈ pre, JsMap.get e.2.players socketId = none)
    (hp : JsMap.get R.players socketId = some p) :
    (removePlayer g socketId).1 = some (p, roomId) ∧
    (JsMap.size R.players = 1 → (removePlayer g socketId).2.rooms = pre ++ post) ∧
    (2 ≤ JsMap.size R.players →
      (removePlayer g socketId).2.rooms =
        pre ++ (roomId, { R with players := JsMap.delete R.players socketId }) :: post ∧
      JsMap.size (JsMap.delete R.players socketId) = JsMap.size R.players - 1 ∧
      JsMap.get (JsMap.delete R.players socketId) socketId = none ∧
      ∀ other, other ≠ socketId →
        JsMap.get (JsMap.delete R.players socketId) other = JsMap.get R.players other) := by
  have hk : roomId ∉ JsMap.keys pre := JsMap.not_mem_keys_prefix (hg ▸ hu)
  have hlen := JsMap.length_delete_of_get hp
  have hloop : removePlayer g socketId =
      (some (p, roomId),
        if JsMap.size (JsMap.delete R.players socketId) = 0 then
          { rooms := JsMap.delete (JsMap.set g.rooms roomId
              { R with players := JsMap.delete R.players socketId }) roomId }
        else
          { rooms := JsMap.set g.rooms roomId
              { R with players := JsMap.delete R.players socketId } }) := by
    have hskip := removePlayerLoop_skip pre ((roomId, R) :: post) g socketId hpre
    rw [← hg] at hskip
    unfold removePlayer
    rw [hskip]
    simp only [removePlayerLoop, hp]
  have hset : JsMap.set g.rooms roomId { R with players := JsMap.delete R.players socketId } =
      pre ++ (roomId, { R with players := JsMap.delete R.players socketId }) :: post := by
    rw [hg]
    exact JsMap.set_append_of_not_mem _ _ _ hk
  refine ⟨by rw [hloop], ?_, ?_⟩
  · intro h1
    have h0 : JsMap.size (JsMap.delete R.players socketId) = 0 := by
      simp only [JsMap.size] at h1 ⊢
      omega
    rw [hloop]
    simp only [h0, if_true]
    rw [hset]
    exact JsMap.delete_append_of_not_mem _ _ hk
  · intro h2
    have h0 : ¬ JsMap.size (JsMap.delete R.players socketId) = 0 := by
      simp only [JsMap.size] at h2 ⊢
      omega
    refine ⟨?_, ?_, JsMap.get_delete_same hR socketId, ?_⟩
    · rw [hloop]
      simp only [h0, if_false]
      exact hset
    · simp only [JsMap.size]
      omega
    · intro other hne
      exact JsMap.get_delete_other _ hne

/-- Instance of `removePlayer_first_room`: in `twoRooms`, connection `"y"` is
in room `"b"` only, which has two players and keeps `"z"`. -/
theorem removePlayer_first_room_witness :
    (removePlayer twoRooms "y").1 = some (defaultPlayer "y" "b", "b") ∧
    (JsMap.size roomB.players = 1 → (removePlayer twoRooms "y").2.rooms = [("a", roomA)] ++ []) ∧
    (2 ≤ JsMap.size roomB.players →
      (removePlayer twoRooms "y").2.rooms =
        [("a", roomA)] ++ ("b", { roomB with players := JsMap.delete roomB.players "y" }) :: [] ∧
      JsMap.size (JsMap.delete roomB.players "y") = JsMap.size roomB.players - 1 ∧
      JsMap.get (JsMap.delete roomB.players "y") "y" = none ∧
      ∀ other, other ≠ "y" →
        JsMap.get (JsMap.delete roomB.players "y") other = JsMap.get roomB.players other) :=
  removePlayer_first_room twoRooms "y" "b" roomB (defaultPlayer "y" "b") [("a", roomA)] []
    (by decide) (by decide) rfl (by decide) (by decide)

/-! ## Updating a player -/

theorem get_objAssign_absent (target source : Obj) (f : String)
    (h : JsMap.get source f = none) :
    JsMap.get (objAssign target source) f = JsMap.get target f := by
  induction source generalizing target with
  | nil => rfl
  | cons e rest ih =>
    obtain ⟨k, v⟩ := e
    by_cases hk : k = f
    · simp [JsMap.get, hk] at h
    · simp only [JsMap.get, if_neg hk] at h
      show JsMap.get (objAssign (JsMap.set target k v) rest) f = JsMap.get target f
      rw [ih _ h, JsMap.get_set_other _ _ hk]

theorem get_objAssign_present (target source : Obj) (f : String) (x : Prim)
    (hu : JsMap.UniqueKeys source) (h : JsMap.get source f = some x) :
    JsMap.get (objAssign target source) f = some x := by
  induction source generalizing target with
  | nil => simp [JsMap.get] at h
  | cons e rest ih =>
    obtain ⟨k, v⟩ := e
    have hu1 : k ∉ JsMap.keys rest ∧ (JsMap.keys rest).Nodup := by
      simpa [JsMap.UniqueKeys, JsMap.keys] using hu
    show JsMap.get (objAssign (JsMap.set target k v) rest) f = some x
    by_cases hk : k = f
    · simp only [JsMap.get, if_pos hk] at h
      cases h
      subst hk
      rw [get_objAssign_absent _ _ _ (JsMap.get_eq_none_of_not_mem_keys hu1.1)]
      exact JsMap.get_set_same _ _ _
    · simp only [JsMap.get, if_neg hk] at h
      exact ih _ hu1.2 h

theorem get_objAssign (target source : Obj) (f : String) (hu : JsMap.UniqueKeys source) :
    JsMap.get (objAssign target source) f =
      match JsMap.get source f with
      | some x => some x
      | none => JsMap.get target f := by
  cases h : JsMap.get source f with
  | none => exact get_objAssign_absent _ _ _ h
  | some x => exact get_objAssign_present _ _ _ _ hu h

theorem updatePlayerLoop_skip (pre rest : List (String × Room)) (g : Game) (socketId : String)
    (data : Option UpdateData) (now : Int)
    (hpre : ∀ e ∈ pre, JsMap.get e.2.players socketId = none) :
    updatePlayerLoop (pre ++ rest) g socketId data now =
      updatePlayerLoop rest g socketId data now := by
  induction pre with
  | nil => rfl
  | cons e tl ih =>
    obtain ⟨k1, r1⟩ := e
    have h1 : JsMap.get r1.players socketId = none := hpre (k1, r1) (List.mem_cons_self _ _)
    simp only [List.cons_append, updatePlayerLoop, h1]
    exact ih (fun e he => hpre e (List.mem_cons_of_mem _ he))

theorem findSome_split {β γ : Type} (f : β → Option γ) (l : List β) (c : γ)
    (h : l.findSome? f = some c) :
    ∃ pre e post, l = pre ++ e :: post ∧ (∀ x ∈ pre, f x = none) ∧ f e = some c := by
  induction l with
  | nil => simp at h
  | cons a tl ih =>
    cases ha : f a with
    | some c1 =>
      simp only [List.findSome?, ha] at h
      cases h
      exact ⟨[], a, tl, rfl, by simp, ha⟩
    | none =>
      simp only [List.findSome?, ha] at h
      obtain ⟨pre, e, post, h1, h2, h3⟩ := ih h
      refine ⟨a :: pre, e, post, by rw [h1]; rfl, ?_, h3⟩
      intro x hx
      rcases List.mem_cons.mp hx with hx | hx
      · exact hx ▸ ha
      · exact h2 x hx

theorem findSome_of_split {β γ : Type} (f : β → Option γ) (pre post : List β) (e : β) (c : γ)
    (hpre : ∀ x ∈ pre, f x = none) (he : f e = some c) :
    (pre ++ e :: post).findSome? f = some c := by
  induction pre with
  | nil => simp [List.findSome?, he]
  | cons a tl ih =>
    have ha : f a = none := hpre a (List.mem_cons_self _ _)
    simp only [List.cons_append, List.findSome?, ha]
    exact ih (fun x hx => hpre x (List.mem_cons_of_mem _ hx))

theorem updatePlayer_found (g : Game) (socketId roomId : String) (R : Room) (p : Player)
    (pre post : List (String × Room)) (d : UpdateData) (now : Int)
    (hu : JsMap.UniqueKeys g.rooms)
    (hg : g.rooms = pre ++ (roomId, R) :: post)
    (hpre : ∀ e ∈ pre, JsMap.get e.2.players socketId = none)
    (hp : JsMap.get R.players socketId = some p) :
    updatePlayer g socketId (some d) now =
      (Completion.returned (some (mergeUpdate p d now,
          { R with players := JsMap.set R.players socketId (mergeUpdate p d now) })),
        { rooms := pre ++ (roomId,
          { R with players := JsMap.set R.players socketId (mergeUpdate p d now) }) :: post }) := by
  have hk : roomId ∉ JsMap.keys pre := JsMap.not_mem_keys_prefix (hg ▸ hu)
  have hskip := updatePlayerLoop_skip pre ((roomId, R) :: post) g socketId (some d) now hpre
  rw [← hg] at hskip
  unfold updatePlayer
  rw [hskip]
  simp only [updatePlayerLoop, hp]
  rw [hg, JsMap.set_append_of_not_mem _ _ _ hk]

theorem ownProps_of_not_truthy (v : JsVal) (h : ¬ truthy (some v) = true) : ownProps v = [] := by
  cases v with
  | obj o => simp [truthy] at h
  | prim q =>
    cases q with
    | null => rfl
    | bool b => rfl
    | num n => rfl
    | str t =>
      have ht : t = "" := by simpa [truthy] using h
      subst ht
      rfl

theorem mergeUpdate_input (p : Player) (d : UpdateData) (now : Int) (f : String)
    (hdi : ∀ v, d.input = some v → JsMap.UniqueKeys (ownProps v)) :
    JsMap.get (mergeUpdate p d now).input f =
      match payloadField d.input f with
      | some x => some x
      | none => JsMap.get p.input f := by
  cases hin : d.input with
  | none => simp [mergeUpdate, payloadField, hin]
  | some v =>
    by_cases ht : truthy (some v) = true
    · simp only [mergeUpdate, payloadField, hin, ht, if_true]
      exact get_objAssign _ _ _ (hdi v hin)
    · simp [mergeUpdate, payloadField, hin, ht, ownProps_of_not_truthy v ht, JsMap.get]

theorem mergeUpdate_position (p : Player) (d : UpdateData) (now : Int) (f : String)
    (hpos : JsMap.UniqueKeys (ownProps p.position))
    (hdp : ∀ v, d.position = some v → JsMap.UniqueKeys (ownProps v)) :
    JsMap.get (ownProps (mergeUpdate p d now).position) f =
      match payloadField d.position f with
      | some x => some x
      | none => JsMap.get (ownProps p.position) f := by
  cases hin : d.position with
  | none => simp [mergeUpdate, payloadField, hin]
  | some v =>
    by_cases ht : truthy (some v) = true
    · simp only [mergeUpdate, payloadField, hin, ht, if_true]
      show JsMap.get (objAssign (objAssign [] (ownProps p.position)) (ownProps v)) f = _
      rw [get_objAssign _ _ _ (hdp v hin), get_objAssign _ _ _ hpos]
      cases JsMap.get (ownProps v) f with
      | some x => rfl
      | none =>
        cases JsMap.get (ownProps p.position) f with
        | some y => rfl
        | none => rfl
    · simp [mergeUpdate, payloadField, hin, ht, ownProps_of_not_truthy v ht, JsMap.get]

/-- C4: for a known connection (its player `p` is what `getPlayer` finds) and
an update payload whose members are objects with distinct keys, `updatePlayer`
returns the merged player `p1`, which is then the registered one, and for
every field name `f` (so for forward, backward, left, right and x, y, z): the
input field `f` of `p1` is the update's value when the update's input carries
`f` and the previous value otherwise; the same holds for the position field
`f`; the rotation is the update's when it carries one and the previous one
otherwise. -/
theorem updatePlayer_partial_merge (g : Game) (socketId : String) (data : UpdateData)
    (now : Int) (p : Player)
    (hu : JsMap.UniqueKeys g.rooms)
    (hp : getPlayer g socketId = some p)
    (hpos : JsMap.UniqueKeys (ownProps p.position))
    (hdi : ∀ v, data.input = some v → JsMap.UniqueKeys (ownProps v))
    (hdp : ∀ v, data.position = some v → JsMap.UniqueKeys (ownProps v)) :
    ∃ p1 room1,
      (updatePlayer g socketId (some data) now).1 = Completion.returned (some (p1, room1)) ∧
      getPlayer (updatePlayer g socketId (some data) now).2 socketId = some p1 ∧
      JsMap.get room1.players socketId = some p1 ∧
      (∀ f, JsMap.get p1.input f =
        match payloadField data.input f with
        | some x => some x
        | none => JsMap.get p.input f) ∧
      (∀ f, JsMap.get (ownProps p1.position) f =
        match payloadField data.position f with
        | some x => some x
        | none => JsMap.get (ownProps p.position) f) ∧
      p1.rotation =
        (match data.rotation with
        | some r => r
        | none => p.rotation) := by
  obtain ⟨pre, e, post, hg, hpre, he⟩ := findSome_split _ _ _ hp
  obtain ⟨roomId, R⟩ := e
  have hupd := updatePlayer_found g socketId roomId R p pre post data now hu hg hpre he
  refine ⟨mergeUpdate p data now,
    { R with players := JsMap.set R.players socketId (mergeUpdate p data now) }, ?_, ?_, ?_,
    fun f => mergeUpdate_input p data now f hdi,
    fun f => mergeUpdate_position p data now f hpos hdp, ?_⟩
  · rw [hupd]
  · rw [hupd]
    exact findSome_of_split _ pre post _ _ hpre (JsMap.get_set_same _ _ _)
  · exact JsMap.get_set_same _ _ _
  · cases hr : data.rotation with
    | none => simp [mergeUpdate, hr]
    | some r => simp [mergeUpdate, hr]

/-- Instance of C4: merging `{input: {forward: true}}` for connection `"y"` of
`twoRooms`. -/
theorem updatePlayer_partial_merge_witness :
    ∃ p1 room1,
      (updatePlayer twoRooms "y" (some forwardOnly) 9).1
        = Completion.returned (some (p1, room1)) ∧
      getPlayer (updatePlayer twoRooms "y" (some forwardOnly) 9).2 "y" = some p1 ∧
      JsMap.get room1.players "y" = some p1 ∧
      (∀ f, JsMap.get p1.input f =
        match payloadField forwardOnly.input f with
        | some x => some x
        | none => JsMap.get (defaultPlayer "y" "b").input f) ∧
      (∀ f, JsMap.get (ownProps p1.position) f =
        match payloadField forwardOnly.position f with
        | some x => some x
        | none => JsMap.get (ownProps (defaultPlayer "y" "b").position) f) ∧
      p1.rotation =
        (match forwardOnly.rotation with
        | some r => r
        | none => (defaultPlayer "y" "b").rotation) :=
  updatePlayer_partial_merge twoRooms "y" forwardOnly 9 (defaultPlayer "y" "b")
    (by decide) (by decide) (by decide)
    (by intro v hv; cases hv; decide) (by intro v hv; cases hv)

/-- C5 fails on the code: `updatePlayer` stamps the player's `lastUpdate` but
never assigns `room.lastActivity` (only `createRoom` and `addPlayer` do).  In
`soloRegistry` the room was last active at 0; after a successful update at
clock reading 5 the player's `lastUpdate` is 5 and the room's `lastActivity`,
in the registry and in the returned room, is still 0. -/
theorem updatePlayer_lastActivity_not_stamped :
    soloRegistry.rooms.map (fun e => e.2.lastActivity) = [0] ∧
    (updatePlayer soloRegistry "a" (some emptyUpdate) 5).2.rooms.map
      (fun e => (e.2.lastActivity, e.2.players.map (fun q => q.2.lastUpdate))) = [(0, [5])] ∧
    (match (updatePlayer soloRegistry "a" (some emptyUpdate) 5).1 with
      | Completion.returned (some r) => some (r.1.lastUpdate, r.2.lastActivity)
      | _ => none) = some (5, 0) := by
  decide

/-! ## Cleaning up inactive rooms -/

theorem cleanupLoop_spec (l done : List (String × Room)) (removed : Nat) (now maxInactiveTime : Int)
    (hu : JsMap.UniqueKeys (done ++ l)) :
    cleanupLoop l { rooms := done ++ l } removed now maxInactiveTime =
      (removed + (l.filter (fun e => decide (now - e.2.lastActivity > maxInactiveTime))).length,
        { rooms := done ++ l.filter (fun e => !decide (now - e.2.lastActivity > maxInactiveTime)) })
    := by
  induction l generalizing done removed with
  | nil => simp [cleanupLoop]
  | cons e rest ih =>
    obtain ⟨k, r⟩ := e
    have hk : k ∉ JsMap.keys done := JsMap.not_mem_keys_prefix hu
    by_cases hs : now - r.lastActivity > maxInactiveTime
    · have hu1 : JsMap.UniqueKeys (done ++ rest) := by
        have := JsMap.uniqueKeys_delete hu k
        rwa [JsMap.delete_append_of_not_mem _ _ hk] at this
      simp only [cleanupLoop, if_pos hs]
      rw [JsMap.delete_append_of_not_mem _ _ hk, ih done (removed + 1) hu1]
      simp [List.filter, hs]
      omega
    · have hu1 : JsMap.UniqueKeys ((done ++ [(k, r)]) ++ rest) := by
        simpa using hu
      have hstep := ih (done ++ [(k, r)]) removed hu1
      simp only [List.append_assoc, List.singleton_append] at hstep
      simp only [cleanupLoop, if_neg hs]
      rw [hstep]
      simp [List.filter, hs]

/-- C6: on every registry (a `Map`: no room identifier twice), for every clock
reading `now` and threshold, `cleanupInactiveRooms` leaves exactly the rooms
with `now - lastActivity <= maxInactiveTime`, unchanged and in their order,
and returns the number of rooms with `now - lastActivity > maxInactiveTime`,
which is the size before minus the size after. -/
theorem cleanupInactiveRooms_spec (g : Game) (now maxInactiveTime : Int)
    (hu : JsMap.UniqueKeys g.rooms) :
    (cleanupInactiveRooms g now maxInactiveTime).2.rooms =
      g.rooms.filter (fun e => !decide (now - e.2.lastActivity > maxInactiveTime)) ∧
    (cleanupInactiveRooms g now maxInactiveTime).1 =
      (g.rooms.filter (fun e => decide (now - e.2.lastActivity > maxInactiveTime))).length ∧
    (cleanupInactiveRooms g now maxInactiveTime).1 =
      g.rooms.length - (cleanupInactiveRooms g now maxInactiveTime).2.rooms.length := by
  have h := cleanupLoop_spec g.rooms [] 0 now maxInactiveTime (by simpa using hu)
  simp only [List.nil_append, Nat.zero_add] at h
  have h1 : (cleanupInactiveRooms g now maxInactiveTime) = _ := h
  rw [h1]
  refine ⟨rfl, rfl, ?_⟩
  have hlen := @List.length_eq_length_filter_add _ g.rooms
    (fun e : String × Room => decide (now - e.2.lastActivity > maxInactiveTime))
  show _ = g.rooms.length -
    (g.rooms.filter (fun e => !decide (now - e.2.lastActivity > maxInactiveTime))).length
  omega

/-- Instance of C6: in `twoRooms` at clock reading 400001 with the default
threshold of five minutes, room `"a"` (last active at 0) is removed, the count
is 1, and room `"b"` (last active at 400000) is retained. -/
theorem cleanupInactiveRooms_spec_witness :
    ((cleanupInactiveRooms twoRooms 400001 300000).2.rooms =
      twoRooms.rooms.filter (fun e => !decide (400001 - e.2.lastActivity > (300000 : Int))) ∧
    (cleanupInactiveRooms twoRooms 400001 300000).1 =
      (twoRooms.rooms.filter
        (fun e => decide (400001 - e.2.lastActivity > (300000 : Int)))).length ∧
    (cleanupInactiveRooms twoRooms 400001 300000).1 =
      twoRooms.rooms.length - (cleanupInactiveRooms twoRooms 400001 300000).2.rooms.length) ∧
    (cleanupInactiveRooms twoRooms 400001 300000).1 = 1 ∧
    (cleanupInactiveRooms twoRooms 400001 300000).2.rooms = [("b", roomB)] :=
  ⟨cleanupInactiveRooms_spec twoRooms 400001 300000 (by decide), by decide, by decide⟩

/-! ## Room capacity is an invariant -/

theorem registryInv_new : RegistryInv Game.new :=
  ⟨List.nodup_nil, fun _ h => absurd h (List.not_mem_nil _)⟩

theorem registryInv_set {g : Game} (h : RegistryInv g) (k : String) (room : Room)
    (hroom : JsMap.size room.players ≤ maxPlayersPerRoom) :
    RegistryInv { rooms := JsMap.set g.rooms k room } := by
  refine ⟨JsMap.uniqueKeys_set h.1 k room, ?_⟩
  intro e he
  rcases JsMap.mem_set he with h1 | h1
  · rw [h1]
    exact hroom
  · exact h.2 e h1

theorem registryInv_delete {g : Game} (h : RegistryInv g) (k : String) :
    RegistryInv { rooms := JsMap.delete g.rooms k } :=
  ⟨JsMap.uniqueKeys_delete h.1 k, fun e he => h.2 e (JsMap.mem_of_mem_delete he)⟩

theorem registryInv_createRoom {g : Game} (h : RegistryInv g) (rand : String) (now : Int) :
    RegistryInv (createRoom g rand now).2 :=
  registryInv_set h rand _ (by simp [JsMap.size])

theorem registryInv_findAvailableRoom {g : Game} (h : RegistryInv g) (rand : String)
    (now : Int) : RegistryInv (findAvailableRoom g rand now).2 := by
  unfold findAvailableRoom
  cases g.rooms.find? (fun e => decide (JsMap.size e.2.players < maxPlayersPerRoom)) with
  | none => exact registryInv_createRoom h rand now
  | some e => exact h

theorem registryInv_addPlayer {g : Game} (h : RegistryInv g) (socketId : String)
    (playerData : Option JoinData) (rand : String) (tCreate tPlayer tRoom : Int) :
    RegistryInv (addPlayer g socketId playerData rand tCreate tPlayer tRoom).2 := by
  have hinv := registryInv_findAvailableRoom h rand tCreate
  obtain ⟨_, room, hget, hlt, _⟩ := findAvailableRoom_spec g h.1 rand tCreate
  rcases hfr : findAvailableRoom g rand tCreate with ⟨roomId, g1⟩
  rw [hfr] at hinv hget
  simp only at hinv hget
  unfold addPlayer
  simp only [hfr, hget]
  cases playerData with
  | none => exact hinv
  | some pd =>
    refine registryInv_set hinv roomId _ ?_
    have := JsMap.length_set_le room.players socketId
      { id := socketId
        name := jsOr pd.name (JsVal.prim (Prim.str ("Player_" ++ socketId.take 4)))
        position := jsOr pd.position
          (JsVal.obj [("x", Prim.num 0), ("y", Prim.num 0), ("z", Prim.num 0)])
        rotation := jsOr pd.rotation (JsVal.prim (Prim.num 0))
        velocity := [("x", Prim.num 0), ("y", Prim.num 0), ("z", Prim.num 0)]
        roomId := roomId
        lastUpdate := tPlayer
        input := [("forward", Prim.bool false), ("backward", Prim.bool false),
                  ("left", Prim.bool false), ("right", Prim.bool false)] }
    simp only [JsMap.size] at hlt ⊢
    omega

theorem registryInv_removePlayerLoop (l : List (String × Room)) {g : Game} (h : RegistryInv g)
    (socketId : String) (hl : ∀ e ∈ l, JsMap.size e.2.players ≤ maxPlayersPerRoom) :
    RegistryInv (removePlayerLoop l g socketId).2 := by
  induction l with
  | nil => exact h
  | cons e rest ih =>
    obtain ⟨roomId, room⟩ := e
    have hroom := hl (roomId, room) (List.mem_cons_self _ _)
    cases hp : JsMap.get room.players socketId with
    | none =>
      simp only [removePlayerLoop, hp]
      exact ih (fun e he => hl e (List.mem_cons_of_mem _ he))
    | some player =>
      simp only [removePlayerLoop, hp]
      have hdel : JsMap.size (JsMap.delete room.players socketId) ≤ maxPlayersPerRoom :=
        le_trans (JsMap.length_delete_le _ _) hroom
      have h1 := registryInv_set h roomId
        { room with players := JsMap.delete room.players socketId } hdel
      split
      · exact registryInv_delete h1 roomId
      · exact h1

theorem registryInv_updatePlayerLoop (l : List (String × Room)) {g : Game} (h : RegistryInv g)
    (socketId : String) (data : Option UpdateData) (now : Int)
    (hl : ∀ e ∈ l, JsMap.size e.2.players ≤ maxPlayersPerRoom) :
    RegistryInv (updatePlayerLoop l g socketId data now).2 := by
  induction l with
  | nil => exact h
  | cons e rest ih =>
    obtain ⟨roomId, room⟩ := e
    have hroom := hl (roomId, room) (List.mem_cons_self _ _)
    cases hp : JsMap.get room.players socketId with
    | none =>
      simp only [updatePlayerLoop, hp]
      exact ih (fun e he => hl e (List.mem_cons_of_mem _ he))
    | some player =>
      cases data with
      | none =>
        simp only [updatePlayerLoop, hp]
        exact h
      | some d =>
        simp only [updatePlayerLoop, hp]
        refine registryInv_set h roomId _ ?_
        have := JsMap.length_set_of_get (mergeUpdate player d now) hp
        simp only [JsMap.size] at hroom ⊢
        omega

theorem registryInv_cleanupLoop (l : List (String × Room)) {g : Game} (h : RegistryInv g)
    (removed : Nat) (now maxInactiveTime : Int) :
    RegistryInv (cleanupLoop l g removed now maxInactiveTime).2 := by
  induction l generalizing g removed with
  | nil => exact h
  | cons e rest ih =>
    obtain ⟨roomId, room⟩ := e
    by_cases hs : now - room.lastActivity > maxInactiveTime
    · simp only [cleanupLoop, if_pos hs]
      exact ih (registryInv_delete h roomId) _
    · simp only [cleanupLoop, if_neg hs]
      exact ih h _

theorem registryInv_applyOp {g : Game} (h : RegistryInv g) (op : Op) :
    RegistryInv (applyOp g op) := by
  cases op with
  | addPlayer s pd r t1 t2 t3 => exact registryInv_addPlayer h s pd r t1 t2 t3
  | removePlayer s => exact registryInv_removePlayerLoop g.rooms h s h.2
  | updatePlayer s d t => exact registryInv_updatePlayerLoop g.rooms h s d t h.2
  | findAvailableRoom r t => exact registryInv_findAvailableRoom h r t
  | createRoom r t => exact registryInv_createRoom h r t
  | cleanupInactiveRooms t m => exact registryInv_cleanupLoop g.rooms h 0 t m

theorem registryInv_run (ops : List Op) {g : Game} (h : RegistryInv g) :
    RegistryInv (run ops g) := by
  induction ops generalizing g with
  | nil => exact h
  | cons op rest ih => exact ih (registryInv_applyOp h op)

/-- C7: starting from the empty registry, after any sequence of `addPlayer`,
`removePlayer`, `updatePlayer`, `findAvailableRoom`, `createRoom` and
`cleanupInactiveRooms` calls, with any connection ids (repeated or not), any
payloads, any generated room identifiers and any clock readings, every
registered room has at most `maxPlayersPerRoom` = 10 players. -/
theorem room_capacity_invariant (ops : List Op) (e : String × Room)
    (he : e ∈ (run ops Game.new).rooms) :
    JsMap.size e.2.players ≤ maxPlayersPerRoom ∧ maxPlayersPerRoom = 10 :=
  ⟨(registryInv_run ops registryInv_new).2 e he, rfl⟩

/-- Instance of C7: after eleven joins the first room holds ten players and
the eleventh connection is alone in a second room. -/
theorem room_capacity_invariant_witness :
    (run (tenJoins ++ [Op.addPlayer "p10" (some emptyJoin) "j" 0 0 0]) Game.new).rooms.map
        (fun e => (e.1, JsMap.size e.2.players)) = [("i", 10), ("j", 1)] ∧
    ("a", roomA) ∈ (run [Op.addPlayer "x" (some emptyJoin) "a" 0 0 0] Game.new).rooms ∧
    (JsMap.size roomA.players ≤ maxPlayersPerRoom ∧ maxPlayersPerRoom = 10) :=
  ⟨by decide, by decide,
    room_capacity_invariant [Op.addPlayer "x" (some emptyJoin) "a" 0 0 0] ("a", roomA)
      (by decide)⟩

/-! ## Interpolation of remote players -/

theorem selectTargetIndex_pair_early :
    selectTargetIndex [sample 0 0, sample 100 10] 150 = 0 := by
  simp [selectTargetIndex, findTargetIndex, sample]
  norm_num

theorem nextEntry_pair_early :
    nextEntry [sample 0 0, sample 100 10] 150 = some (sample 100 10) := by
  simp only [nextEntry, selectTargetIndex_pair_early]
  simp [pruneBuffer, sample]
  norm_num

theorem selectTargetIndex_pair_equal :
    selectTargetIndex [sample 950 0, sample 950 10] 1000 = 0 := by
  simp [selectTargetIndex, findTargetIndex, sample]
  norm_num

theorem nextEntry_pair_equal :
    nextEntry [sample 950 0, sample 950 10] 1000 = some (sample 950 10) := by
  simp only [nextEntry, selectTargetIndex_pair_equal]
  simp [pruneBuffer, sample]

/-- C8 fails on the code: for the buffer `[{t=0, x=0}, {t=100, x=10}]` and
`now = 150` (render time `now - 100 = 50`), the target is entry 0, the next
entry is entry 1, but `alpha` is computed from `now`, not from the render
time: `alpha = (150 - 0) / (100 - 0) = 3/2`, and the mesh is placed at
`x = 15`, not at the midpoint 5. -/
theorem interpolation_alpha_uses_now :
    selectTargetIndex [sample 0 0, sample 100 10] 150 = 0 ∧
    nextEntry [sample 0 0, sample 100 10] 150 = some (sample 100 10) ∧
    interpAlpha 150 (sample 0 0) (sample 100 10) = some (3 / 2) ∧
    (updateRemotePlayer mathPI 150 (remoteWith [sample 0 0, sample 100 10])).mesh.map
      (fun m => m.position.x) = some (some 15) := by
  refine ⟨selectTargetIndex_pair_early, nextEntry_pair_early, ?_, ?_⟩
  · simp [interpAlpha, alphaSpan, jsDiv, sample]
    norm_num
  · simp only [updateRemotePlayer, remoteWith, selectTargetIndex_pair_early, nextEntry_pair_early]
    simp [lerpVectors, sample, interpAlpha, alphaSpan, jsDiv]
    norm_num

/-- C9 fails on the code: for two buffered states with the same timestamp 950
and `now = 1000`, the interpolation branch is taken (a next entry exists), the
divisor `next.timestamp - target.timestamp` is 0, there is no guard, `alpha`
is not finite, and the mesh position and rotation become non-finite. -/
theorem interpolation_divides_by_zero :
    nextEntry [sample 950 0, sample 950 10] 1000 = some (sample 950 10) ∧
    alphaSpan (sample 950 0) (sample 950 10) = 0 ∧
    interpAlpha 1000 (sample 950 0) (sample 950 10) = none ∧
    (updateRemotePlayer mathPI 1000 (remoteWith [sample 950 0, sample 950 10])).mesh =
      some { position := { x := none, y := none, z := none }, rotationY := none } := by
  refine ⟨nextEntry_pair_equal, ?_, ?_, ?_⟩
  · simp [alphaSpan, sample]
  · simp [interpAlpha, alphaSpan, jsDiv, sample]
  · simp only [updateRemotePlayer, remoteWith, selectTargetIndex_pair_equal, nextEntry_pair_equal]
    simp [lerpVectors, sample, interpAlpha, alphaSpan, jsDiv]

/-! ## Shortest angular distance -/

section Angle

variable {α : Type} [LinearOrderedField α] [FloorRing α]

theorem jsTrunc_nonneg {q : α} (h : 0 ≤ q) :
    0 ≤ jsTrunc q ∧ (jsTrunc q : α) ≤ q ∧ q < (jsTrunc q : α) + 1 := by
  unfold jsTrunc
  rw [if_pos h]
  exact ⟨Int.floor_nonneg.mpr h, Int.floor_le q, Int.lt_floor_add_one q⟩

theorem jsTrunc_neg {q : α} (h : q < 0) :
    jsTrunc q ≤ 0 ∧ q ≤ (jsTrunc q : α) ∧ (jsTrunc q : α) - 1 < q := by
  unfold jsTrunc
  rw [if_neg (not_le.mpr h)]
  refine ⟨?_, Int.le_ceil q, ?_⟩
  · exact Int.ceil_le.mpr (by simpa using h.le)
  · have := Int.ceil_lt_add_one q
    linarith

theorem jsRem_bounds (x m : α) (hm : 0 < m) :
    (0 ≤ x → 0 ≤ jsRem x m ∧ jsRem x m < m) ∧ (x < 0 → -m < jsRem x m ∧ jsRem x m ≤ 0) := by
  constructor
  · intro hx
    have hq : 0 ≤ x / m := div_nonneg hx hm.le
    obtain ⟨_, h1, h2⟩ := jsTrunc_nonneg hq
    rw [le_div_iff₀ hm] at h1
    rw [div_lt_iff₀ hm] at h2
    unfold jsRem
    constructor <;> nlinarith
  · intro hx
    have hq : x / m < 0 := div_neg_of_neg_of_pos hx hm
    obtain ⟨_, h1, h2⟩ := jsTrunc_neg hq
    rw [div_le_iff₀ hm] at h1
    rw [lt_div_iff₀ hm] at h2
    unfold jsRem
    constructor <;> nlinarith

theorem shortAngleDist_spec (pi a b : α) (hpi : 0 < pi) :
    |shortAngleDist pi a b| ≤ pi ∧
    ∃ k : ℤ, shortAngleDist pi a b = (b - a) + (k : α) * (2 * pi) := by
  have hm : (0 : α) < pi * 2 := by linarith
  have hrb := jsRem_bounds (b - a) (pi * 2) hm
  have hk1 : jsRem (b - a) (pi * 2) =
      (b - a) - pi * 2 * (jsTrunc ((b - a) / (pi * 2)) : α) := rfl
  have hd0 : shortAngleDist pi a b =
      jsRem (2 * jsRem (b - a) (pi * 2)) (pi * 2) - jsRem (b - a) (pi * 2) := rfl
  generalize jsRem (b - a) (pi * 2) = r at hrb hk1 hd0
  have hd : shortAngleDist pi a b = r - pi * 2 * (jsTrunc (2 * r / (pi * 2)) : α) := by
    rw [hd0]
    unfold jsRem
    ring
  have hrange : -(pi * 2) < r ∧ r < pi * 2 := by
    rcases le_or_lt 0 (b - a) with h | h
    · have := hrb.1 h
      constructor <;> linarith
    · have := hrb.2 h
      constructor <;> linarith
  constructor
  · rw [hd, abs_le]
    rcases le_or_lt 0 (2 * r / (pi * 2)) with hq | hq
    · obtain ⟨h0, h1, h2⟩ := jsTrunc_nonneg hq
      have hlt2 : 2 * r / (pi * 2) < 2 := by
        rw [div_lt_iff₀ hm]
        linarith
      have hk2 : (jsTrunc (2 * r / (pi * 2)) : α) < 2 := lt_of_le_of_lt h1 hlt2
      have hk2i : jsTrunc (2 * r / (pi * 2)) < 2 := by exact_mod_cast hk2
      rw [le_div_iff₀ hm] at h1
      rw [div_lt_iff₀ hm] at h2
      have hcase : jsTrunc (2 * r / (pi * 2)) = 0 ∨ jsTrunc (2 * r / (pi * 2)) = 1 := by omega
      rcases hcase with hc | hc
      · rw [hc] at h1 h2 ⊢
        push_cast at h1 h2 ⊢
        constructor <;> linarith
      · rw [hc] at h1 h2 ⊢
        push_cast at h1 h2 ⊢
        constructor <;> linarith
    · obtain ⟨h0, h1, h2⟩ := jsTrunc_neg hq
      have hgt2 : -2 < 2 * r / (pi * 2) := by
        rw [lt_div_iff₀ hm]
        linarith
      have hk2 : (-2 : α) < (jsTrunc (2 * r / (pi * 2)) : α) := lt_of_lt_of_le hgt2 h1
      have hk2i : -2 < jsTrunc (2 * r / (pi * 2)) := by exact_mod_cast hk2
      rw [div_le_iff₀ hm] at h1
      rw [lt_div_iff₀ hm] at h2
      have hcase : jsTrunc (2 * r / (pi * 2)) = 0 ∨ jsTrunc (2 * r / (pi * 2)) = -1 := by omega
      rcases hcase with hc | hc
      · rw [hc] at h1 h2 ⊢
        push_cast at h1 h2 ⊢
        constructor <;> linarith
      · rw [hc] at h1 h2 ⊢
        push_cast at h1 h2 ⊢
        constructor <;> linarith
  · refine ⟨-(jsTrunc ((b - a) / (pi * 2)) + jsTrunc (2 * r / (pi * 2))), ?_⟩
    rw [hd, hk1]
    push_cast
    ring

theorem jsTrunc_eq_floor_of {α : Type} [LinearOrderedField α] [FloorRing α] (q : α) (k : ℤ)
    (h0 : 0 ≤ q) (h1 : (k : α) ≤ q) (h2 : q < (k : α) + 1) : jsTrunc q = k := by
  unfold jsTrunc
  rw [if_pos h0]
  exact Int.floor_eq_iff.mpr ⟨h1, h2⟩

end Angle

theorem shortAngleDist_tenth :
    shortAngleDist Real.pi 0.1 (2 * Real.pi - 0.1) = -0.2 := by
  have hpi : (3 : ℝ) < Real.pi := Real.pi_gt_three
  have hm : (0 : ℝ) < Real.pi * 2 := by linarith
  have hd0 : shortAngleDist Real.pi 0.1 (2 * Real.pi - 0.1) =
      jsRem (2 * jsRem (2 * Real.pi - 0.1 - 0.1) (Real.pi * 2)) (Real.pi * 2)
        - jsRem (2 * Real.pi - 0.1 - 0.1) (Real.pi * 2) := rfl
  have h1 : jsRem (2 * Real.pi - 0.1 - 0.1) (Real.pi * 2) = 2 * Real.pi - 0.2 := by
    have ht : jsTrunc ((2 * Real.pi - 0.1 - 0.1) / (Real.pi * 2)) = 0 := by
      apply jsTrunc_eq_floor_of
      · apply div_nonneg <;> linarith
      · push_cast
        apply div_nonneg <;> linarith
      · rw [div_lt_iff₀ hm]
        push_cast
        linarith
    unfold jsRem
    rw [ht]
    push_cast
    ring
  have h2 : jsRem (2 * (2 * Real.pi - 0.2)) (Real.pi * 2) = 2 * Real.pi - 0.4 := by
    have ht : jsTrunc (2 * (2 * Real.pi - 0.2) / (Real.pi * 2)) = 1 := by
      apply jsTrunc_eq_floor_of
      · apply div_nonneg <;> linarith
      · rw [le_div_iff₀ hm]
        push_cast
        linarith
      · rw [div_lt_iff₀ hm]
        push_cast
        linarith
    unfold jsRem
    rw [ht]
    push_cast
    ring
  rw [hd0, h1, h2]
  ring

/-- C10: over the real numbers, with `%` the remainder of truncating division,
`d = shortAngleDist a b` satisfies `|d| ≤ π` and differs from `b - a` by an
integer multiple of `2π`; for `a = 0.1` and `b = 2π - 0.1` it is `-0.2`. -/
theorem shortAngleDist_short_way (a b : ℝ) :
    |shortAngleDist Real.pi a b| ≤ Real.pi ∧
    (∃ k : ℤ, shortAngleDist Real.pi a b = (b - a) + (k : ℝ) * (2 * Real.pi)) ∧
    shortAngleDist Real.pi 0.1 (2 * Real.pi - 0.1) = -0.2 :=
  ⟨(shortAngleDist_spec Real.pi a b Real.pi_pos).1,
    (shortAngleDist_spec Real.pi a b Real.pi_pos).2, shortAngleDist_tenth⟩

/-! ## Buffering remote states -/

section RemoteBufferLemmas

variable {α : Type} [LinearOrderedField α]

/-- C11: for a known remote player whose buffer holds at most
`INTERPOLATION_BUFFER_SIZE` = 10 states (a buffer never assigned counts as
empty), handling one `player-updated` message leaves the player with the old
buffer followed by the new state, without its first element exactly when the
old buffer held 10; the new buffer holds at most 10 states, and from a full
buffer it is the nine newest old states, in order, followed by the new one. -/
theorem onPlayerUpdated_fifo (players : JsMap (RemotePlayer α)) (now : α)
    (data : PlayerUpdatedMsg α) (player : RemotePlayer α)
    (hk : JsMap.get players data.id = some player)
    (hn : (player.buffer.getD []).length ≤ CONSTANTS.INTERPOLATION_BUFFER_SIZE) :
    ∃ player1, JsMap.get (onPlayerUpdated players now data) data.id = some player1 ∧
      player1.buffer = some
        (if (player.buffer.getD []).length = CONSTANTS.INTERPOLATION_BUFFER_SIZE then
          (player.buffer.getD [] ++ [bufferedState data now]).tail
        else player.buffer.getD [] ++ [bufferedState data now]) ∧
      (player1.buffer.getD []).length ≤ CONSTANTS.INTERPOLATION_BUFFER_SIZE ∧
      ((player.buffer.getD []).length = CONSTANTS.INTERPOLATION_BUFFER_SIZE →
        player1.buffer = some ((player.buffer.getD []).drop 1 ++ [bufferedState data now])) ∧
      CONSTANTS.INTERPOLATION_BUFFER_SIZE = 10 := by
  have hb : (match player.buffer with
      | some b => b
      | none => []) = player.buffer.getD [] := by
    cases player.buffer <;> rfl
  generalize hst : bufferedState data now = st
  generalize player.buffer.getD [] = old at hn hb
  by_cases h10 : old.length = CONSTANTS.INTERPOLATION_BUFFER_SIZE
  · refine ⟨{ player with buffer := some (old ++ [st]).tail }, ?_, ?_, ?_, ?_, rfl⟩
    · simp only [onPlayerUpdated, hk, hb, hst]
      rw [if_pos (by simp [h10]), JsMap.get_set_same]
    · simp [h10]
    · simp [h10]
    · intro _
      cases old with
      | nil => simp [CONSTANTS.INTERPOLATION_BUFFER_SIZE] at h10
      | cons a tl => simp
  · refine ⟨{ player with buffer := some (old ++ [st]) }, ?_, ?_, ?_, ?_, rfl⟩
    · simp only [onPlayerUpdated, hk, hb, hst]
      rw [if_neg (by simp; omega), JsMap.get_set_same]
    · simp [h10]
    · simp
      omega
    · intro h
      exact absurd h h10

end RemoteBufferLemmas

/-- Instance of C11: an eleventh state pushed on a full buffer; the states
stamped 50 to 450 remain in order, followed by the one stamped 500. -/
theorem onPlayerUpdated_fifo_witness :
    (∃ player1, JsMap.get (onPlayerUpdated remotePlayers 520 eleventh) eleventh.id = some player1 ∧
      player1.buffer = some
        (if ((remoteWith tenSamples).buffer.getD []).length = CONSTANTS.INTERPOLATION_BUFFER_SIZE then
          ((remoteWith tenSamples).buffer.getD [] ++ [bufferedState eleventh 520]).tail
        else (remoteWith tenSamples).buffer.getD [] ++ [bufferedState eleventh 520]) ∧
      (player1.buffer.getD []).length ≤ CONSTANTS.INTERPOLATION_BUFFER_SIZE ∧
      (((remoteWith tenSamples).buffer.getD []).length = CONSTANTS.INTERPOLATION_BUFFER_SIZE →
        player1.buffer = some (((remoteWith tenSamples).buffer.getD []).drop 1 ++
          [bufferedState eleventh 520])) ∧
      CONSTANTS.INTERPOLATION_BUFFER_SIZE = 10) ∧
    ((JsMap.get (onPlayerUpdated remotePlayers 520 eleventh) "r").bind
      (fun q => q.buffer)).map (fun b => b.map (fun st => st.timestamp)) =
      some [50, 100, 150, 200, 250, 300, 350, 400, 450, 500] :=
  ⟨onPlayerUpdated_fifo remotePlayers 520 eleventh (remoteWith tenSamples) rfl (by decide), by
    simp [onPlayerUpdated, remotePlayers, eleventh, JsMap.get, JsMap.set, remoteWith, tenSamples,
      bufferedState, timestampOr, sample, CONSTANTS.INTERPOLATION_BUFFER_SIZE]⟩

/-! ## Double-precision arithmetic

The operations of `Binary64` against the rational numbers: comparison and the
unrounded operations are exact, and one rounding in the normal range changes
a value by at most `unitRoundoff` of its magnitude. -/

namespace Binary64

theorem toRat_ofNat (n : Nat) : toRat (ofNat n) = n := by
  simp [toRat, ofNat]

theorem scaled_spec (d : Binary64) (e : Int) (h : e ≤ d.exp) :
    ((scaled d e : Int) : ℚ) * (2 : ℚ) ^ e = toRat d := by
  have h2 : (2 : ℚ) ^ d.exp = (2 : ℚ) ^ (d.exp - e).toNat * (2 : ℚ) ^ e := by
    rw [← zpow_natCast, ← zpow_add₀ (by norm_num : (2 : ℚ) ≠ 0)]
    congr 1
    omega
  unfold scaled toRat
  rw [h2]
  split <;> push_cast <;> ring

theorem scaled_lt_iff (a b : Binary64) (e : Int) (ha : e ≤ a.exp) (hb : e ≤ b.exp) :
    scaled b e < scaled a e ↔ toRat b < toRat a := by
  rw [← scaled_spec a e ha, ← scaled_spec b e hb]
  have hpos : (0 : ℚ) < (2 : ℚ) ^ e := zpow_pos (by norm_num) e
  rw [mul_lt_mul_right hpos]
  exact Int.cast_lt.symm

theorem scaled_eq_iff (a b : Binary64) (e : Int) (ha : e ≤ a.exp) (hb : e ≤ b.exp) :
    scaled a e = scaled b e ↔ toRat a = toRat b := by
  rw [← scaled_spec a e ha, ← scaled_spec b e hb]
  have hpos : (0 : ℚ) < (2 : ℚ) ^ e := zpow_pos (by norm_num) e
  constructor
  · intro h
    rw [h]
  · intro h
    exact Int.cast_injective (mul_right_cancel₀ (ne_of_gt hpos) h)

theorem gt_iff (a b : Binary64) : gt a b = true ↔ toRat b < toRat a := by
  unfold gt
  rw [decide_eq_true_iff]
  exact scaled_lt_iff a b _ (min_le_left _ _) (min_le_right _ _)

theorem same_iff (a b : Binary64) : same a b = true ↔ toRat a = toRat b := by
  unfold same
  rw [decide_eq_true_iff]
  exact scaled_eq_iff a b _ (min_le_left _ _) (min_le_right _ _)

theorem toRat_exactMul (a b : Binary64) : toRat (exactMul a b) = toRat a * toRat b := by
  unfold toRat exactMul
  simp only []
  rw [zpow_add₀ (by norm_num : (2 : ℚ) ≠ 0)]
  cases a.neg <;> cases b.neg <;> simp <;> ring

theorem toRat_exactAdd (a b : Binary64) : toRat (exactAdd a b) = toRat a + toRat b := by
  rw [← scaled_spec a _ (min_le_left a.exp b.exp), ← scaled_spec b _ (min_le_right a.exp b.exp),
    ← add_mul, ← Int.cast_add]
  unfold exactAdd toRat
  simp only []
  congr 1
  generalize scaled a (min a.exp b.exp) + scaled b (min a.exp b.exp) = z
  by_cases hz : z < 0
  · simp only [hz, decide_True, if_true]
    rw [← Int.cast_natCast, Int.ofNat_natAbs_of_nonpos (le_of_lt hz)]
    simp
  · simp only [hz, decide_False]
    rw [← Int.cast_natCast, Int.natAbs_of_nonneg (not_lt.mp hz)]
    simp

theorem toRat_negate (a : Binary64) : toRat (negate a) = -toRat a := by
  unfold toRat negate
  cases a.neg <;> simp

theorem toRat_abs (a : Binary64) : toRat (abs a) = |toRat a| := by
  unfold toRat abs
  have hpos : (0 : ℚ) < (2 : ℚ) ^ a.exp := zpow_pos (by norm_num) a.exp
  cases a.neg
  · simp only [Bool.false_eq_true, if_false]
    rw [abs_of_nonneg (mul_nonneg (Nat.cast_nonneg _) (le_of_lt hpos))]
  · simp only [if_true, Bool.false_eq_true, if_false]
    rw [neg_mul, abs_neg, abs_of_nonneg (mul_nonneg (Nat.cast_nonneg _) (le_of_lt hpos))]


theorem bitLengthAux_spec (fuel : Nat) : ∀ n : Nat, n ≤ fuel →
    n < 2 ^ bitLengthAux fuel n ∧ (n ≠ 0 → 2 ^ bitLengthAux fuel n ≤ 2 * n) := by
  induction fuel with
  | zero =>
    intro n hn
    have h0 : n = 0 := by omega
    subst h0
    simp [bitLengthAux]
  | succ fuel ih =>
    intro n hn
    by_cases h0 : n = 0
    · subst h0
      simp [bitLengthAux]
    · have hrec := ih (n / 2) (by omega)
      simp only [bitLengthAux, if_neg h0, pow_succ]
      refine ⟨by omega, fun _ => ?_⟩
      by_cases h2 : n / 2 = 0
      · have h1 : n = 1 := by omega
        subst h1
        cases fuel <;> simp [bitLengthAux]
      · have := hrec.2 h2
        omega

theorem lt_two_pow_bitLength (n : Nat) : n < 2 ^ bitLength n :=
  (bitLengthAux_spec n n (le_refl n)).1

theorem two_pow_bitLength_le (n : Nat) (h : n ≠ 0) : 2 ^ bitLength n ≤ 2 * n :=
  (bitLengthAux_spec n n (le_refl n)).2 h

theorem bitLength_zero : bitLength 0 = 0 := rfl

theorem bitLength_le (n b : Nat) (h : n < 2 ^ b) : bitLength n ≤ b := by
  by_cases h0 : n = 0
  · subst h0
    simp [bitLength_zero]
  · have h1 := two_pow_bitLength_le n h0
    have h2 : 2 ^ bitLength n < 2 ^ (b + 1) := by
      rw [pow_succ]
      omega
    have := (Nat.pow_lt_pow_iff_right (by norm_num : 1 < 2)).mp h2
    omega

theorem isqrtAux_spec (fuel : Nat) : ∀ n : Nat, n ≤ fuel →
    isqrtAux fuel n * isqrtAux fuel n ≤ n ∧ n < (isqrtAux fuel n + 1) * (isqrtAux fuel n + 1) := by
  induction fuel with
  | zero =>
    intro n hn
    have h0 : n = 0 := by omega
    subst h0
    simp [isqrtAux]
  | succ fuel ih =>
    intro n hn
    by_cases h0 : n = 0
    · subst h0
      simp [isqrtAux]
    · obtain ⟨h1, h2⟩ := ih (n / 4) (by omega)
      simp only [isqrtAux, if_neg h0]
      generalize isqrtAux fuel (n / 4) = r at h1 h2
      have h3 : 4 * (r * r) ≤ n := by omega
      have h4 : n < 4 * ((r + 1) * (r + 1)) := by omega
      split
      · rename_i h5
        refine ⟨h5, ?_⟩
        nlinarith
      · rename_i h5
        refine ⟨by nlinarith, by omega⟩

theorem isqrt_sq_le (n : Nat) : isqrt n * isqrt n ≤ n := (isqrtAux_spec n n (le_refl n)).1

theorem lt_isqrt_succ_sq (n : Nat) : n < (isqrt n + 1) * (isqrt n + 1) :=
  (isqrtAux_spec n n (le_refl n)).2

/-- Magnitude of the value denoted. -/
theorem abs_toRat (d : Binary64) : |toRat d| = (d.mant : ℚ) * (2 : ℚ) ^ d.exp := by
  rw [← toRat_abs]
  simp [toRat, abs]

theorem round_of_small (sticky : Bool) (d : Binary64) (h1 : bitLength d.mant ≤ 53)
    (h2 : -1074 ≤ d.exp) : round sticky d = d := by
  unfold round
  simp only []
  rw [if_pos]
  apply max_le <;> omega


theorem round_core (sticky neg : Bool) (mant : Nat) (exp : Int) (K : Nat) :
    |toRat { neg := neg
             mant :=
               if decide (2 ^ K < mant % 2 ^ (K + 1)) ||
                   (decide (mant % 2 ^ (K + 1) = 2 ^ K) &&
                     (sticky || decide (mant / 2 ^ (K + 1) % 2 = 1))) then
                 mant / 2 ^ (K + 1) + 1
               else mant / 2 ^ (K + 1)
             exp := exp + ((K + 1 : Nat) : Int) } -
      toRat { neg := neg, mant := mant, exp := exp }| ≤ (2 : ℚ) ^ K * (2 : ℚ) ^ exp := by
  have hdm := Nat.div_add_mod mant (2 ^ (K + 1))
  have hlt := Nat.mod_lt mant (show 0 < 2 ^ (K + 1) by positivity)
  generalize mant / 2 ^ (K + 1) = q at hdm
  generalize mant % 2 ^ (K + 1) = r at hdm hlt
  have hpos : (0 : ℚ) < (2 : ℚ) ^ exp := zpow_pos (by norm_num) exp
  have hexp : (2 : ℚ) ^ (exp + ((K + 1 : Nat) : Int)) = (2 : ℚ) ^ (K + 1) * (2 : ℚ) ^ exp := by
    rw [zpow_add₀ (by norm_num : (2 : ℚ) ≠ 0), zpow_natCast, mul_comm]
  have hm : (mant : ℚ) = (2 : ℚ) ^ (K + 1) * q + r := by
    rw [← hdm]
    push_cast
    ring
  have hr : (r : ℚ) < (2 : ℚ) ^ (K + 1) := by
    have : ((r : Nat) : ℚ) < ((2 ^ (K + 1) : Nat) : ℚ) := Nat.cast_lt.mpr hlt
    simpa using this
  have h2 : (2 : ℚ) ^ (K + 1) = 2 * (2 : ℚ) ^ K := by
    rw [pow_succ]
    ring
  have key : ∀ m' : Nat,
      |(m' : ℚ) * (2 : ℚ) ^ (K + 1) - mant| ≤ (2 : ℚ) ^ K →
      |toRat { neg := neg, mant := m', exp := exp + ((K + 1 : Nat) : Int) } -
        toRat { neg := neg, mant := mant, exp := exp }| ≤ (2 : ℚ) ^ K * (2 : ℚ) ^ exp := by
    intro m' hm'
    have e1 : toRat { neg := neg, mant := m', exp := exp + ((K + 1 : Nat) : Int) } -
        toRat { neg := neg, mant := mant, exp := exp } =
        (if neg then -1 else 1) * (((m' : ℚ) * (2 : ℚ) ^ (K + 1) - mant) * (2 : ℚ) ^ exp) := by
      simp only [toRat, hexp]
      cases neg <;> simp <;> ring
    rw [e1, abs_mul, abs_mul, abs_of_pos hpos]
    have : |(if neg = true then (-1 : ℚ) else 1)| = 1 := by cases neg <;> simp
    rw [this, one_mul]
    exact mul_le_mul_of_nonneg_right hm' (le_of_lt hpos)
  split
  · rename_i hup
    apply key
    have hge : (2 : ℚ) ^ K ≤ r := by
      have : 2 ^ K ≤ r := by
        simp only [Bool.or_eq_true, Bool.and_eq_true, decide_eq_true_eq] at hup
        rcases hup with h | ⟨h, _⟩
        · exact le_of_lt h
        · exact le_of_eq h.symm
      have : ((2 ^ K : Nat) : ℚ) ≤ ((r : Nat) : ℚ) := Nat.cast_le.mpr this
      simpa using this
    rw [hm]
    push_cast
    rw [abs_le]
    constructor <;> nlinarith
  · rename_i hup
    apply key
    have hle : (r : ℚ) ≤ (2 : ℚ) ^ K := by
      have : r ≤ 2 ^ K := by
        simp only [Bool.or_eq_true, Bool.and_eq_true, decide_eq_true_eq, not_or] at hup
        exact not_lt.mp hup.1
      have : ((r : Nat) : ℚ) ≤ ((2 ^ K : Nat) : ℚ) := Nat.cast_le.mpr this
      simpa using this
    rw [hm]
    rw [abs_le]
    have hr0 : (0 : ℚ) ≤ r := Nat.cast_nonneg r
    constructor <;> nlinarith

theorem round_error (sticky : Bool) (d : Binary64)
    (hn : -1074 - d.exp ≤ (bitLength d.mant : ℤ) - 53) :
    |toRat (round sticky d) - toRat d| ≤ (2 : ℚ) ^ (-53 : ℤ) * |toRat d| := by
  have hk : max ((bitLength d.mant : ℤ) - 53) (-1074 - d.exp) = (bitLength d.mant : ℤ) - 53 :=
    max_eq_left hn
  unfold round
  simp only [hk]
  split
  · simp only [sub_self, abs_zero]
    positivity
  · rename_i hpos
    obtain ⟨K, hK⟩ : ∃ K : Nat, (bitLength d.mant : ℤ) - 53 = ((K + 1 : Nat) : Int) :=
      ⟨bitLength d.mant - 54, by omega⟩
    rw [hK]
    simp only [Int.toNat_ofNat, Nat.add_sub_cancel]
    refine le_trans (round_core sticky d.neg d.mant d.exp K) ?_
    rw [abs_toRat, ← mul_assoc]
    have hpos2 : (0 : ℚ) < (2 : ℚ) ^ d.exp := zpow_pos (by norm_num) d.exp
    apply mul_le_mul_of_nonneg_right _ (le_of_lt hpos2)
    have hL : bitLength d.mant = K + 54 := by omega
    have hm0 : d.mant ≠ 0 := by
      intro h0
      rw [h0, bitLength_zero] at hL
      omega
    have h1 := two_pow_bitLength_le d.mant hm0
    rw [hL] at h1
    have h2 : ((2 ^ (K + 54) : Nat) : ℚ) ≤ ((2 * d.mant : Nat) : ℚ) := Nat.cast_le.mpr h1
    push_cast at h2
    rw [pow_add] at h2
    rw [zpow_neg, show ((53 : ℤ)) = ((53 : Nat) : ℤ) by rfl, zpow_natCast]
    rw [inv_mul_eq_div, le_div_iff₀ (by positivity)]
    have : (2 : ℚ) ^ 54 = 2 * (2 : ℚ) ^ 53 := by norm_num
    rw [this] at h2
    linarith


theorem toRat_eq_zero_iff (d : Binary64) : toRat d = 0 ↔ d.mant = 0 := by
  have hpos : (2 : ℚ) ^ d.exp ≠ 0 := ne_of_gt (zpow_pos (by norm_num) d.exp)
  unfold toRat
  cases d.neg <;> simp [hpos]

theorem normal_of_le (d : Binary64) (h : (2 : ℚ) ^ (-1022 : ℤ) ≤ |toRat d|) :
    -1074 - d.exp ≤ (bitLength d.mant : ℤ) - 53 := by
  rw [abs_toRat] at h
  have hpos : (0 : ℚ) < (2 : ℚ) ^ d.exp := zpow_pos (by norm_num) d.exp
  have h1 : (d.mant : ℚ) < (2 : ℚ) ^ (bitLength d.mant) := by
    have : ((d.mant : Nat) : ℚ) < ((2 ^ bitLength d.mant : Nat) : ℚ) :=
      Nat.cast_lt.mpr (lt_two_pow_bitLength d.mant)
    simpa using this
  have h2 : (2 : ℚ) ^ (-1022 : ℤ) < (2 : ℚ) ^ ((bitLength d.mant : ℤ) + d.exp) := by
    rw [zpow_add₀ (by norm_num : (2 : ℚ) ≠ 0), zpow_natCast]
    exact lt_of_le_of_lt h (mul_lt_mul_of_pos_right h1 hpos)
  have h3 := (zpow_lt_zpow_iff_right₀ (by norm_num : (1 : ℚ) < 2)).mp h2
  omega

theorem round_mant_zero (sticky : Bool) (d : Binary64) (h : d.mant = 0) :
    (round sticky d).mant = 0 := by
  unfold round
  simp only [h]
  split
  · exact h
  · have hne : ∀ n : Nat, ¬ (0 = 2 ^ n) := fun n hn => by
      have : 0 < 2 ^ n := by positivity
      omega
    simp [hne]

theorem unitRoundoff_eq : unitRoundoff = (2 : ℚ) ^ (-53 : ℤ) := by
  unfold unitRoundoff
  rw [zpow_neg, one_div, show ((53 : ℤ)) = ((53 : Nat) : ℤ) by rfl, zpow_natCast]

theorem minNormal_eq : minNormal = (2 : ℚ) ^ (-1022 : ℤ) := by
  unfold minNormal
  rw [zpow_neg, one_div, show ((1022 : ℤ)) = ((1022 : Nat) : ℤ) by rfl, zpow_natCast]

theorem unitRoundoff_pos : 0 < unitRoundoff := by
  unfold unitRoundoff
  positivity

theorem minNormal_pos : 0 < minNormal := by
  unfold minNormal
  positivity

theorem unitRoundoff_le : unitRoundoff ≤ 1 / 8000000000000000 := by
  unfold unitRoundoff
  norm_num

theorem round_near (sticky : Bool) (d : Binary64)
    (h : toRat d = 0 ∨ minNormal ≤ |toRat d|) :
    |toRat (round sticky d) - toRat d| ≤ unitRoundoff * |toRat d| := by
  rcases h with h | h
  · have h0 := (toRat_eq_zero_iff d).mp h
    rw [(toRat_eq_zero_iff _).mpr (round_mant_zero sticky d h0), h]
    simp
  · rw [unitRoundoff_eq]
    rw [minNormal_eq] at h
    exact round_error sticky d (normal_of_le d h)

theorem mul_near (a b : Binary64)
    (h : toRat a * toRat b = 0 ∨ minNormal ≤ |toRat a * toRat b|) :
    |toRat (mul a b) - toRat a * toRat b| ≤ unitRoundoff * |toRat a * toRat b| := by
  rw [← toRat_exactMul] at h ⊢
  exact round_near false _ h

theorem add_near (a b : Binary64)
    (h : toRat a + toRat b = 0 ∨ minNormal ≤ |toRat a + toRat b|) :
    |toRat (add a b) - (toRat a + toRat b)| ≤ unitRoundoff * |toRat a + toRat b| := by
  rw [← toRat_exactAdd] at h ⊢
  exact round_near false _ h

theorem round_neg (sticky : Bool) (d : Binary64) : (round sticky d).neg = d.neg := by
  unfold round
  simp only []
  split <;> rfl


theorem div_near (a b : Binary64) (hb : toRat b ≠ 0)
    (h : toRat a = 0 ∨ 2 * minNormal ≤ |toRat a / toRat b|) :
    |toRat (div a b) - toRat a / toRat b| ≤ 2 * unitRoundoff * |toRat a / toRat b| := by
  have hmb : b.mant ≠ 0 := fun h0 => hb ((toRat_eq_zero_iff b).mpr h0)
  have hmbq : (0 : ℚ) < (b.mant : ℚ) := Nat.cast_pos.mpr (Nat.pos_of_ne_zero hmb)
  obtain ⟨J, hJ⟩ : ∃ J, J = bitLength b.mant + 64 := ⟨_, rfl⟩
  obtain ⟨e, he⟩ : ∃ e : Int, e = a.exp - b.exp - ((bitLength b.mant + 64 : Nat) : Int) := ⟨_, rfl⟩
  have hpe : (0 : ℚ) < (2 : ℚ) ^ e := zpow_pos (by norm_num) e
  have hdm := Nat.div_add_mod (a.mant * 2 ^ J) b.mant
  have hlt := Nat.mod_lt (a.mant * 2 ^ J) (Nat.pos_of_ne_zero hmb)
  have hdiv : div a b = round (decide ((a.mant * 2 ^ J) % b.mant ≠ 0))
      { neg := xor a.neg b.neg, mant := (a.mant * 2 ^ J) / b.mant, exp := e } := by
    rw [hJ, he]
    rfl
  obtain ⟨σ, hσ, hσ1⟩ : ∃ σ : ℚ, σ = (if xor a.neg b.neg then -1 else 1) ∧ |σ| = 1 := by
    refine ⟨_, rfl, ?_⟩
    cases xor a.neg b.neg <;> simp
  have hpre : toRat { neg := xor a.neg b.neg, mant := (a.mant * 2 ^ J) / b.mant, exp := e } =
      σ * (((a.mant * 2 ^ J / b.mant : Nat) : ℚ) * (2 : ℚ) ^ e) := by
    rw [hσ]
    simp only [toRat]
    cases xor a.neg b.neg <;> simp
  have hQ : toRat a / toRat b =
      σ * ((((a.mant * 2 ^ J : Nat) : ℚ) / (b.mant : ℚ)) * (2 : ℚ) ^ e) := by
    have h2e : (2 : ℚ) ^ e = (2 : ℚ) ^ a.exp / (2 : ℚ) ^ b.exp / (2 : ℚ) ^ J := by
      rw [he, hJ, zpow_sub₀ (by norm_num : (2 : ℚ) ≠ 0), zpow_sub₀ (by norm_num : (2 : ℚ) ≠ 0),
        zpow_natCast]
    have hpa : (2 : ℚ) ^ a.exp ≠ 0 := ne_of_gt (zpow_pos (by norm_num) _)
    have hpb : (2 : ℚ) ^ b.exp ≠ 0 := ne_of_gt (zpow_pos (by norm_num) _)
    have hpJ : (2 : ℚ) ^ J ≠ 0 := by positivity
    have hmb0 : (b.mant : ℚ) ≠ 0 := ne_of_gt hmbq
    rw [h2e, hσ]
    simp only [toRat]
    push_cast
    cases a.neg <;> cases b.neg <;> simp <;> field_simp <;> ring
  generalize hq : a.mant * 2 ^ J / b.mant = q at hdm hdiv hpre
  generalize hr : a.mant * 2 ^ J % b.mant = r at hdm hlt hdiv
  have hN : ((a.mant * 2 ^ J : Nat) : ℚ) / (b.mant : ℚ) = q + (r : ℚ) / (b.mant : ℚ) := by
    rw [← hdm]
    push_cast
    field_simp
    ring
  have hr0 : (0 : ℚ) ≤ (r : ℚ) / (b.mant : ℚ) := div_nonneg (Nat.cast_nonneg _) (le_of_lt hmbq)
  have hr1 : (r : ℚ) / (b.mant : ℚ) < 1 := by
    rw [div_lt_one hmbq]
    exact Nat.cast_lt.mpr hlt
  rw [hdiv, hQ, hN]
  rw [hQ, hN] at h
  generalize hpd : ({ neg := xor a.neg b.neg, mant := q, exp := e } : Binary64) = pre at hpre
  have hq0 : (0 : ℚ) ≤ (q : ℚ) := Nat.cast_nonneg _
  have habsQ : |σ * (((q : ℚ) + (r : ℚ) / (b.mant : ℚ)) * (2 : ℚ) ^ e)| =
      ((q : ℚ) + (r : ℚ) / (b.mant : ℚ)) * (2 : ℚ) ^ e := by
    rw [abs_mul, hσ1, one_mul, abs_of_nonneg (mul_nonneg (add_nonneg hq0 hr0) (le_of_lt hpe))]
  have habsP : |toRat pre| = (q : ℚ) * (2 : ℚ) ^ e := by
    rw [hpre, abs_mul, hσ1, one_mul, abs_of_nonneg (mul_nonneg hq0 (le_of_lt hpe))]
  have hdiff : |toRat pre - σ * (((q : ℚ) + (r : ℚ) / (b.mant : ℚ)) * (2 : ℚ) ^ e)| =
      (r : ℚ) / (b.mant : ℚ) * (2 : ℚ) ^ e := by
    rw [hpre, show σ * ((q : ℚ) * (2 : ℚ) ^ e) -
        σ * (((q : ℚ) + (r : ℚ) / (b.mant : ℚ)) * (2 : ℚ) ^ e) =
        σ * (-((r : ℚ) / (b.mant : ℚ) * (2 : ℚ) ^ e)) by ring]
    rw [abs_mul, hσ1, one_mul, abs_neg, abs_of_nonneg (mul_nonneg hr0 (le_of_lt hpe))]
  by_cases ha0 : a.mant = 0
  · have hq00 : q = 0 := by
      rw [← hq, ha0]
      simp
    have hr00 : r = 0 := by
      rw [← hr, ha0]
      simp
    have hp0 : pre.mant = 0 := by
      rw [← hpd]
      exact hq00
    rw [(toRat_eq_zero_iff _).mpr (round_mant_zero _ pre hp0), hq00, hr00]
    simp
  · have hane : toRat a ≠ 0 := fun h0 => ha0 ((toRat_eq_zero_iff a).mp h0)
    have h64 : 2 ^ 64 ≤ q := by
      rw [← hq, Nat.le_div_iff_mul_le (Nat.pos_of_ne_zero hmb), hJ, pow_add]
      have h1 : b.mant ≤ 2 ^ bitLength b.mant := le_of_lt (lt_two_pow_bitLength b.mant)
      have h2 : 1 ≤ a.mant := Nat.pos_of_ne_zero ha0
      calc 2 ^ 64 * b.mant ≤ 2 ^ 64 * 2 ^ bitLength b.mant := Nat.mul_le_mul_left _ h1
        _ = 1 * (2 ^ bitLength b.mant * 2 ^ 64) := by ring
        _ ≤ a.mant * (2 ^ bitLength b.mant * 2 ^ 64) := Nat.mul_le_mul_right _ h2
    have h64q : (2 : ℚ) ^ 64 ≤ (q : ℚ) := by exact_mod_cast h64
    obtain ⟨w, hw, hw0, hwu, hwh⟩ : ∃ w : ℚ, w * 2 ^ 64 = 1 ∧ 0 ≤ w ∧
        unitRoundoff + w ≤ 2 * unitRoundoff ∧ w ≤ 1 / 2 := by
      refine ⟨1 / 2 ^ 64, by norm_num, by positivity, ?_, by norm_num⟩
      unfold unitRoundoff
      norm_num
    have hwq : 1 ≤ w * (q : ℚ) := by
      rw [← hw]
      exact mul_le_mul_of_nonneg_left h64q hw0
    generalize hX : (q : ℚ) * (2 : ℚ) ^ e = X at habsP
    have hX0 : 0 ≤ X := by
      rw [← hX]
      exact mul_nonneg hq0 (le_of_lt hpe)
    have hte : (r : ℚ) / (b.mant : ℚ) * (2 : ℚ) ^ e ≤ w * X := by
      rw [← hX, ← mul_assoc]
      apply mul_le_mul_of_nonneg_right _ (le_of_lt hpe)
      linarith
    have hYX : ((q : ℚ) + (r : ℚ) / (b.mant : ℚ)) * (2 : ℚ) ^ e =
        X + (r : ℚ) / (b.mant : ℚ) * (2 : ℚ) ^ e := by
      rw [← hX]
      ring
    generalize (r : ℚ) / (b.mant : ℚ) * (2 : ℚ) ^ e = t at hte hYX hdiff
    have ht0 : 0 ≤ t := by
      rw [← hdiff]
      exact abs_nonneg _
    rw [habsQ, hYX] at h ⊢
    rw [hYX] at hdiff
    have hQge : 2 * minNormal ≤ X + t := by
      rcases h with h | h
      · exact absurd h hane
      · exact h
    have hmn := minNormal_pos
    have hXP : minNormal ≤ X := by
      have : X + t ≤ X + w * X := by linarith
      have h2 : w * X ≤ 1 / 2 * X := mul_le_mul_of_nonneg_right hwh hX0
      by_contra hcon
      push_neg at hcon
      linarith
    have hround := round_near (decide (r ≠ 0)) pre (Or.inr (by rw [habsP]; exact hXP))
    rw [habsP] at hround
    have htri : |toRat (round (decide (r ≠ 0)) pre) - σ * (X + t)| ≤
        |toRat (round (decide (r ≠ 0)) pre) - toRat pre| + |toRat pre - σ * (X + t)| :=
      abs_sub_le _ _ _
    rw [hdiff] at htri
    have hur := unitRoundoff_pos
    calc |toRat (round (decide (r ≠ 0)) pre) - σ * (X + t)|
        ≤ unitRoundoff * X + w * X := by linarith
      _ = (unitRoundoff + w) * X := by ring
      _ ≤ 2 * unitRoundoff * X := mul_le_mul_of_nonneg_right hwu hX0
      _ ≤ 2 * unitRoundoff * (X + t) :=
        mul_le_mul_of_nonneg_left (by linarith) (by linarith)


theorem isqrt_zero : isqrt 0 = 0 := rfl

theorem sq_bounds (p s V u w : ℚ) (hp : 0 ≤ p) (h1 : p * p ≤ V)
    (h2 : V ≤ (p * (1 + w)) * (p * (1 + w)))
    (hs1 : (1 - u) * p ≤ s) (hs2 : s ≤ (1 + u) * p)
    (hu0 : 0 ≤ u) (hu1 : u ≤ 1 / 4) (hw0 : 0 ≤ w) (hw : w ≤ u) :
    0 ≤ s ∧ (1 - 2 * u) ^ 2 * V ≤ s ^ 2 ∧ s ^ 2 ≤ (1 + 2 * u) ^ 2 * V := by
  have hs0 : 0 ≤ s := le_trans (mul_nonneg (by linarith) hp) hs1
  have hV0 : 0 ≤ V := le_trans (mul_self_nonneg p) h1
  refine ⟨hs0, ?_, ?_⟩
  · have ha : 0 ≤ (1 - 2 * u) * (1 + w) * p :=
      mul_nonneg (mul_nonneg (by linarith) (by linarith)) hp
    have hb : (1 - 2 * u) * (1 + w) * p ≤ (1 - u) * p := by
      apply mul_le_mul_of_nonneg_right _ hp
      nlinarith [mul_nonneg hu0 hw0]
    have hc : (1 - 2 * u) * (1 + w) * p ≤ s := le_trans hb hs1
    have hd : ((1 - 2 * u) * (1 + w) * p) ^ 2 ≤ s ^ 2 := pow_le_pow_left₀ ha hc 2
    have he : (1 - 2 * u) ^ 2 * V ≤ (1 - 2 * u) ^ 2 * ((p * (1 + w)) * (p * (1 + w))) :=
      mul_le_mul_of_nonneg_left h2 (sq_nonneg _)
    calc (1 - 2 * u) ^ 2 * V ≤ (1 - 2 * u) ^ 2 * ((p * (1 + w)) * (p * (1 + w))) := he
      _ = ((1 - 2 * u) * (1 + w) * p) ^ 2 := by ring
      _ ≤ s ^ 2 := hd
  · have ha : s ^ 2 ≤ ((1 + u) * p) ^ 2 := pow_le_pow_left₀ hs0 hs2 2
    have hb : (1 + u) ^ 2 ≤ (1 + 2 * u) ^ 2 := pow_le_pow_left₀ (by linarith) (by linarith) 2
    calc s ^ 2 ≤ ((1 + u) * p) ^ 2 := ha
      _ = (1 + u) ^ 2 * (p * p) := by ring
      _ ≤ (1 + 2 * u) ^ 2 * (p * p) := mul_le_mul_of_nonneg_right hb (mul_self_nonneg p)
      _ ≤ (1 + 2 * u) ^ 2 * V := mul_le_mul_of_nonneg_left h1 (sq_nonneg _)

theorem sqrt_near (a : Binary64) (ha : 0 ≤ toRat a)
    (h : toRat a = 0 ∨ 4 * minNormal * minNormal ≤ toRat a) :
    0 ≤ toRat (sqrt a) ∧
    (1 - 2 * unitRoundoff) ^ 2 * toRat a ≤ toRat (sqrt a) ^ 2 ∧
    toRat (sqrt a) ^ 2 ≤ (1 + 2 * unitRoundoff) ^ 2 * toRat a := by
  have hV : toRat a = (a.mant : ℚ) * (2 : ℚ) ^ a.exp := by
    rw [← abs_toRat, abs_of_nonneg ha]
  obtain ⟨m, hh, hm, hm0, hsq⟩ : ∃ (m : Nat) (hh : Int),
      (m : ℚ) * (2 : ℚ) ^ (2 * hh) = (a.mant : ℚ) * (2 : ℚ) ^ a.exp ∧
      (a.mant = 0 → m = 0) ∧
      sqrt a = round (decide (isqrt (m * 2 ^ 128) * isqrt (m * 2 ^ 128) ≠ m * 2 ^ 128))
        { neg := false, mant := isqrt (m * 2 ^ 128), exp := hh - 64 } := by
    by_cases hev : a.exp % 2 = 0
    · refine ⟨a.mant, a.exp / 2, ?_, fun h0 => h0, ?_⟩
      · have : 2 * (a.exp / 2) = a.exp := by omega
        rw [this]
      · unfold sqrt
        simp only [hev, if_true]
    · refine ⟨2 * a.mant, (a.exp - 1) / 2, ?_, fun h0 => by omega, ?_⟩
      · have : 2 * ((a.exp - 1) / 2) = a.exp - 1 := by omega
        rw [this, zpow_sub_one₀ (by norm_num : (2 : ℚ) ≠ 0)]
        push_cast
        ring
      · unfold sqrt
        simp only [hev, if_false]
  rw [hsq, hV, ← hm]
  rw [hV, ← hm] at h
  obtain ⟨c, hc, hcq⟩ : ∃ c : Nat, 2 ^ 64 * 2 ^ 64 = c ∧ (c : ℚ) = (2 : ℚ) ^ ((128 : Nat) : ℤ) := by
    refine ⟨2 ^ 128, by rw [← pow_add], ?_⟩
    rw [zpow_natCast]
    norm_cast
  have hc2 : (2 : Nat) ^ 128 = c := by
    rw [← hc, ← pow_add]
  rw [hc2]
  have hspec1 := isqrt_sq_le (m * c)
  have hspec2 := lt_isqrt_succ_sq (m * c)
  generalize hi : isqrt (m * c) = i at hspec1 hspec2
  generalize hst : decide (i * i ≠ m * c) = sticky
  obtain ⟨t, ht, ht0⟩ : ∃ t : ℚ, t = (2 : ℚ) ^ (hh - 64) ∧ 0 < t :=
    ⟨_, rfl, zpow_pos (by norm_num) _⟩
  have ht2 : (2 : ℚ) ^ (2 * hh) = (c : ℚ) * (t * t) := by
    rw [ht, hcq, ← zpow_add₀ (by norm_num : (2 : ℚ) ≠ 0),
      ← zpow_add₀ (by norm_num : (2 : ℚ) ≠ 0)]
    congr 1
    push_cast
    ring
  have hp : toRat { neg := false, mant := i, exp := hh - 64 } = (i : ℚ) * t := by
    rw [ht]
    simp [toRat]
  generalize ({ neg := false, mant := i, exp := hh - 64 } : Binary64) = pre at hp
  have hi0 : (0 : ℚ) ≤ (i : ℚ) := Nat.cast_nonneg _
  have hp0 : 0 ≤ toRat pre := by
    rw [hp]
    exact mul_nonneg hi0 (le_of_lt ht0)
  have hVt : (m : ℚ) * (2 : ℚ) ^ (2 * hh) = ((m * c : Nat) : ℚ) * (t * t) := by
    rw [ht2]
    push_cast
    ring
  rw [hVt]
  rw [hVt] at h
  have h1 : toRat pre * toRat pre ≤ ((m * c : Nat) : ℚ) * (t * t) := by
    rw [hp]
    have : ((i * i : Nat) : ℚ) ≤ ((m * c : Nat) : ℚ) := Nat.cast_le.mpr hspec1
    push_cast at this ⊢
    nlinarith [mul_pos ht0 ht0]
  have h2 : ((m * c : Nat) : ℚ) * (t * t) ≤ (toRat pre + t) * (toRat pre + t) := by
    rw [hp]
    have : ((m * c : Nat) : ℚ) ≤ (((i + 1) * (i + 1) : Nat) : ℚ) :=
      Nat.cast_le.mpr (le_of_lt hspec2)
    push_cast at this ⊢
    nlinarith [mul_pos ht0 ht0]
  by_cases hm00 : m = 0
  · have hi00 : i = 0 := by
      rw [← hi, hm00, Nat.zero_mul]
      rfl
    have hpm : toRat pre = 0 := by
      rw [hp, hi00]
      simp
    have hr0 : toRat (round sticky pre) = 0 :=
      (toRat_eq_zero_iff _).mpr (round_mant_zero sticky pre ((toRat_eq_zero_iff _).mp hpm))
    rw [hr0, hm00]
    simp
  · have h64 : 2 ^ 64 ≤ i := by
      by_contra hcon
      push_neg at hcon
      have h3 : (i + 1) * (i + 1) ≤ 2 ^ 64 * 2 ^ 64 := Nat.mul_le_mul hcon hcon
      have h4 : 1 * c ≤ m * c := Nat.mul_le_mul_right _ (Nat.pos_of_ne_zero hm00)
      rw [hc] at h3
      omega
    have h64q : (2 : ℚ) ^ 64 ≤ (i : ℚ) := by exact_mod_cast h64
    clear hc hc2 hcq hspec1 hspec2 h64 ht2 hVt hi hst hsq hm
    obtain ⟨w, hw, hw0, hwu⟩ : ∃ w : ℚ, w * 2 ^ 64 = 1 ∧ 0 ≤ w ∧ w ≤ unitRoundoff := by
      refine ⟨1 / 2 ^ 64, by norm_num, by positivity, ?_⟩
      unfold unitRoundoff
      norm_num
    have htp : t ≤ w * toRat pre := by
      rw [hp, ← mul_assoc]
      have : 1 ≤ w * (i : ℚ) := by
        rw [← hw]
        exact mul_le_mul_of_nonneg_left h64q hw0
      nlinarith
    have h2' : ((m * c : Nat) : ℚ) * (t * t) ≤
        (toRat pre * (1 + w)) * (toRat pre * (1 + w)) := by
      refine le_trans h2 ?_
      have : toRat pre + t ≤ toRat pre * (1 + w) := by linarith
      exact mul_le_mul this this (by linarith) (le_trans (by linarith) this)
    generalize ((m * c : Nat) : ℚ) * (t * t) = V at h h1 h2 h2'
    have hmn := minNormal_pos
    have hVpos : 4 * minNormal * minNormal ≤ V := by
      rcases h with h | h
      · exfalso
        have hpz : toRat pre * toRat pre ≤ 0 := by linarith
        have hpz2 : toRat pre = 0 := by nlinarith [mul_self_nonneg (toRat pre)]
        rw [hp] at hpz2
        have hipos : (0 : ℚ) < (i : ℚ) := lt_of_lt_of_le (by positivity) h64q
        rcases mul_eq_zero.mp hpz2 with h6 | h6
        · linarith
        · linarith
      · exact h
    have hur := unitRoundoff_pos
    have hul := unitRoundoff_le
    have hnorm : minNormal ≤ toRat pre := by
      by_contra hcon
      push_neg at hcon
      have h7 : toRat pre * (1 + w) < 2 * minNormal := by nlinarith
      have h8 : (toRat pre * (1 + w)) * (toRat pre * (1 + w)) < (2 * minNormal) * (2 * minNormal) :=
        mul_self_lt_mul_self (mul_nonneg hp0 (by linarith)) h7
      linarith
    have hround := round_near sticky pre (Or.inr (by rw [abs_of_nonneg hp0]; exact hnorm))
    rw [abs_of_nonneg hp0, abs_le] at hround
    exact sq_bounds (toRat pre) _ V unitRoundoff w hp0 h1 h2' (by linarith) (by linarith)
      (le_of_lt hur) (by linarith) hw0 hwu


end Binary64

theorem clamp_component (x s q x' u : ℚ) (hu0 : 0 < u) (hs : 0 < s)
    (hq : |q - x / s| ≤ 2 * u * |x / s|) (hx' : |x' - q * 30| ≤ u * |q * 30|) :
    ∃ c : ℚ, x' = c * x ∧ |c - 30 / s| ≤ 30 / s * (3 * u + 2 * u ^ 2) := by
  have hk : 0 < 30 / s := div_pos (by norm_num) hs
  by_cases hx : x = 0
  · subst hx
    rw [zero_div, abs_zero, mul_zero, sub_zero] at hq
    have hq0 : q = 0 := abs_eq_zero.mp (le_antisymm hq (abs_nonneg _))
    subst hq0
    rw [zero_mul, abs_zero, mul_zero, sub_zero] at hx'
    have hx0 : x' = 0 := abs_eq_zero.mp (le_antisymm hx' (abs_nonneg _))
    refine ⟨30 / s, by rw [hx0, mul_zero], ?_⟩
    rw [sub_self, abs_zero]
    positivity
  · have hxa : 0 < |x| := abs_pos.mpr hx
    refine ⟨x' / x, by field_simp, ?_⟩
    have hxs : |x / s| = |x| / s := by rw [abs_div, abs_of_pos hs]
    have hq30 : |q * 30| = 30 * |q| := by
      rw [abs_mul, abs_of_pos (by norm_num : (0 : ℚ) < 30), mul_comm]
    have hqb : |q| ≤ |x / s| + 2 * u * |x / s| := by
      have := abs_sub_abs_le_abs_sub q (x / s)
      linarith
    have h1 : |x' - 30 / s * x| ≤ |x' - q * 30| + |q * 30 - 30 / s * x| := abs_sub_le _ _ _
    have h2 : |q * 30 - 30 / s * x| = 30 * |q - x / s| := by
      rw [show q * 30 - 30 / s * x = 30 * (q - x / s) by ring, abs_mul,
        abs_of_pos (by norm_num : (0 : ℚ) < 30)]
    have h3 : |x' - 30 / s * x| ≤ 30 / s * (3 * u + 2 * u ^ 2) * |x| := by
      rw [h2] at h1
      rw [hq30] at hx'
      have h4 : u * (30 * |q|) ≤ u * (30 * (|x / s| + 2 * u * |x / s|)) :=
        mul_le_mul_of_nonneg_left (by linarith) (le_of_lt hu0)
      have h5 : 30 / s * (3 * u + 2 * u ^ 2) * |x| =
          u * (30 * (|x / s| + 2 * u * |x / s|)) + 30 * (2 * u * |x / s|) := by
        rw [hxs]
        field_simp
        ring
      linarith
    have h6 : |x' / x - 30 / s| * |x| = |x' - 30 / s * x| := by
      rw [← abs_mul]
      congr 1
      field_simp
      ring
    have h7 : |x' / x - 30 / s| * |x| ≤ 30 / s * (3 * u + 2 * u ^ 2) * |x| := by
      rw [h6]
      exact h3
    exact le_of_mul_le_mul_right h7 hxa

theorem eta_bound (u : ℚ) (hu0 : 0 < u) (hu1 : u ≤ 1 / 8000000000000000) :
    2 * (3 * u + 2 * u ^ 2) ≤ (1 - (3 * u + 2 * u ^ 2)) * (7 * u) := by
  have h : 0 ≤ 1 - 25 * u - 14 * u ^ 2 := by nlinarith
  nlinarith [mul_nonneg (le_of_lt hu0) h]

theorem speed_sq_bounds (x z A B C s u : ℚ)
    (hu0 : 0 < u) (hu1 : u ≤ 1 / 8000000000000000)
    (hA : |A - x * x| ≤ u * |x * x|) (hB : |B - z * z| ≤ u * |z * z|)
    (hC : |C - (A + B)| ≤ u * |A + B|)
    (hs1 : (1 - 2 * u) ^ 2 * C ≤ s ^ 2) (hs2 : s ^ 2 ≤ (1 + 2 * u) ^ 2 * C) :
    ((1 - 2 * u) * (1 - u)) ^ 2 * (x * x + z * z) ≤ s ^ 2 ∧
    s ^ 2 ≤ ((1 + 2 * u) * (1 + u)) ^ 2 * (x * x + z * z) := by
  have hxx : |x * x| = x * x := abs_of_nonneg (mul_self_nonneg x)
  have hzz : |z * z| = z * z := abs_of_nonneg (mul_self_nonneg z)
  rw [hxx, abs_le] at hA
  rw [hzz, abs_le] at hB
  have hW0 : 0 ≤ x * x + z * z := add_nonneg (mul_self_nonneg x) (mul_self_nonneg z)
  have hu2 : u ≤ 1 / 4 := by linarith
  have hAB0 : 0 ≤ A + B := by nlinarith [mul_self_nonneg x, mul_self_nonneg z]
  rw [abs_of_nonneg hAB0, abs_le] at hC
  have hC1 : (1 - u) ^ 2 * (x * x + z * z) ≤ C := by
    have h1 : (1 - u) * (x * x + z * z) ≤ A + B := by linarith
    have h2 : (1 - u) * ((1 - u) * (x * x + z * z)) ≤ (1 - u) * (A + B) :=
      mul_le_mul_of_nonneg_left h1 (by linarith)
    calc (1 - u) ^ 2 * (x * x + z * z) = (1 - u) * ((1 - u) * (x * x + z * z)) := by ring
      _ ≤ (1 - u) * (A + B) := h2
      _ ≤ C := by linarith
  have hC2 : C ≤ (1 + u) ^ 2 * (x * x + z * z) := by
    have h1 : A + B ≤ (1 + u) * (x * x + z * z) := by linarith
    have h2 : (1 + u) * (A + B) ≤ (1 + u) * ((1 + u) * (x * x + z * z)) :=
      mul_le_mul_of_nonneg_left h1 (by linarith)
    calc C ≤ (1 + u) * (A + B) := by linarith
      _ ≤ (1 + u) * ((1 + u) * (x * x + z * z)) := h2
      _ = (1 + u) ^ 2 * (x * x + z * z) := by ring
  constructor
  · calc ((1 - 2 * u) * (1 - u)) ^ 2 * (x * x + z * z)
        = (1 - 2 * u) ^ 2 * ((1 - u) ^ 2 * (x * x + z * z)) := by ring
      _ ≤ (1 - 2 * u) ^ 2 * C := mul_le_mul_of_nonneg_left hC1 (sq_nonneg _)
      _ ≤ s ^ 2 := hs1
  · calc s ^ 2 ≤ (1 + 2 * u) ^ 2 * C := hs2
      _ ≤ (1 + 2 * u) ^ 2 * ((1 + u) ^ 2 * (x * x + z * z)) :=
        mul_le_mul_of_nonneg_left hC2 (sq_nonneg _)
      _ = ((1 + 2 * u) * (1 + u)) ^ 2 * (x * x + z * z) := by ring

theorem clamp_algebra (x z A B C s qx qz x' z' u : ℚ)
    (hu0 : 0 < u) (hu1 : u ≤ 1 / 8000000000000000)
    (hA : |A - x * x| ≤ u * |x * x|) (hB : |B - z * z| ≤ u * |z * z|)
    (hC : |C - (A + B)| ≤ u * |A + B|)
    (hs1 : (1 - 2 * u) ^ 2 * C ≤ s ^ 2) (hs2 : s ^ 2 ≤ (1 + 2 * u) ^ 2 * C)
    (hs30 : 30 < s)
    (hqx : |qx - x / s| ≤ 2 * u * |x / s|) (hx' : |x' - qx * 30| ≤ u * |qx * 30|)
    (hqz : |qz - z / s| ≤ 2 * u * |z / s|) (hz' : |z' - qz * 30| ≤ u * |qz * 30|) :
    ∃ cx cz : ℚ, 0 < cx ∧ 0 < cz ∧ x' = cx * x ∧ z' = cz * z ∧
      |cx - cz| ≤ cz * (7 * u) ∧
      (x' * x' + z' * z') * ((1 - 2 * u) * (1 - u)) ^ 2 ≤ 900 * (1 + (3 * u + 2 * u ^ 2)) ^ 2 ∧
      900 * (1 - (3 * u + 2 * u ^ 2)) ^ 2 ≤ (x' * x' + z' * z') * ((1 + 2 * u) * (1 + u)) ^ 2 := by
  have hs : 0 < s := by linarith
  obtain ⟨cx, hcx, hcxk⟩ := clamp_component x s qx x' u hu0 hs hqx hx'
  obtain ⟨cz, hcz, hczk⟩ := clamp_component z s qz z' u hu0 hs hqz hz'
  have hk : 0 < 30 / s := div_pos (by norm_num) hs
  have hks : 30 / s * s = 30 := by field_simp
  generalize 30 / s = k at hcxk hczk hk hks
  obtain ⟨η, hη⟩ : ∃ η : ℚ, η = 3 * u + 2 * u ^ 2 := ⟨_, rfl⟩
  rw [← hη] at hcxk hczk ⊢
  have hη0 : 0 < η := by rw [hη]; positivity
  have hη1 : η ≤ 4 * u := by rw [hη]; nlinarith
  have hη2 : η ≤ 1 / 2 := by linarith
  rw [abs_le] at hcxk hczk
  have hcx0 : k * (1 - η) ≤ cx := by linarith
  have hcx1 : cx ≤ k * (1 + η) := by linarith
  have hcz0 : k * (1 - η) ≤ cz := by linarith
  have hcz1 : cz ≤ k * (1 + η) := by linarith
  have hkη : 0 < k * (1 - η) := mul_pos hk (by linarith)
  obtain ⟨hS1, hS2⟩ := speed_sq_bounds x z A B C s u hu0 hu1 hA hB hC hs1 hs2
  clear hA hB hC hs1 hs2 hqx hx' hqz hz'
  have hcxsq1 : cx ^ 2 ≤ (k * (1 + η)) ^ 2 := pow_le_pow_left₀ (by linarith) hcx1 2
  have hczsq1 : cz ^ 2 ≤ (k * (1 + η)) ^ 2 := pow_le_pow_left₀ (by linarith) hcz1 2
  have hcxsq0 : (k * (1 - η)) ^ 2 ≤ cx ^ 2 := pow_le_pow_left₀ (le_of_lt hkη) hcx0 2
  have hczsq0 : (k * (1 - η)) ^ 2 ≤ cz ^ 2 := pow_le_pow_left₀ (le_of_lt hkη) hcz0 2
  have hM1 : x' * x' + z' * z' ≤ (k * (1 + η)) ^ 2 * (x * x + z * z) := by
    rw [hcx, hcz]
    have h1 := mul_le_mul_of_nonneg_right hcxsq1 (mul_self_nonneg x)
    have h2 := mul_le_mul_of_nonneg_right hczsq1 (mul_self_nonneg z)
    calc cx * x * (cx * x) + cz * z * (cz * z) = cx ^ 2 * (x * x) + cz ^ 2 * (z * z) := by ring
      _ ≤ (k * (1 + η)) ^ 2 * (x * x) + (k * (1 + η)) ^ 2 * (z * z) := add_le_add h1 h2
      _ = (k * (1 + η)) ^ 2 * (x * x + z * z) := by ring
  have hM0 : (k * (1 - η)) ^ 2 * (x * x + z * z) ≤ x' * x' + z' * z' := by
    rw [hcx, hcz]
    have h1 := mul_le_mul_of_nonneg_right hcxsq0 (mul_self_nonneg x)
    have h2 := mul_le_mul_of_nonneg_right hczsq0 (mul_self_nonneg z)
    calc (k * (1 - η)) ^ 2 * (x * x + z * z)
        = (k * (1 - η)) ^ 2 * (x * x) + (k * (1 - η)) ^ 2 * (z * z) := by ring
      _ ≤ cx ^ 2 * (x * x) + cz ^ 2 * (z * z) := add_le_add h1 h2
      _ = cx * x * (cx * x) + cz * z * (cz * z) := by ring
  have hk2 : k ^ 2 * s ^ 2 = 900 := by
    rw [← mul_pow, hks]
    norm_num
  refine ⟨cx, cz, by linarith, by linarith, hcx, hcz, ?_, ?_, ?_⟩
  · rw [abs_le]
    have h1 : 2 * (k * η) ≤ k * (1 - η) * (7 * u) := by
      have : 2 * η ≤ (1 - η) * (7 * u) := by
        rw [hη]
        exact eta_bound u hu0 hu1
      calc 2 * (k * η) = k * (2 * η) := by ring
        _ ≤ k * ((1 - η) * (7 * u)) := mul_le_mul_of_nonneg_left this (le_of_lt hk)
        _ = k * (1 - η) * (7 * u) := by ring
    have h2 : k * (1 - η) * (7 * u) ≤ cz * (7 * u) :=
      mul_le_mul_of_nonneg_right hcz0 (by linarith)
    constructor <;> linarith
  · calc (x' * x' + z' * z') * ((1 - 2 * u) * (1 - u)) ^ 2
        ≤ (k * (1 + η)) ^ 2 * (x * x + z * z) * ((1 - 2 * u) * (1 - u)) ^ 2 :=
          mul_le_mul_of_nonneg_right hM1 (sq_nonneg _)
      _ = (k * (1 + η)) ^ 2 * (((1 - 2 * u) * (1 - u)) ^ 2 * (x * x + z * z)) := by ring
      _ ≤ (k * (1 + η)) ^ 2 * s ^ 2 := mul_le_mul_of_nonneg_left hS1 (sq_nonneg _)
      _ = k ^ 2 * s ^ 2 * (1 + η) ^ 2 := by ring
      _ = 900 * (1 + η) ^ 2 := by rw [hk2]
  · calc 900 * (1 - η) ^ 2 = (k * (1 - η)) ^ 2 * s ^ 2 := by
          rw [← hk2]
          ring
      _ ≤ (k * (1 - η)) ^ 2 * (((1 + 2 * u) * (1 + u)) ^ 2 * (x * x + z * z)) :=
          mul_le_mul_of_nonneg_left hS2 (sq_nonneg _)
      _ = (k * (1 - η)) ^ 2 * (x * x + z * z) * ((1 + 2 * u) * (1 + u)) ^ 2 := by ring
      _ ≤ (x' * x' + z' * z') * ((1 + 2 * u) * (1 + u)) ^ 2 :=
          mul_le_mul_of_nonneg_right hM0 (sq_nonneg _)

namespace Binary64

theorem range_consts :
    0 < rangeLow ∧ 0 < rangeHigh ∧ minNormal ≤ rangeLow * rangeLow / 2 ∧
    4 * minNormal * minNormal ≤ rangeLow * rangeLow / 4 ∧
    2 * minNormal * (6 * rangeHigh) ≤ rangeLow := by
  unfold rangeLow rangeHigh minNormal
  refine ⟨by positivity, by positivity, ?_, ?_, ?_⟩ <;> norm_num

theorem sq_facts (v : Binary64) (hv : InRange v) :
    |toRat (mul v v) - toRat v * toRat v| ≤ unitRoundoff * |toRat v * toRat v| ∧
    0 ≤ toRat (mul v v) ∧ toRat (mul v v) ≤ 2 * (rangeHigh * rangeHigh) ∧
    (toRat v = 0 → toRat (mul v v) = 0) ∧
    (toRat v ≠ 0 → rangeLow * rangeLow / 2 ≤ toRat (mul v v)) := by
  obtain ⟨hlo, hhi, hc1, _, _⟩ := range_consts
  obtain ⟨hv1, hv2⟩ := hv
  have hu := unitRoundoff_pos
  have hul := unitRoundoff_le
  have hll := mul_pos hlo hlo
  have hsq : |toRat v * toRat v| = |toRat v| * |toRat v| := abs_mul _ _
  have hsq2 : |toRat v * toRat v| = toRat v * toRat v := abs_of_nonneg (mul_self_nonneg _)
  have hcond : toRat v * toRat v = 0 ∨ minNormal ≤ |toRat v * toRat v| := by
    rcases hv2 with h | h
    · left
      rw [h, mul_zero]
    · right
      rw [hsq]
      have : rangeLow * rangeLow ≤ |toRat v| * |toRat v| :=
        mul_le_mul h h (le_of_lt hlo) (abs_nonneg _)
      linarith
  have hnear := mul_near v v hcond
  have hup : |toRat v| * |toRat v| ≤ rangeHigh * rangeHigh :=
    mul_le_mul hv1 hv1 (abs_nonneg _) (le_of_lt hhi)
  refine ⟨hnear, ?_, ?_, ?_, ?_⟩
  · rw [hsq2, abs_le] at hnear
    nlinarith [mul_self_nonneg (toRat v)]
  · rw [hsq2, abs_le] at hnear
    rw [← hsq, hsq2] at hup
    nlinarith [mul_self_nonneg (toRat v)]
  · intro h0
    rw [h0, mul_zero, abs_zero, mul_zero, sub_zero] at hnear
    exact abs_eq_zero.mp (le_antisymm hnear (abs_nonneg _))
  · intro hne
    rcases hv2 with h | h
    · exact absurd h hne
    · have h1 : rangeLow * rangeLow ≤ |toRat v| * |toRat v| :=
        mul_le_mul h h (le_of_lt hlo) (abs_nonneg _)
      rw [← hsq, hsq2] at h1
      rw [hsq2, abs_le] at hnear
      nlinarith [mul_self_nonneg (toRat v)]


theorem sum_facts (vx vz : Binary64) (hx : InRange vx) (hz : InRange vz) :
    |toRat (add (mul vx vx) (mul vz vz)) - (toRat (mul vx vx) + toRat (mul vz vz))| ≤
      unitRoundoff * |toRat (mul vx vx) + toRat (mul vz vz)| ∧
    0 ≤ toRat (add (mul vx vx) (mul vz vz)) ∧
    (toRat (add (mul vx vx) (mul vz vz)) = 0 ∨
      4 * minNormal * minNormal ≤ toRat (add (mul vx vx) (mul vz vz))) ∧
    toRat (add (mul vx vx) (mul vz vz)) ≤ 8 * (rangeHigh * rangeHigh) := by
  obtain ⟨hlo, hhi, hc1, hc2, _⟩ := range_consts
  obtain ⟨_, hA0, hA1, hAz, hAn⟩ := sq_facts vx hx
  obtain ⟨_, hB0, hB1, hBz, hBn⟩ := sq_facts vz hz
  have hu := unitRoundoff_pos
  have hul := unitRoundoff_le
  have hll := mul_pos hlo hlo
  have hhh := mul_pos hhi hhi
  have hnear := add_near (mul vx vx) (mul vz vz)
  generalize toRat (add (mul vx vx) (mul vz vz)) = C at *
  generalize toRat (mul vx vx) = A at *
  generalize toRat (mul vz vz) = B at *
  have hAB0 : 0 ≤ A + B := add_nonneg hA0 hB0
  have hsmall : A + B = 0 ∨ rangeLow * rangeLow / 2 ≤ A + B := by
    by_cases h1 : toRat vx = 0
    · by_cases h2 : toRat vz = 0
      · left
        rw [hAz h1, hBz h2, add_zero]
      · right
        have := hBn h2
        linarith
    · right
      have := hAn h1
      linarith
  have hcond : A + B = 0 ∨ minNormal ≤ |A + B| := by
    rcases hsmall with h | h
    · exact Or.inl h
    · right
      rw [abs_of_nonneg hAB0]
      linarith
  have hn := hnear hcond
  refine ⟨hn, ?_, ?_, ?_⟩
  · rw [abs_of_nonneg hAB0, abs_le] at hn
    nlinarith
  · rcases hsmall with h | h
    · left
      rw [h, abs_zero, mul_zero, sub_zero] at hn
      exact abs_eq_zero.mp (le_antisymm hn (abs_nonneg _))
    · right
      rw [abs_of_nonneg hAB0, abs_le] at hn
      nlinarith
  · rw [abs_of_nonneg hAB0, abs_le] at hn
    nlinarith

theorem speed_facts (vx vz : Binary64) (hx : InRange vx) (hz : InRange vz) :
    0 ≤ toRat (sqrt (add (mul vx vx) (mul vz vz))) ∧
    (1 - 2 * unitRoundoff) ^ 2 * toRat (add (mul vx vx) (mul vz vz)) ≤
      toRat (sqrt (add (mul vx vx) (mul vz vz))) ^ 2 ∧
    toRat (sqrt (add (mul vx vx) (mul vz vz))) ^ 2 ≤
      (1 + 2 * unitRoundoff) ^ 2 * toRat (add (mul vx vx) (mul vz vz)) ∧
    toRat (sqrt (add (mul vx vx) (mul vz vz))) ≤ 6 * rangeHigh := by
  obtain ⟨hlo, hhi, _, _, _⟩ := range_consts
  obtain ⟨_, hC0, hCn, hC8⟩ := sum_facts vx vz hx hz
  obtain ⟨hs0, hs1, hs2⟩ := sqrt_near (add (mul vx vx) (mul vz vz)) hC0 hCn
  refine ⟨hs0, hs1, hs2, ?_⟩
  have hu := unitRoundoff_pos
  have hul := unitRoundoff_le
  have hhh := mul_pos hhi hhi
  generalize toRat (sqrt (add (mul vx vx) (mul vz vz))) = s at *
  generalize toRat (add (mul vx vx) (mul vz vz)) = C at *
  by_contra hcon
  push_neg at hcon
  have h1 : (6 * rangeHigh) ^ 2 < s ^ 2 := pow_lt_pow_left₀ hcon (by linarith) (by norm_num)
  have h2 : (1 + 2 * unitRoundoff) ^ 2 ≤ 2 := by nlinarith
  have h3 : (1 + 2 * unitRoundoff) ^ 2 * C ≤ 2 * C := mul_le_mul_of_nonneg_right h2 hC0
  nlinarith

theorem comp_facts (v sp : Binary64) (hv : InRange v) (hs30 : 30 < toRat sp)
    (hsU : toRat sp ≤ 6 * rangeHigh) :
    |toRat (div v sp) - toRat v / toRat sp| ≤ 2 * unitRoundoff * |toRat v / toRat sp| ∧
    |toRat (mul (div v sp) MAX_SPEED) - toRat (div v sp) * 30| ≤
      unitRoundoff * |toRat (div v sp) * 30| := by
  obtain ⟨hlo, hhi, _, _, hc3⟩ := range_consts
  obtain ⟨hv1, hv2⟩ := hv
  have hu := unitRoundoff_pos
  have hul := unitRoundoff_le
  have hmn := minNormal_pos
  have hs : 0 < toRat sp := by linarith
  have h30 : toRat MAX_SPEED = 30 := by
    rw [MAX_SPEED, toRat_ofNat]
    norm_num
  have hdivcond : toRat v = 0 ∨ 2 * minNormal ≤ |toRat v / toRat sp| := by
    rcases hv2 with h | h
    · exact Or.inl h
    · right
      rw [abs_div, abs_of_pos hs, le_div_iff₀ hs]
      have : 2 * minNormal * toRat sp ≤ 2 * minNormal * (6 * rangeHigh) :=
        mul_le_mul_of_nonneg_left hsU (by linarith)
      linarith
  have hq := div_near v sp (ne_of_gt hs) hdivcond
  refine ⟨hq, ?_⟩
  have hm := mul_near (div v sp) MAX_SPEED
  rw [h30] at hm
  apply hm
  rcases hv2 with h | h
  · left
    rw [h, zero_div, abs_zero, mul_zero, sub_zero] at hq
    rw [abs_eq_zero.mp (le_antisymm hq (abs_nonneg _)), zero_mul]
  · right
    have hge : 2 * minNormal ≤ |toRat v / toRat sp| := by
      rcases hdivcond with h0 | h0
      · rw [h0, abs_zero] at h
        linarith
      · exact h0
    have hqa : |toRat v / toRat sp| - 2 * unitRoundoff * |toRat v / toRat sp| ≤
        |toRat (div v sp)| := by
      have := abs_sub_abs_le_abs_sub (toRat v / toRat sp) (toRat (div v sp))
      rw [abs_sub_comm] at this
      linarith
    rw [abs_mul, abs_of_pos (by norm_num : (0 : ℚ) < 30)]
    generalize |toRat v / toRat sp| = r at hge hqa
    generalize |toRat (div v sp)| = q at hqa
    nlinarith

end Binary64

theorem Binary64.inRange_of_exp (d : Binary64) (h1 : 1 ≤ d.mant) (h2 : d.mant < 2 ^ 53)
    (h3 : -500 ≤ d.exp) (h4 : d.exp ≤ 400) : Binary64.InRange d := by
  have hlo : Binary64.rangeLow = (2 : ℚ) ^ (-500 : ℤ) := by
    unfold Binary64.rangeLow
    rw [zpow_neg, one_div, show ((500 : ℤ)) = ((500 : Nat) : ℤ) by rfl, zpow_natCast]
  have hhi : Binary64.rangeHigh = (2 : ℚ) ^ (53 : ℕ) * (2 : ℚ) ^ (447 : ℤ) := by
    unfold Binary64.rangeHigh
    rw [show ((447 : ℤ)) = ((447 : Nat) : ℤ) by rfl, zpow_natCast, ← pow_add]
  have hm1 : (1 : ℚ) ≤ (d.mant : ℚ) := by exact_mod_cast h1
  have hm2 : (d.mant : ℚ) ≤ (2 : ℚ) ^ (53 : ℕ) := by exact_mod_cast (le_of_lt h2)
  have hp : (0 : ℚ) < (2 : ℚ) ^ d.exp := zpow_pos (by norm_num) _
  have he1 : (2 : ℚ) ^ (-500 : ℤ) ≤ (2 : ℚ) ^ d.exp :=
    zpow_le_zpow_right₀ (by norm_num) h3
  have he2 : (2 : ℚ) ^ d.exp ≤ (2 : ℚ) ^ (447 : ℤ) :=
    zpow_le_zpow_right₀ (by norm_num) (by omega)
  unfold Binary64.InRange
  rw [Binary64.abs_toRat, hlo, hhi]
  constructor
  · exact mul_le_mul hm2 he2 (le_of_lt hp) (by positivity)
  · right
    calc (2 : ℚ) ^ (-500 : ℤ) = 1 * (2 : ℚ) ^ (-500 : ℤ) := (one_mul _).symm
      _ ≤ (d.mant : ℚ) * (2 : ℚ) ^ d.exp := mul_le_mul hm1 he1 (by positivity) (by positivity)

/-! ## Speed limit of the local player -/

/-- The speed limit read in exact arithmetic, over the real numbers with the
real square root: a velocity whose planar magnitude exceeds `MAX_SPEED` = 30
is replaced by one of planar magnitude exactly 30 that is a positive multiple
of it; a velocity of magnitude at most 30 is left unchanged. -/
theorem clampSpeedExact_spec (vx vy vz : ℝ) :
    (Real.sqrt (vx * vx + vz * vz) > 30 →
      Real.sqrt ((clampSpeedExact Real.sqrt { x := vx, y := vy, z := vz }).x *
          (clampSpeedExact Real.sqrt { x := vx, y := vy, z := vz }).x +
        (clampSpeedExact Real.sqrt { x := vx, y := vy, z := vz }).z *
          (clampSpeedExact Real.sqrt { x := vx, y := vy, z := vz }).z) = 30 ∧
      ∃ c : ℝ, 0 < c ∧
        (clampSpeedExact Real.sqrt { x := vx, y := vy, z := vz }).x = c * vx ∧
        (clampSpeedExact Real.sqrt { x := vx, y := vy, z := vz }).z = c * vz) ∧
    (Real.sqrt (vx * vx + vz * vz) ≤ 30 →
      clampSpeedExact Real.sqrt { x := vx, y := vy, z := vz } = { x := vx, y := vy, z := vz }) ∧
    (CONSTANTS.MAX_SPEED : ℝ) = 30 := by
  refine ⟨?_, ?_, rfl⟩
  · intro hs
    have hpos : 0 < Real.sqrt (vx * vx + vz * vz) := by linarith
    have hnn : 0 ≤ vx * vx + vz * vz := add_nonneg (mul_self_nonneg vx) (mul_self_nonneg vz)
    have hsq : Real.sqrt (vx * vx + vz * vz) * Real.sqrt (vx * vx + vz * vz) =
        vx * vx + vz * vz := Real.mul_self_sqrt hnn
    have hc : clampSpeedExact Real.sqrt { x := vx, y := vy, z := vz } =
        { x := vx / Real.sqrt (vx * vx + vz * vz) * 30, y := vy
          z := vz / Real.sqrt (vx * vx + vz * vz) * 30 } := by
      simp only [clampSpeedExact, CONSTANTS.MAX_SPEED]
      rw [if_pos hs]
    rw [hc]
    generalize Real.sqrt (vx * vx + vz * vz) = s at hs hpos hsq
    constructor
    · have h900 : vx / s * 30 * (vx / s * 30) + vz / s * 30 * (vz / s * 30) = 30 * 30 := by
        field_simp
        nlinarith
      rw [h900]
      exact Real.sqrt_mul_self (by norm_num)
    · refine ⟨30 / s, div_pos (by norm_num) hpos, ?_, ?_⟩ <;> ring
  · intro hs
    simp only [clampSpeedExact, CONSTANTS.MAX_SPEED]
    rw [if_neg (not_lt.mpr hs)]

theorem sqrt_thirty_forty : Real.sqrt (30 * 30 + 40 * 40) = 50 := by
  rw [show (30 * 30 + 40 * 40 : ℝ) = 50 * 50 by norm_num]
  exact Real.sqrt_mul_self (by norm_num)

/-- Instance in exact arithmetic: the velocity `(30, 40)`, of magnitude 50. -/
theorem clampSpeedExact_spec_witness :
    Real.sqrt (30 * 30 + 40 * 40) > 30 ∧
    Real.sqrt ((clampSpeedExact Real.sqrt { x := 30, y := 0, z := 40 }).x *
          (clampSpeedExact Real.sqrt { x := 30, y := 0, z := 40 }).x +
        (clampSpeedExact Real.sqrt { x := 30, y := 0, z := 40 }).z *
          (clampSpeedExact Real.sqrt { x := 30, y := 0, z := 40 }).z) = 30 ∧
      ∃ c : ℝ, 0 < c ∧
        (clampSpeedExact Real.sqrt { x := 30, y := 0, z := 40 }).x = c * 30 ∧
        (clampSpeedExact Real.sqrt { x := 30, y := 0, z := 40 }).z = c * 40 :=
  ⟨by rw [sqrt_thirty_forty]; norm_num,
    (clampSpeedExact_spec 30 0 40).1 (by rw [sqrt_thirty_forty]; norm_num)⟩

/-! ## Speed limit in double arithmetic -/

theorem planarSq_eq_iff (v : Vec3 Binary64) (n : Nat) :
    planarSq v = n ↔
      Binary64.same (Binary64.exactAdd (Binary64.exactMul v.x v.x) (Binary64.exactMul v.z v.z))
        (Binary64.ofNat n) = true := by
  rw [Binary64.same_iff, Binary64.toRat_exactAdd, Binary64.toRat_exactMul,
    Binary64.toRat_exactMul, Binary64.toRat_ofNat]
  rfl

theorem cross_eq_iff (a b c d : Binary64) :
    Binary64.toRat a * Binary64.toRat b = Binary64.toRat c * Binary64.toRat d ↔
      Binary64.same (Binary64.exactMul a b) (Binary64.exactMul c d) = true := by
  rw [Binary64.same_iff, Binary64.toRat_exactMul, Binary64.toRat_exactMul]

theorem planarSpeed_near (v : Vec3 Binary64)
    (hx : Binary64.InRange v.x) (hz : Binary64.InRange v.z) :
    |Binary64.toRat (planarSpeed v) ^ 2 - planarSq v| ≤ planarSq v / 1000000000000000 := by
  obtain ⟨hA, _, _, _, _⟩ := Binary64.sq_facts v.x hx
  obtain ⟨hB, _, _, _, _⟩ := Binary64.sq_facts v.z hz
  obtain ⟨hC, _, _, _⟩ := Binary64.sum_facts v.x v.z hx hz
  obtain ⟨_, hs1, hs2, _⟩ := Binary64.speed_facts v.x v.z hx hz
  obtain ⟨h1, h2⟩ := speed_sq_bounds _ _ _ _ _ _ Binary64.unitRoundoff Binary64.unitRoundoff_pos
    Binary64.unitRoundoff_le hA hB hC hs1 hs2
  have hW : 0 ≤ planarSq v := add_nonneg (mul_self_nonneg _) (mul_self_nonneg _)
  unfold planarSpeed
  unfold planarSq at hW ⊢
  generalize Binary64.toRat (Binary64.sqrt (Binary64.add (Binary64.mul v.x v.x)
    (Binary64.mul v.z v.z))) ^ 2 = S at h1 h2 ⊢
  generalize Binary64.toRat v.x * Binary64.toRat v.x +
    Binary64.toRat v.z * Binary64.toRat v.z = W at h1 h2 hW ⊢
  clear hA hB hC hs1 hs2
  unfold Binary64.unitRoundoff at h1 h2
  norm_num at h1 h2
  rw [abs_le]
  constructor <;> linarith

theorem clampSpeed_rounding (vx vy vz : Binary64)
    (hx : Binary64.InRange vx) (hz : Binary64.InRange vz)
    (hgt : Binary64.gt (planarSpeed { x := vx, y := vy, z := vz }) Binary64.MAX_SPEED = true) :
    ∃ cx cz : ℚ, 0 < cx ∧ 0 < cz ∧
      Binary64.toRat (clampSpeed { x := vx, y := vy, z := vz }).x = cx * Binary64.toRat vx ∧
      Binary64.toRat (clampSpeed { x := vx, y := vy, z := vz }).z = cz * Binary64.toRat vz ∧
      |cx - cz| ≤ cz / 1000000000000000 ∧
      |planarSq (clampSpeed { x := vx, y := vy, z := vz }) - 900| ≤ 1 / 500000000000 := by
  have hc : clampSpeed { x := vx, y := vy, z := vz } =
      { x := Binary64.mul (Binary64.div vx
          (Binary64.sqrt (Binary64.add (Binary64.mul vx vx) (Binary64.mul vz vz))))
          Binary64.MAX_SPEED
        y := vy
        z := Binary64.mul (Binary64.div vz
          (Binary64.sqrt (Binary64.add (Binary64.mul vx vx) (Binary64.mul vz vz))))
          Binary64.MAX_SPEED } := by
    simp only [clampSpeed]
    rw [if_pos hgt]
    rfl
  rw [hc]
  simp only [planarSq]
  have hs30 : 30 < Binary64.toRat
      (Binary64.sqrt (Binary64.add (Binary64.mul vx vx) (Binary64.mul vz vz))) := by
    have := (Binary64.gt_iff _ _).mp hgt
    rw [Binary64.MAX_SPEED, Binary64.toRat_ofNat] at this
    exact_mod_cast this
  obtain ⟨hA, _, _, _, _⟩ := Binary64.sq_facts vx hx
  obtain ⟨hB, _, _, _, _⟩ := Binary64.sq_facts vz hz
  obtain ⟨hC, _, _, _⟩ := Binary64.sum_facts vx vz hx hz
  obtain ⟨_, hs1, hs2, hsU⟩ := Binary64.speed_facts vx vz hx hz
  obtain ⟨hqx, hx'⟩ := Binary64.comp_facts vx _ hx hs30 hsU
  obtain ⟨hqz, hz'⟩ := Binary64.comp_facts vz _ hz hs30 hsU
  obtain ⟨cx, cz, hcx0, hcz0, hcx, hcz, hcc, hM1, hM2⟩ :=
    clamp_algebra _ _ _ _ _ _ _ _ _ _ Binary64.unitRoundoff Binary64.unitRoundoff_pos
      Binary64.unitRoundoff_le hA hB hC hs1 hs2 hs30 hqx hx' hqz hz'
  refine ⟨cx, cz, hcx0, hcz0, hcx, hcz, ?_, ?_⟩
  · have h7 : cz * (7 * Binary64.unitRoundoff) ≤ cz / 1000000000000000 := by
      have := Binary64.unitRoundoff_le
      rw [div_eq_mul_one_div]
      exact mul_le_mul_of_nonneg_left (by linarith) (le_of_lt hcz0)
    linarith
  · generalize Binary64.toRat (Binary64.mul (Binary64.div vx _) Binary64.MAX_SPEED) *
        Binary64.toRat (Binary64.mul (Binary64.div vx _) Binary64.MAX_SPEED) +
      Binary64.toRat (Binary64.mul (Binary64.div vz _) Binary64.MAX_SPEED) *
        Binary64.toRat (Binary64.mul (Binary64.div vz _) Binary64.MAX_SPEED) = M at hM1 hM2 ⊢
    clear hA hB hC hs1 hs2 hsU hqx hx' hqz hz' hcx hcz hcc hs30 hc
    unfold Binary64.unitRoundoff at hM1 hM2
    norm_num at hM1 hM2
    rw [abs_le]
    constructor <;> linarith

theorem sqrt_near_thirty (M : ℝ) (h : |M - 900| ≤ 1 / 500000000000) :
    |Real.sqrt M - 30| ≤ 1 / 10000000000000 := by
  rw [abs_le] at h
  have hM0 : 0 ≤ M := by linarith
  have hm0 : 0 ≤ Real.sqrt M := Real.sqrt_nonneg M
  have hsq : Real.sqrt M * Real.sqrt M = M := Real.mul_self_sqrt hM0
  generalize Real.sqrt M = m at hm0 hsq
  rw [abs_le]
  constructor <;> nlinarith

theorem fastVelocity_inRange :
    Binary64.InRange fastVelocity.x ∧ Binary64.InRange fastVelocity.z :=
  ⟨Binary64.inRange_of_exp _ (by decide) (by decide) (by decide) (by decide),
    Binary64.inRange_of_exp _ (by decide) (by decide) (by decide) (by decide)⟩

theorem clampSpeed_fastVelocity :
    clampSpeed fastVelocity =
      { x := { neg := false, mant := 8443840848056378, exp := -48 }
        y := Binary64.ofNat 0
        z := { neg := false, mant := 5315467025661720, exp := -54 } } := by
  decide!

/-- C12 as stated fails: the velocity `(30.5, 0.3)` has magnitude above 30 and
is clamped to `(29.9985..., 0.29506...)`, the doubles
`8443840848056378 * 2^-48` and `5315467025661720 * 2^-54`.  The squared
magnitude of the result is not 900, its magnitude computed as the code computes
a speed is `8444249301319679 * 2^-48` = 29.999999999999996, and no factor maps
the input to the result. -/
theorem clampSpeed_not_exact :
    planarSq fastVelocity > 900 ∧
    Binary64.gt (planarSpeed fastVelocity) Binary64.MAX_SPEED = true ∧
    clampSpeed fastVelocity =
      { x := { neg := false, mant := 8443840848056378, exp := -48 }
        y := Binary64.ofNat 0
        z := { neg := false, mant := 5315467025661720, exp := -54 } } ∧
    planarSq (clampSpeed fastVelocity) ≠ 900 ∧
    planarSpeed (clampSpeed fastVelocity) =
      { neg := false, mant := 8444249301319679, exp := -48 } ∧
    Binary64.gt Binary64.MAX_SPEED (planarSpeed (clampSpeed fastVelocity)) = true ∧
    ¬ ∃ c : ℚ,
      Binary64.toRat (clampSpeed fastVelocity).x = c * Binary64.toRat fastVelocity.x ∧
      Binary64.toRat (clampSpeed fastVelocity).z = c * Binary64.toRat fastVelocity.z := by
  refine ⟨?_, by decide!, clampSpeed_fastVelocity, ?_, by decide!, by decide!, ?_⟩
  · have h : Binary64.toRat fastVelocity.x = 61 / 2 := by
      simp [fastVelocity, Binary64.toRat]
      norm_num
    unfold planarSq
    rw [h]
    nlinarith [mul_self_nonneg (Binary64.toRat fastVelocity.z)]
  · intro h
    have h900 : planarSq (clampSpeed fastVelocity) = ((900 : Nat) : ℚ) := by
      rw [h]
      norm_num
    have hs := (planarSq_eq_iff _ 900).mp h900
    revert hs
    decide!
  · rintro ⟨c, h1, h2⟩
    have hcross : Binary64.toRat (clampSpeed fastVelocity).x * Binary64.toRat fastVelocity.z =
        Binary64.toRat (clampSpeed fastVelocity).z * Binary64.toRat fastVelocity.x := by
      rw [h1, h2]
      ring
    have hs := (cross_eq_iff _ _ _ _).mp hcross
    revert hs
    decide!

/-- C12 amended: the speed limit in double arithmetic.  A velocity whose
computed speed does not exceed `MAX_SPEED` = 30 is left unchanged.  For
components that are zero or of magnitude between `2^-500` and `2^500`, the
square of the computed speed is within `10^-15`, relatively, of
`vx^2 + vz^2`; and when the computed speed exceeds 30, `y` is kept, each
planar component of the result is a positive multiple of the component it
replaces, the two factors differ by at most `10^-15` of one of them, the
squared magnitude of the result is within `2 * 10^-12` of 900 and its
magnitude within `10^-13` of 30. -/
theorem clampSpeed_spec (v : Vec3 Binary64) :
    (Binary64.gt (planarSpeed v) Binary64.MAX_SPEED = false → clampSpeed v = v) ∧
    (Binary64.InRange v.x → Binary64.InRange v.z →
      |Binary64.toRat (planarSpeed v) ^ 2 - planarSq v| ≤ planarSq v / 1000000000000000) ∧
    (Binary64.InRange v.x → Binary64.InRange v.z →
      Binary64.gt (planarSpeed v) Binary64.MAX_SPEED = true →
      (clampSpeed v).y = v.y ∧
      (∃ cx cz : ℚ, 0 < cx ∧ 0 < cz ∧
        Binary64.toRat (clampSpeed v).x = cx * Binary64.toRat v.x ∧
        Binary64.toRat (clampSpeed v).z = cz * Binary64.toRat v.z ∧
        |cx - cz| ≤ cz / 1000000000000000) ∧
      |planarSq (clampSpeed v) - 900| ≤ 1 / 500000000000 ∧
      |Real.sqrt ((planarSq (clampSpeed v) : ℚ) : ℝ) - 30| ≤ 1 / 10000000000000) ∧
    Binary64.toRat Binary64.MAX_SPEED = 30 := by
  refine ⟨?_, planarSpeed_near v, ?_, ?_⟩
  · intro h
    simp only [clampSpeed, h]
    rfl
  · intro hx hz hgt
    obtain ⟨cx, cz, h1, h2, h3, h4, h5, h6⟩ := clampSpeed_rounding v.x v.y v.z hx hz hgt
    refine ⟨?_, ⟨cx, cz, h1, h2, h3, h4, h5⟩, h6, ?_⟩
    · simp only [clampSpeed, hgt]
      rfl
    · apply sqrt_near_thirty
      have : |((planarSq (clampSpeed v) - 900 : ℚ) : ℝ)| ≤ ((1 / 500000000000 : ℚ) : ℝ) := by
        rw [← Rat.cast_abs]
        exact_mod_cast h6
      push_cast at this
      exact this
  · rw [Binary64.MAX_SPEED, Binary64.toRat_ofNat]
    norm_num

/-- Instance of the amended C12: the velocity `(30.5, 0.3)`. -/
theorem clampSpeed_spec_witness :
    Binary64.InRange fastVelocity.x ∧ Binary64.InRange fastVelocity.z ∧
    Binary64.gt (planarSpeed fastVelocity) Binary64.MAX_SPEED = true ∧
    (clampSpeed fastVelocity).y = fastVelocity.y ∧
    (∃ cx cz : ℚ, 0 < cx ∧ 0 < cz ∧
      Binary64.toRat (clampSpeed fastVelocity).x = cx * Binary64.toRat fastVelocity.x ∧
      Binary64.toRat (clampSpeed fastVelocity).z = cz * Binary64.toRat fastVelocity.z ∧
      |cx - cz| ≤ cz / 1000000000000000) ∧
    |planarSq (clampSpeed fastVelocity) - 900| ≤ 1 / 500000000000 ∧
    |Real.sqrt ((planarSq (clampSpeed fastVelocity) : ℚ) : ℝ) - 30| ≤ 1 / 10000000000000 :=
  ⟨fastVelocity_inRange.1, fastVelocity_inRange.2, by decide!,
    (clampSpeed_spec fastVelocity).2.2.1 fastVelocity_inRange.1 fastVelocity_inRange.2
      (by decide!)⟩

/-! ## Relay of a state update -/

/-- Payload of the relay: when connection `A` is known (`p` is its player in
the first room that holds it) and sends `player-update` with a position object
carrying `x` and `z` and with a rotation `r`, the relay emits `player-updated`
to the room named by `p.roomId`, skipping `A`, with id `A`, a position whose
`x` and `z` are the sent values, rotation `r`, the stored velocity, and the
server clock reading of the broadcast as timestamp, whatever timestamp the
client sent. -/
theorem onPlayerUpdate_relays (g : Game) (A : String) (p : Player) (data : UpdateData)
    (pos : Obj) (px pz : Prim) (r : JsVal) (tUpdate tEmit : Int)
    (hu : JsMap.UniqueKeys g.rooms)
    (hp : getPlayer g A = some p)
    (hpos : JsMap.UniqueKeys (ownProps p.position))
    (hd : data.position = some (JsVal.obj pos))
    (hposu : JsMap.UniqueKeys pos)
    (hx : JsMap.get pos "x" = some px)
    (hz : JsMap.get pos "z" = some pz)
    (hr : data.rotation = some r) :
    ∃ position,
      (onPlayerUpdate g A (some data) tUpdate tEmit).1 =
        some { room := p.roomId, exceptSender := some A
               event := ServerEvent.playerUpdated A position r p.velocity tEmit } ∧
      JsMap.get (ownProps position) "x" = some px ∧
      JsMap.get (ownProps position) "z" = some pz := by
  obtain ⟨pre, e, post, hg, hpre, he⟩ := findSome_split _ _ _ hp
  obtain ⟨roomId, R⟩ := e
  have hupd := updatePlayer_found g A roomId R p pre post data tUpdate hu hg hpre he
  have hdp : ∀ v, data.position = some v → JsMap.UniqueKeys (ownProps v) := by
    intro v hv
    rw [hd] at hv
    cases hv
    exact hposu
  refine ⟨(mergeUpdate p data tUpdate).position, ?_, ?_, ?_⟩
  · simp only [onPlayerUpdate, hupd]
    simp [mergeUpdate, hr]
  · rw [mergeUpdate_position p data tUpdate "x" hpos hdp]
    simp [payloadField, hd, ownProps, hx]
  · rw [mergeUpdate_position p data tUpdate "z" hpos hdp]
    simp [payloadField, hd, ownProps, hz]

/-- Instance of `onPlayerUpdate_relays`: connection `"y"` of `twoRooms`, in
room `"b"` only, sends position `{x: 5, z: 3}` and rotation 1. -/
theorem onPlayerUpdate_relays_witness :
    ∃ position,
      (onPlayerUpdate twoRooms "y" (some moveTo) 7 8).1 =
        some { room := (defaultPlayer "y" "b").roomId, exceptSender := some "y"
               event := ServerEvent.playerUpdated "y" position (JsVal.prim (Prim.num 1))
                 (defaultPlayer "y" "b").velocity 8 } ∧
      JsMap.get (ownProps position) "x" = some (Prim.num 5) ∧
      JsMap.get (ownProps position) "z" = some (Prim.num 3) :=
  onPlayerUpdate_relays twoRooms "y" (defaultPlayer "y" "b") moveTo
    [("x", Prim.num 5), ("z", Prim.num 3)] (Prim.num 5) (Prim.num 3) (JsVal.prim (Prim.num 1)) 7 8
    (by decide) (by decide) (by decide) rfl (by decide) (by decide) (by decide) rfl

/-- C13 fails on the code, through a repeated join: after
connections `"p0"` to `"p9"` filled room `"i"`, `"p0"` joined again into the
new room `"j"` and `"p11"` joined into `"j"`, connections `"p0"` and `"p11"`
share room `"j"`, in the registry and in socket.io.  A `player-update` from
`"p0"` with position `{x: 5, z: 3}` and rotation 1 is found in room `"i"`
first, and `player-updated` is emitted to `"i"`: it reaches `"p1"` to `"p9"`
and not `"p11"`.  The payload is the claimed one. -/
theorem onPlayerUpdate_misses_shared_room :
    rejoined.game =
      run (tenJoins ++ [Op.addPlayer "p0" (some emptyJoin) "j" 1 1 1,
        Op.addPlayer "p11" (some emptyJoin) "k" 2 2 2]) Game.new ∧
    roomsOf rejoined.game "p0" = ["i", "j"] ∧
    roomsOf rejoined.game "p11" = ["j"] ∧
    rejoined.joined.filter (fun q => q.1 == "j") = [("j", "p0"), ("j", "p11")] ∧
    (onPlayerUpdate rejoined.game "p0" (some moveTo) 7 8).1 =
      some { room := "i", exceptSender := some "p0"
             event := ServerEvent.playerUpdated "p0"
               (JsVal.obj [("x", Prim.num 5), ("y", Prim.num 0), ("z", Prim.num 3)])
               (JsVal.prim (Prim.num 1)) zeroVelocity 8 } ∧
    (onPlayerUpdate rejoined.game "p0" (some moveTo) 7 8).1.map (recipients rejoined.joined) =
      some ["p1", "p2", "p3", "p4", "p5", "p6", "p7", "p8", "p9"] := by
  decide

/-! ## Name gate of the start screen -/

/-- C14 as stated fails: the empty text has length 0, yet `startGame` replaces
it by `"Player"` and connects; the text `"ab"` followed by twenty spaces has
length 22, yet it is trimmed to `"ab"` and `startGame` connects. -/
theorem startGame_gate_after_trim :
    utf16Length "" = 0 ∧ startGame "" = { playerName := "Player", connected := true } ∧
    utf16Length "ab                    " = 22 ∧
    startGame "ab                    " = { playerName := "ab", connected := true } := by
  decide

/-- C14 amended: the gate applies to the trimmed text.  When the trimmed text
is not empty and its length is below 2 or above 20, `startGame` does not
connect; when the trimmed text is empty, the name becomes `"Player"` and
`startGame` connects; so it connects exactly when the trimmed text is empty or
has 2 to 20 code units. -/
theorem startGame_gate (value : String) :
    (jsTrim value ≠ "" →
      (utf16Length (jsTrim value) < 2 ∨ 20 < utf16Length (jsTrim value)) →
      (startGame value).connected = false) ∧
    (jsTrim value = "" → startGame value = { playerName := "Player", connected := true }) ∧
    ((startGame value).connected = true ↔
      jsTrim value = "" ∨ (2 ≤ utf16Length (jsTrim value) ∧ utf16Length (jsTrim value) ≤ 20)) := by
  have hdef : utf16Length "Player" = 6 := by decide
  by_cases he : jsTrim value = ""
  · have hs : startGame value = { playerName := "Player", connected := true } := by
      simp only [startGame, he, if_true, hdef]
      rw [if_neg (by omega)]
    refine ⟨fun h => absurd he h, fun _ => hs, ?_⟩
    rw [hs]
    simp [he]
  · refine ⟨?_, fun h => absurd h he, ?_⟩
    · intro _ hlen
      simp only [startGame, he, if_false]
      rw [if_pos hlen]
    · simp only [startGame, he, if_false, false_or]
      by_cases hlen : utf16Length (jsTrim value) < 2 ∨ utf16Length (jsTrim value) > 20
      · rw [if_pos hlen]
        simp
        omega
      · rw [if_neg hlen]
        simp
        omega

/-- Instance of the amended C14: the text `" a "` is trimmed to one character
and is refused. -/
theorem startGame_gate_witness :
    (startGame " a ").connected = false :=
  (startGame_gate " a ").1 (by decide) (by decide)

/-! ## Display name stored by the registry -/

/-- C15 as stated fails: a supplied name of one character, or of twenty-six,
is stored as it is. -/
theorem addPlayer_name_unchecked :
    (match (addPlayer Game.new "s1x9" (some shortName) "i" 0 0 0).1 with
      | Completion.returned r => some r.1.name
      | Completion.threw => none) = some (JsVal.prim (Prim.str "a")) ∧
    "a".length = 1 ∧
    (match (addPlayer Game.new "s1x9" (some longName) "i" 0 0 0).1 with
      | Completion.returned r => some r.1.name
      | Completion.threw => none) = some (JsVal.prim (Prim.str "abcdefghijklmnopqrstuvwxyz")) ∧
    "abcdefghijklmnopqrstuvwxyz".length = 26 := by
  decide

/-- C15 amended: `addPlayer` on a payload stores the supplied name whenever it
is truthy (for a string: not empty), whatever its length, and the default
name `Player_` followed by the first up-to-4 characters of the connection id
when the name is absent or falsy; the default name has 7 to 11 characters. -/
theorem addPlayer_name (g : Game) (hu : JsMap.UniqueKeys g.rooms) (socketId : String)
    (pd : JoinData) (rand : String) (tCreate tPlayer tRoom : Int) :
    ∃ player room,
      (addPlayer g socketId (some pd) rand tCreate tPlayer tRoom).1
        = Completion.returned (player, room) ∧
      (∀ v, pd.name = some v → truthy (some v) = true → player.name = v) ∧
      (truthy pd.name = false →
        player.name = JsVal.prim (Prim.str ("Player_" ++ socketId.take 4))) ∧
      7 ≤ ("Player_" ++ socketId.take 4).length ∧
      ("Player_" ++ socketId.take 4).length ≤ 11 := by
  obtain ⟨_, room, hget, _, _⟩ := findAvailableRoom_spec g hu rand tCreate
  rcases hfr : findAvailableRoom g rand tCreate with ⟨roomId, g1⟩
  rw [hfr] at hget
  simp only at hget
  have hlen : (socketId.take 4).length ≤ 4 := by
    rw [String.take_eq]
    exact List.length_take_le 4 socketId.data
  have hret : (addPlayer g socketId (some pd) rand tCreate tPlayer tRoom).1 =
      Completion.returned
        ({ id := socketId
           name := jsOr pd.name (JsVal.prim (Prim.str ("Player_" ++ socketId.take 4)))
           position := jsOr pd.position
             (JsVal.obj [("x", Prim.num 0), ("y", Prim.num 0), ("z", Prim.num 0)])
           rotation := jsOr pd.rotation (JsVal.prim (Prim.num 0))
           velocity := [("x", Prim.num 0), ("y", Prim.num 0), ("z", Prim.num 0)]
           roomId := roomId
           lastUpdate := tPlayer
           input := [("forward", Prim.bool false), ("backward", Prim.bool false),
                     ("left", Prim.bool false), ("right", Prim.bool false)] },
         { room with
           players := JsMap.set room.players socketId
             { id := socketId
               name := jsOr pd.name (JsVal.prim (Prim.str ("Player_" ++ socketId.take 4)))
               position := jsOr pd.position
                 (JsVal.obj [("x", Prim.num 0), ("y", Prim.num 0), ("z", Prim.num 0)])
               rotation := jsOr pd.rotation (JsVal.prim (Prim.num 0))
               velocity := [("x", Prim.num 0), ("y", Prim.num 0), ("z", Prim.num 0)]
               roomId := roomId
               lastUpdate := tPlayer
               input := [("forward", Prim.bool false), ("backward", Prim.bool false),
                         ("left", Prim.bool false), ("right", Prim.bool false)] }
           lastActivity := tRoom }) := by
    unfold addPlayer
    simp only [hfr, hget]
  refine ⟨_, _, hret, ?_, ?_, ?_, ?_⟩
  · intro v hv ht
    simp [jsOr, hv, ht]
  · intro ht
    cases hn : pd.name with
    | none => simp [jsOr]
    | some v =>
      rw [hn] at ht
      simp [jsOr, ht]
  · rw [String.length_append]
    have : "Player_".length = 7 := by decide
    omega
  · rw [String.length_append]
    have : "Player_".length = 7 := by decide
    omega

/-- Instance of the amended C15: the one-character name on the empty
registry. -/
theorem addPlayer_name_witness :
    ∃ player room,
      (addPlayer Game.new "s1x9zz" (some shortName) "i" 0 0 0).1
        = Completion.returned (player, room) ∧
      (∀ v, shortName.name = some v → truthy (some v) = true → player.name = v) ∧
      (truthy shortName.name = false →
        player.name = JsVal.prim (Prim.str ("Player_" ++ "s1x9zz".take 4))) ∧
      7 ≤ ("Player_" ++ "s1x9zz".take 4).length ∧
      ("Player_" ++ "s1x9zz".take 4).length ≤ 11 :=
  addPlayer_name Game.new (by decide) "s1x9zz" shortName "i" 0 0 0

/-! ## Unknown connections -/

theorem updatePlayer_unknown (g : Game) (socketId : String) (data : Option UpdateData) (now : Int)
    (h : ∀ e ∈ g.rooms, JsMap.get e.2.players socketId = none) :
    updatePlayer g socketId data now = (Completion.returned none, g) := by
  have := updatePlayerLoop_skip g.rooms [] g socketId data now h
  rw [List.append_nil] at this
  unfold updatePlayer
  rw [this]
  rfl

theorem removePlayer_unknown (g : Game) (socketId : String)
    (h : ∀ e ∈ g.rooms, JsMap.get e.2.players socketId = none) :
    removePlayer g socketId = (none, g) := by
  have := removePlayerLoop_skip g.rooms [] g socketId h
  rw [List.append_nil] at this
  unfold removePlayer
  rw [this]
  rfl

/-- C16: for a connection that is in no room, `updatePlayer` (with any
payload, even `null`) and `removePlayer` return `null` and leave the registry
as it was, and the `player-input`, `player-update` and `disconnect` handlers
emit nothing and leave the registry as it was. -/
theorem unknown_connection_inert (g : Game) (socketId : String) (data : Option UpdateData)
    (input : Option JsVal) (now tEmit : Int)
    (h : ∀ e ∈ g.rooms, JsMap.get e.2.players socketId = none) :
    updatePlayer g socketId data now = (Completion.returned none, g) ∧
    removePlayer g socketId = (none, g) ∧
    onPlayerInput g socketId input now = (none, g) ∧
    onPlayerUpdate g socketId data now tEmit = (none, g) ∧
    onDisconnect g socketId = (none, g) := by
  refine ⟨updatePlayer_unknown g socketId data now h, removePlayer_unknown g socketId h, ?_, ?_, ?_⟩
  · simp only [onPlayerInput, updatePlayer_unknown g socketId _ now h]
  · simp only [onPlayerUpdate, updatePlayer_unknown g socketId data now h]
  · simp only [onDisconnect, removePlayer_unknown g socketId h]

/-- Instance of C16: connection `"w"` is not in `twoRooms`. -/
theorem unknown_connection_inert_witness :
    updatePlayer twoRooms "w" (some forwardOnly) 9 = (Completion.returned none, twoRooms) ∧
    removePlayer twoRooms "w" = (none, twoRooms) ∧
    onPlayerInput twoRooms "w" none 9 = (none, twoRooms) ∧
    onPlayerUpdate twoRooms "w" (some forwardOnly) 9 10 = (none, twoRooms) ∧
    onDisconnect twoRooms "w" = (none, twoRooms) :=
  unknown_connection_inert twoRooms "w" (some forwardOnly) none 9 10 (by decide)

/-! ## Steering of the local player -/

/-- C17 as stated fails: with velocity `(0.08, 0.08)` the planar speed is
about 0.113 > 0.1, but neither component exceeds 0.1, so a left input leaves
the rotation at 0 instead of adding `sign(vz) * ROTATION_SPEED * dt = 1/24`. -/
theorem steering_gate_is_per_axis :
    Real.sqrt ((2 / 25) * (2 / 25) + (2 / 25) * (2 / 25)) > 1 / 10 ∧
    applySteering leftOnly ({ x := 2 / 25, y := 0, z := 2 / 25 } : Vec3 ℝ) 0 (1 / 60) = 0 ∧
    (0 : ℝ) + jsSign (2 / 25 : ℝ) * CONSTANTS.ROTATION_SPEED * (1 / 60) = 1 / 24 := by
  refine ⟨?_, ?_, ?_⟩
  · rw [gt_iff_lt, Real.lt_sqrt (by norm_num)]
    norm_num
  · have h1 : ¬ (|(2 / 25 : ℝ)| > 1 / 10 ∨ |(2 / 25 : ℝ)| > 1 / 10) := by
      rw [abs_of_pos (by norm_num)]
      norm_num
    simp only [applySteering]
    rw [if_neg h1]
  · simp only [jsSign, CONSTANTS.ROTATION_SPEED]
    norm_num

theorem speed_of_axis (vx vz : ℝ) (h : |vx| > 1 / 10 ∨ |vz| > 1 / 10) :
    Real.sqrt (vx * vx + vz * vz) > 1 / 10 := by
  rw [gt_iff_lt, Real.lt_sqrt (by norm_num)]
  rcases h with h | h
  · have := abs_mul_abs_self vx
    nlinarith [abs_nonneg vx, mul_self_nonneg vz]
  · have := abs_mul_abs_self vz
    nlinarith [abs_nonneg vz, mul_self_nonneg vx]

/-- C17 amended: the steering gate is `|vx| > 0.1 or |vz| > 0.1`.  When it
holds, a left input without right adds `sign(vz) * ROTATION_SPEED * dt` to the
rotation and a right input without left subtracts it; when it does not hold
the rotation is unchanged.  Hence the rotation changes only while
`sqrt(vx² + vz²) > 0.1`, and is unchanged when that speed is at most 0.1. -/
theorem applySteering_spec (input : InputState) (vx vy vz rotationY deltaTime : ℝ) :
    ((|vx| > 1 / 10 ∨ |vz| > 1 / 10) → input.left = true → input.right = false →
      applySteering input { x := vx, y := vy, z := vz } rotationY deltaTime =
        rotationY + jsSign vz * CONSTANTS.ROTATION_SPEED * deltaTime) ∧
    ((|vx| > 1 / 10 ∨ |vz| > 1 / 10) → input.right = true → input.left = false →
      applySteering input { x := vx, y := vy, z := vz } rotationY deltaTime =
        rotationY - jsSign vz * CONSTANTS.ROTATION_SPEED * deltaTime) ∧
    (¬ (|vx| > 1 / 10 ∨ |vz| > 1 / 10) →
      applySteering input { x := vx, y := vy, z := vz } rotationY deltaTime = rotationY) ∧
    (applySteering input { x := vx, y := vy, z := vz } rotationY deltaTime ≠ rotationY →
      Real.sqrt (vx * vx + vz * vz) > 1 / 10) ∧
    (Real.sqrt (vx * vx + vz * vz) ≤ 1 / 10 →
      applySteering input { x := vx, y := vy, z := vz } rotationY deltaTime = rotationY) ∧
    (CONSTANTS.ROTATION_SPEED : ℝ) = 5 / 2 := by
  have hno : ¬ (|vx| > 1 / 10 ∨ |vz| > 1 / 10) →
      applySteering input { x := vx, y := vy, z := vz } rotationY deltaTime = rotationY := by
    intro h
    simp only [applySteering]
    rw [if_neg h]
  refine ⟨?_, ?_, hno, ?_, ?_, rfl⟩
  · intro h hl hr
    simp only [applySteering]
    rw [if_pos h]
    simp only [hl, hr, if_true]
    simp
    ring
  · intro h hr hl
    simp only [applySteering]
    rw [if_pos h]
    simp only [hl, hr, if_true]
    simp
    ring
  · intro hne
    by_contra hs
    exact hne (hno (fun h => hs (speed_of_axis vx vz h)))
  · intro hs
    exact hno (fun h => absurd (speed_of_axis vx vz h) (not_lt.mpr hs))

/-- Instance of the amended C17: reversing at `vz = -5` with left pressed. -/
theorem applySteering_spec_witness :
    applySteering leftOnly ({ x := 0, y := 0, z := -5 } : Vec3 ℝ) 1 (1 / 50) =
      1 + jsSign (-5 : ℝ) * CONSTANTS.ROTATION_SPEED * (1 / 50) :=
  (applySteering_spec leftOnly 0 0 (-5) 1 (1 / 50)).1
    (Or.inr (by rw [abs_of_neg (by norm_num)]; norm_num)) rfl rfl

/-! ## Outbound send gating -/

/-- C18 as stated fails: before `connectToServer` the car exists and the
socket does not; `sendPlayerUpdate(true)` then emits nothing and changes
nothing. -/
theorem sendPlayerUpdate_needs_socket :
    offlineState.socket = false ∧ offlineState.car.isSome = true ∧
    sendPlayerUpdate offlineState true (Binary64.ofNat 1000) = (none, offlineState) := by
  decide!

theorem sendPlayerUpdate_offline (s : LocalState Binary64) (force : Bool) (now : Binary64)
    (h : s.socket = false ∨ s.car = none) : sendPlayerUpdate s force now = (none, s) := by
  rcases h with h | h
  · simp [sendPlayerUpdate, h]
  · simp only [sendPlayerUpdate, h]
    split <;> rfl

theorem sendRate_interval :
    Binary64.toRat (Binary64.div (Binary64.ofNat 1000) Binary64.SEND_RATE) = 50 := by
  have h : Binary64.div (Binary64.ofNat 1000) Binary64.SEND_RATE =
      { neg := false, mant := 7036874417766400, exp := -47 } := by
    decide!
  rw [h]
  simp [Binary64.toRat]
  norm_num

theorem hundredth_value :
    Binary64.toRat (Binary64.literal 1 100) = 5764607523034235 / 2 ^ 59 := by
  have h : Binary64.literal 1 100 = { neg := false, mant := 5764607523034235, exp := -59 } := by
    decide!
  rw [h]
  simp [Binary64.toRat]
  norm_num

theorem sub_ofNat (n m : Nat) (hn : n < 2 ^ 53) (hm : m < 2 ^ 53) :
    Binary64.toRat (Binary64.sub (Binary64.ofNat n) (Binary64.ofNat m)) = (n : ℚ) - (m : ℚ) := by
  have hexact : Binary64.toRat (Binary64.exactAdd (Binary64.ofNat n)
      (Binary64.negate (Binary64.ofNat m))) = (n : ℚ) - (m : ℚ) := by
    rw [Binary64.toRat_exactAdd, Binary64.toRat_negate, Binary64.toRat_ofNat,
      Binary64.toRat_ofNat]
    ring
  have hround : Binary64.round false (Binary64.exactAdd (Binary64.ofNat n)
      (Binary64.negate (Binary64.ofNat m))) =
      Binary64.exactAdd (Binary64.ofNat n) (Binary64.negate (Binary64.ofNat m)) := by
    apply Binary64.round_of_small
    · apply Binary64.bitLength_le
      simp only [Binary64.exactAdd, Binary64.scaled, Binary64.ofNat, Binary64.negate]
      simp
      omega
    · simp [Binary64.exactAdd, Binary64.ofNat, Binary64.negate]
  unfold Binary64.sub
  rw [hround, hexact]

/-- C18 amended: the send gate in double arithmetic.  When the socket and the
car exist, `sendPlayerUpdate` emits exactly when `force` is true, or the
rounded difference `now - lastSendTime` exceeds 50 and the rounded difference
to the last sent value exceeds, in magnitude, the double `0.01` for `x`, for
`z` or for the rotation.  When it emits, the message carries the current
pose, velocity and time, and the last-sent position, rotation and time become
the current ones; otherwise the state is unchanged.  `1000 / SEND_RATE` is 50,
the double `0.01` is `5764607523034235 / 2^59`, and the difference of two
clock readings below `2^53` is not rounded. -/
theorem sendPlayerUpdate_gate (s : LocalState Binary64) (car : Car Binary64) (force : Bool)
    (now : Binary64) (hs : s.socket = true) (hc : s.car = some car) :
    ((force = true ∨
        (Binary64.toRat (Binary64.sub now s.lastSendTime) > 50 ∧
          (|Binary64.toRat (Binary64.sub car.position.x s.lastSentPosition.x)| >
              5764607523034235 / 2 ^ 59 ∨
            |Binary64.toRat (Binary64.sub car.position.z s.lastSentPosition.z)| >
              5764607523034235 / 2 ^ 59 ∨
            |Binary64.toRat (Binary64.sub car.rotationY s.lastSentRotation)| >
              5764607523034235 / 2 ^ 59))) →
      sendPlayerUpdate s force now =
        (some { position := car.position, rotation := car.rotationY, velocity := s.velocity
                timestamp := now },
          { s with lastSentPosition := car.position, lastSentRotation := car.rotationY
                   lastSendTime := now })) ∧
    (¬ (force = true ∨
        (Binary64.toRat (Binary64.sub now s.lastSendTime) > 50 ∧
          (|Binary64.toRat (Binary64.sub car.position.x s.lastSentPosition.x)| >
              5764607523034235 / 2 ^ 59 ∨
            |Binary64.toRat (Binary64.sub car.position.z s.lastSentPosition.z)| >
              5764607523034235 / 2 ^ 59 ∨
            |Binary64.toRat (Binary64.sub car.rotationY s.lastSentRotation)| >
              5764607523034235 / 2 ^ 59))) →
      sendPlayerUpdate s force now = (none, s)) ∧
    Binary64.toRat (Binary64.div (Binary64.ofNat 1000) Binary64.SEND_RATE) = 50 ∧
    Binary64.toRat (Binary64.literal 1 100) = 5764607523034235 / 2 ^ 59 ∧
    (∀ n m : Nat, n < 2 ^ 53 → m < 2 ^ 53 →
      Binary64.toRat (Binary64.sub (Binary64.ofNat n) (Binary64.ofNat m)) = (n : ℚ) - (m : ℚ)) := by
  have ht : ∀ a : Binary64,
      Binary64.gt a (Binary64.div (Binary64.ofNat 1000) Binary64.SEND_RATE) = true ↔
        Binary64.toRat a > 50 := by
    intro a
    rw [Binary64.gt_iff, sendRate_interval]
  have hd : ∀ a : Binary64,
      Binary64.gt (Binary64.abs a) (Binary64.literal 1 100) = true ↔
        |Binary64.toRat a| > 5764607523034235 / 2 ^ 59 := by
    intro a
    rw [Binary64.gt_iff, hundredth_value, Binary64.toRat_abs]
  refine ⟨?_, ?_, sendRate_interval, hundredth_value, sub_ofNat⟩
  · intro h
    simp only [sendPlayerUpdate, hs, hc]
    rcases h with hf | ⟨h1, h2⟩
    · simp [hf]
    · have h1' := (ht _).mpr h1
      have h2' : (Binary64.gt (Binary64.abs (Binary64.sub car.position.x s.lastSentPosition.x))
            (Binary64.literal 1 100) ||
          Binary64.gt (Binary64.abs (Binary64.sub car.position.z s.lastSentPosition.z))
            (Binary64.literal 1 100) ||
          Binary64.gt (Binary64.abs (Binary64.sub car.rotationY s.lastSentRotation))
            (Binary64.literal 1 100)) = true := by
        rcases h2 with h | h | h
        · simp [(hd _).mpr h]
        · simp [(hd _).mpr h]
        · simp [(hd _).mpr h]
      simp only [Bool.or_assoc] at h2' ⊢
      simp [h1', h2']
  · intro h
    simp only [sendPlayerUpdate, hs, hc]
    have hf : force = false := by
      cases force
      · rfl
      · exact absurd (Or.inl rfl) h
    subst hf
    simp only [Bool.not_true, Bool.false_eq_true, if_false, Bool.false_or]
    by_cases h1 : Binary64.gt (Binary64.sub now s.lastSendTime)
        (Binary64.div (Binary64.ofNat 1000) Binary64.SEND_RATE) = true
    · rw [if_pos h1]
      have h1' := (ht _).mp h1
      have hx : ¬ Binary64.gt (Binary64.abs (Binary64.sub car.position.x s.lastSentPosition.x))
          (Binary64.literal 1 100) = true :=
        fun hh => h (Or.inr ⟨h1', Or.inl ((hd _).mp hh)⟩)
      have hz : ¬ Binary64.gt (Binary64.abs (Binary64.sub car.position.z s.lastSentPosition.z))
          (Binary64.literal 1 100) = true :=
        fun hh => h (Or.inr ⟨h1', Or.inr (Or.inl ((hd _).mp hh))⟩)
      have hr : ¬ Binary64.gt (Binary64.abs (Binary64.sub car.rotationY s.lastSentRotation))
          (Binary64.literal 1 100) = true :=
        fun hh => h (Or.inr ⟨h1', Or.inr (Or.inr ((hd _).mp hh))⟩)
      simp [hx, hz, hr]
    · rw [if_neg h1]

theorem toRat_gt_of_gt (a b : Binary64) (h : Binary64.gt a b = true) :
    Binary64.toRat a > Binary64.toRat b := (Binary64.gt_iff a b).mp h

theorem toRat_le_of_not_gt (a b : Binary64) (h : Binary64.gt a b = false) :
    Binary64.toRat a ≤ Binary64.toRat b := by
  rw [← not_lt]
  intro hlt
  rw [(Binary64.gt_iff a b).mpr hlt] at h
  exact Bool.noConfusion h

/-- Instance of the amended C18, 60 ms after the last send.  With the car at
`x = 1.01` and the last sent `x = 1` the rounded difference
`5764607523034240 * 2^-59` exceeds the double `0.01` and the update is sent;
with the car at `x = 0.01` and the last sent `x = 0` the difference is the
double `0.01` itself and nothing is sent. -/
theorem sendPlayerUpdate_gate_witness :
    sendPlayerUpdate (sentAt (Binary64.ofNat 1) (Binary64.literal 101 100)) false
        (Binary64.ofNat 1060) =
      (some { position := { x := Binary64.literal 101 100, y := Binary64.literal 1 2
                            z := Binary64.ofNat 4 }
              rotation := Binary64.ofNat 1
              velocity := (sentAt (Binary64.ofNat 1) (Binary64.literal 101 100)).velocity
              timestamp := Binary64.ofNat 1060 },
        { sentAt (Binary64.ofNat 1) (Binary64.literal 101 100) with
          lastSentPosition := { x := Binary64.literal 101 100, y := Binary64.literal 1 2
                                z := Binary64.ofNat 4 }
          lastSentRotation := Binary64.ofNat 1
          lastSendTime := Binary64.ofNat 1060 }) ∧
    sendPlayerUpdate (sentAt (Binary64.ofNat 0) (Binary64.literal 1 100)) false
        (Binary64.ofNat 1060) =
      (none, sentAt (Binary64.ofNat 0) (Binary64.literal 1 100)) :=
  ⟨(sendPlayerUpdate_gate (sentAt (Binary64.ofNat 1) (Binary64.literal 101 100))
      { position := { x := Binary64.literal 101 100, y := Binary64.literal 1 2
                      z := Binary64.ofNat 4 }
        rotationY := Binary64.ofNat 1 } false (Binary64.ofNat 1060) rfl rfl).1
      (Or.inr ⟨by
          have h := toRat_gt_of_gt (Binary64.sub (Binary64.ofNat 1060) (Binary64.ofNat 1000))
            (Binary64.ofNat 50) (by decide!)
          rw [Binary64.toRat_ofNat] at h
          exact_mod_cast h,
        Or.inl (by
          have h := toRat_gt_of_gt
            (Binary64.abs (Binary64.sub (Binary64.literal 101 100) (Binary64.ofNat 1)))
            (Binary64.literal 1 100) (by decide!)
          rw [Binary64.toRat_abs, hundredth_value] at h
          exact h)⟩),
    (sendPlayerUpdate_gate (sentAt (Binary64.ofNat 0) (Binary64.literal 1 100))
      { position := { x := Binary64.literal 1 100, y := Binary64.literal 1 2
                      z := Binary64.ofNat 4 }
        rotationY := Binary64.ofNat 1 } false (Binary64.ofNat 1060) rfl rfl).2.1
      (by
        have hx := toRat_le_of_not_gt
          (Binary64.abs (Binary64.sub (Binary64.literal 1 100) (Binary64.ofNat 0)))
          (Binary64.literal 1 100) (by decide!)
        have hz := toRat_le_of_not_gt
          (Binary64.abs (Binary64.sub (Binary64.ofNat 4) (Binary64.ofNat 4)))
          (Binary64.literal 1 100) (by decide!)
        have hr := toRat_le_of_not_gt
          (Binary64.abs (Binary64.sub (Binary64.ofNat 1) (Binary64.ofNat 1)))
          (Binary64.literal 1 100) (by decide!)
        rw [Binary64.toRat_abs, hundredth_value] at hx hz hr
        rintro (h | ⟨_, h | h | h⟩)
        · exact Bool.noConfusion h
        · exact absurd h (not_lt.mpr hx)
        · exact absurd h (not_lt.mpr hz)
        · exact absurd h (not_lt.mpr hr))⟩

/-! ## First fit -/

theorem find_first {β : Type} (p : β → Bool) (pre post : List β) (e : β)
    (hpre : ∀ x ∈ pre, p x = false) (he : p e = true) :
    (pre ++ e :: post).find? p = some e := by
  induction pre with
  | nil => simp [List.find?, he]
  | cons a tl ih =>
    have ha : p a = false := hpre a (List.mem_cons_self _ _)
    simp only [List.cons_append, List.find?, ha]
    exact ih (fun x hx => hpre x (List.mem_cons_of_mem _ hx))

/-- C19: when the registry has a room below capacity, `findAvailableRoom`
returns the identifier of the first such room in iteration order (every room
before it is at capacity) and leaves the registry unchanged. -/
theorem findAvailableRoom_first_fit (g : Game) (rand : String) (now : Int)
    (pre post : List (String × Room)) (roomId : String) (R : Room)
    (hg : g.rooms = pre ++ (roomId, R) :: post)
    (hpre : ∀ e ∈ pre, maxPlayersPerRoom ≤ JsMap.size e.2.players)
    (hR : JsMap.size R.players < maxPlayersPerRoom) :
    findAvailableRoom g rand now = (roomId, g) := by
  unfold findAvailableRoom
  rw [hg, find_first _ pre post (roomId, R) _ (by simpa using hR)]
  intro x hx
  have := hpre x hx
  simp only [decide_eq_false_iff_not, not_lt]
  exact this

/-- Instance of C19: in `crowded` the full room `"i"` is skipped and `"b"` is
returned; no room `"k"` is created. -/
theorem findAvailableRoom_first_fit_witness :
    findAvailableRoom crowded "k" 9 = ("b", crowded) :=
  findAvailableRoom_first_fit crowded "k" 9 fullRegistry.rooms [] "b" roomB rfl
    (by decide) (by decide)

/-! ## Target selection -/

section TargetLemmas

variable {α : Type} [LinearOrderedField α]

theorem findTargetIndex_spec (buffer : List (TimedState α)) (now : α) (i : Nat)
    (hi : i < buffer.length) :
    findTargetIndex buffer now i ≤ i ∧
    (∀ j s, findTargetIndex buffer now i < j → j ≤ i → buffer[j]? = some s →
      s.timestamp > now - 100) ∧
    (findTargetIndex buffer now i = 0 ∨
      ∃ s, buffer[findTargetIndex buffer now i]? = some s ∧ s.timestamp ≤ now - 100) := by
  induction i with
  | zero =>
    refine ⟨le_refl _, ?_, Or.inl rfl⟩
    intro j s h1 h2
    simp only [findTargetIndex] at h1
    omega
  | succ i ih =>
    have hget : buffer[i + 1]? = some (buffer.get ⟨i + 1, hi⟩) := List.getElem?_eq_getElem hi
    obtain ⟨h1, h2, h3⟩ := ih (Nat.lt_of_succ_lt hi)
    by_cases ht : (buffer.get ⟨i + 1, hi⟩).timestamp > now - 100
    · have hr : findTargetIndex buffer now (i + 1) = findTargetIndex buffer now i := by
        simp only [findTargetIndex, hget]
        rw [if_pos ht]
      rw [hr]
      refine ⟨Nat.le_succ_of_le h1, ?_, h3⟩
      intro j s hj1 hj2 hs
      by_cases hji : j ≤ i
      · exact h2 j s hj1 hji hs
      · have hje : j = i + 1 := by omega
        subst hje
        rw [hget] at hs
        cases hs
        exact ht
    · have hr : findTargetIndex buffer now (i + 1) = i + 1 := by
        simp only [findTargetIndex, hget]
        rw [if_neg ht]
      rw [hr]
      refine ⟨le_refl _, ?_, Or.inr ⟨_, hget, not_lt.mp ht⟩⟩
      intro j s hj1 hj2
      omega

/-- C20 amended: for a non-empty buffer the selected index holds an entry, no
entry after it has a timestamp at or below `renderTime = now - 100`, and
either the selected entry has a timestamp at or below `renderTime` (it is
then the entry of greatest index with that property), or no entry of the
buffer has one and the selected entry is the oldest, at index 0. -/
theorem selectTargetIndex_spec (buffer : List (TimedState α)) (now : α) (hne : buffer ≠ []) :
    ∃ target, buffer[selectTargetIndex buffer now]? = some target ∧
      (∀ j s, selectTargetIndex buffer now < j → buffer[j]? = some s →
        s.timestamp > now - 100) ∧
      (target.timestamp ≤ now - 100 ∨
        (selectTargetIndex buffer now = 0 ∧ ∀ s ∈ buffer, s.timestamp > now - 100)) := by
  have hlen : 0 < buffer.length := List.length_pos.mpr hne
  have hi : buffer.length - 1 < buffer.length := by omega
  obtain ⟨h1, h2, h3⟩ := findTargetIndex_spec buffer now (buffer.length - 1) hi
  have hlt : selectTargetIndex buffer now < buffer.length := by
    unfold selectTargetIndex
    omega
  have hget : buffer[selectTargetIndex buffer now]? =
      some (buffer.get ⟨selectTargetIndex buffer now, hlt⟩) := List.getElem?_eq_getElem hlt
  have hafter : ∀ j s, selectTargetIndex buffer now < j → buffer[j]? = some s →
      s.timestamp > now - 100 := by
    intro j s hj hs
    have hjlt : j < buffer.length := by
      by_contra hge
      rw [List.getElem?_eq_none (by omega)] at hs
      cases hs
    exact h2 j s hj (by omega) hs
  refine ⟨_, hget, hafter, ?_⟩
  by_cases ht : (buffer.get ⟨selectTargetIndex buffer now, hlt⟩).timestamp ≤ now - 100
  · exact Or.inl ht
  · right
    have h0 : selectTargetIndex buffer now = 0 := by
      rcases h3 with h3 | ⟨s, hs, hle⟩
      · exact h3
      · have hs1 : buffer[selectTargetIndex buffer now]? = some s := hs
        rw [hget] at hs1
        cases hs1
        exact absurd hle ht
    refine ⟨h0, ?_⟩
    intro s hs
    obtain ⟨j, hj, hjs⟩ := List.getElem_of_mem hs
    by_cases hj0 : j = 0
    · subst hj0
      have : buffer.get ⟨selectTargetIndex buffer now, hlt⟩ = s := by
        simp only [h0]
        exact hjs
      rw [← this]
      exact not_le.mp ht
    · exact hafter j s (by omega) (by rw [List.getElem?_eq_getElem hj, hjs])

end TargetLemmas

/-- C20 as stated fails: for the buffer with the single state stamped 950 and
`now = 1000`, the selected target is that state, whose timestamp 950 is above
`renderTime = 900`. -/
theorem selectTargetIndex_too_new :
    selectTargetIndex [sample 950 0] 1000 = 0 ∧
    [sample 950 0][0]? = some (sample 950 0) ∧
    (sample 950 0).timestamp > 1000 - 100 := by
  refine ⟨?_, rfl, ?_⟩
  · simp [selectTargetIndex, findTargetIndex]
  · simp [sample]
    norm_num

/-- Instance of the amended C20: the buffer stamped 0 and 100 at
`now = 150`. -/
theorem selectTargetIndex_spec_witness :
    ∃ target, [sample 0 0, sample 100 10][selectTargetIndex [sample 0 0, sample 100 10] 150]?
        = some target ∧
      (∀ j s, selectTargetIndex [sample 0 0, sample 100 10] 150 < j →
        [sample 0 0, sample 100 10][j]? = some s → s.timestamp > 150 - 100) ∧
      (target.timestamp ≤ 150 - 100 ∨
        (selectTargetIndex [sample 0 0, sample 100 10] 150 = 0 ∧
          ∀ s ∈ [sample 0 0, sample 100 10], s.timestamp > 150 - 100)) :=
  selectTargetIndex_spec [sample 0 0, sample 100 10] 150 (by simp)

/-! ## The frame step of the local player

The velocity and the rotation that `updateLocalPlayer` stores are the ones
computed by the speed limit and by the steering treated above. -/

section LocalStep

variable {α : Type} [LinearOrderedField α]

theorem sendPlayerUpdateExact_keeps_pose (s : LocalState α) (force : Bool) (now : α) :
    (sendPlayerUpdateExact s force now).2.car = s.car ∧
    (sendPlayerUpdateExact s force now).2.velocity = s.velocity := by
  unfold sendPlayerUpdateExact
  split
  · exact ⟨rfl, rfl⟩
  · split
    · exact ⟨rfl, rfl⟩
    · split
      · simp only []
        split
        · exact ⟨rfl, rfl⟩
        · exact ⟨rfl, rfl⟩
      · exact ⟨rfl, rfl⟩

theorem updateLocalPlayer_pose (M : JsMath α) (s : LocalState α) (car : Car α)
    (deltaTime now : α) (hc : s.car = some car) :
    (updateLocalPlayer M s deltaTime now).2.velocity =
      clampSpeedExact M.sqrt (applyDrag M deltaTime
        (applyForces M (readInput s.keys) car.rotationY deltaTime s.velocity)) ∧
    (updateLocalPlayer M s deltaTime now).2.car.map (fun c => c.rotationY) =
      some (applySteering (readInput s.keys)
        (applyForces M (readInput s.keys) car.rotationY deltaTime s.velocity)
        car.rotationY deltaTime) := by
  simp only [updateLocalPlayer, hc]
  constructor
  · rw [(sendPlayerUpdateExact_keeps_pose _ _ _).2]
  · rw [(sendPlayerUpdateExact_keeps_pose _ _ _).1]
    rfl

end LocalStep

/-! ## Choice of the next entry after pruning -/

theorem selectTargetIndex_lingering : selectTargetIndex lingering 1006 = 1 := by
  simp [selectTargetIndex, findTargetIndex, lingering, sample]
  norm_num

theorem selectTargetIndex_lingeringShort : selectTargetIndex lingeringShort 1006 = 1 := by
  simp [selectTargetIndex, findTargetIndex, lingeringShort, sample]
  norm_num

theorem pruneBuffer_lingering :
    pruneBuffer lingering 1006 = [sample 900 1, sample 950 2, sample 1000 3] := by
  simp [pruneBuffer, lingering, sample]
  norm_num

theorem pruneBuffer_lingeringShort :
    pruneBuffer lingeringShort 1006 = [sample 900 1, sample 950 2] := by
  simp [pruneBuffer, lingeringShort, sample]
  norm_num

section NextLemmas

variable {α : Type} [LinearOrderedField α]

theorem nextEntry_of_nothing_pruned (buffer : List (TimedState α)) (now : α)
    (h : pruneBuffer buffer now = buffer) :
    nextEntry buffer now = buffer[selectTargetIndex buffer now + 1]? := by
  simp only [nextEntry, h]
  split
  · rfl
  · rename_i hlt
    symm
    apply List.getElem?_eq_none
    have : ¬ ((selectTargetIndex buffer now : Int) < (buffer.length : Int) - 1) := hlt
    omega

end NextLemmas

/-- C21 fails on the code: the index of the target is taken in the buffer
before pruning and used in the buffer after pruning.  For the states stamped
0, 900, 950, 1000 and `now = 1006` the target is the state stamped 900 and
the state that follows it is stamped 950, but pruning drops the state stamped
0 and the entry used as next is the one stamped 1000.  For the states stamped
0, 900, 950 the pruned buffer still holds the state stamped 950 after the
target, yet the interpolation branch is not taken. -/
theorem next_skips_after_prune :
    lingering[selectTargetIndex lingering 1006]? = some (sample 900 1) ∧
    lingering[selectTargetIndex lingering 1006 + 1]? = some (sample 950 2) ∧
    pruneBuffer lingering 1006 = [sample 900 1, sample 950 2, sample 1000 3] ∧
    nextEntry lingering 1006 = some (sample 1000 3) ∧
    lingeringShort[selectTargetIndex lingeringShort 1006]? = some (sample 900 1) ∧
    pruneBuffer lingeringShort 1006 = [sample 900 1, sample 950 2] ∧
    nextEntry lingeringShort 1006 = none := by
  refine ⟨?_, ?_, pruneBuffer_lingering, ?_, ?_, pruneBuffer_lingeringShort, ?_⟩
  · rw [selectTargetIndex_lingering]; rfl
  · rw [selectTargetIndex_lingering]; rfl
  · simp only [nextEntry, selectTargetIndex_lingering, pruneBuffer_lingering]
    simp
  · rw [selectTargetIndex_lingeringShort]; rfl
  · simp only [nextEntry, selectTargetIndex_lingeringShort, pruneBuffer_lingeringShort]
    simp

/-! ## Membership after a repeated join -/

/-- C22 fails on the code: from the empty registry, ten connections join and
fill room `"i"`; when connection `"p0"` sends `player-join` again, the handler
calls `addPlayer`, which creates room `"j"` and inserts `"p0"` there too, so
`"p0"` is a key of two rooms; `removePlayer` then takes it out of `"i"` only. -/
theorem double_join_two_rooms :
    roomsOf fullRegistry "p0" = ["i"] ∧
    (onPlayerJoin fullRegistry "p0" (some emptyJoin) "j" 1 1 1).2 = twiceJoined ∧
    roomsOf twiceJoined "p0" = ["i", "j"] ∧
    (removePlayer twiceJoined "p0").2.rooms.map (fun e => (e.1, JsMap.keys e.2.players)) =
      [("i", ["p1", "p2", "p3", "p4", "p5", "p6", "p7", "p8", "p9"]), ("j", ["p0"])] := by
  decide

/-! ## Frame of `updatePlayer` -/

theorem velocityInv_new : VelocityInv Game.new :=
  fun _ h => absurd h (List.not_mem_nil _)

theorem velocityInv_set {g : Game} (h : VelocityInv g) (k : String) (room : Room)
    (hroom : ∀ q ∈ room.players, q.2.velocity = zeroVelocity) :
    VelocityInv { rooms := JsMap.set g.rooms k room } := by
  intro e he
  rcases JsMap.mem_set he with h1 | h1
  · rw [h1]
    exact hroom
  · exact h e h1

theorem velocityInv_delete {g : Game} (h : VelocityInv g) (k : String) :
    VelocityInv { rooms := JsMap.delete g.rooms k } :=
  fun e he => h e (JsMap.mem_of_mem_delete he)

theorem velocityInv_createRoom {g : Game} (h : VelocityInv g) (rand : String) (now : Int) :
    VelocityInv (createRoom g rand now).2 :=
  velocityInv_set h rand _ (fun _ hq => absurd hq (List.not_mem_nil _))

theorem velocityInv_findAvailableRoom {g : Game} (h : VelocityInv g) (rand : String)
    (now : Int) : VelocityInv (findAvailableRoom g rand now).2 := by
  unfold findAvailableRoom
  cases g.rooms.find? (fun e => decide (JsMap.size e.2.players < maxPlayersPerRoom)) with
  | none => exact velocityInv_createRoom h rand now
  | some e => exact h

theorem velocityInv_addPlayer {g : Game} (h : VelocityInv g) (socketId : String)
    (playerData : Option JoinData) (rand : String) (tCreate tPlayer tRoom : Int) :
    VelocityInv (addPlayer g socketId playerData rand tCreate tPlayer tRoom).2 := by
  have hinv := velocityInv_findAvailableRoom h rand tCreate
  rcases hfr : findAvailableRoom g rand tCreate with ⟨roomId, g1⟩
  rw [hfr] at hinv
  simp only at hinv
  unfold addPlayer
  simp only [hfr]
  cases hget : JsMap.get g1.rooms roomId with
  | none => exact hinv
  | some room =>
    cases playerData with
    | none => exact hinv
    | some pd =>
      refine velocityInv_set hinv roomId _ ?_
      intro q hq
      rcases JsMap.mem_set hq with h1 | h1
      · rw [h1]
        rfl
      · exact hinv (roomId, room) (JsMap.mem_of_get hget) q h1

theorem velocityInv_removePlayerLoop (l : List (String × Room)) {g : Game} (h : VelocityInv g)
    (socketId : String) (hl : ∀ e ∈ l, ∀ q ∈ e.2.players, q.2.velocity = zeroVelocity) :
    VelocityInv (removePlayerLoop l g socketId).2 := by
  induction l with
  | nil => exact h
  | cons e rest ih =>
    obtain ⟨roomId, room⟩ := e
    have hroom := hl (roomId, room) (List.mem_cons_self _ _)
    cases hp : JsMap.get room.players socketId with
    | none =>
      simp only [removePlayerLoop, hp]
      exact ih (fun e he => hl e (List.mem_cons_of_mem _ he))
    | some player =>
      simp only [removePlayerLoop, hp]
      have h1 := velocityInv_set h roomId
        { room with players := JsMap.delete room.players socketId }
        (fun q hq => hroom q (JsMap.mem_of_mem_delete hq))
      split
      · exact velocityInv_delete h1 roomId
      · exact h1

theorem mergeUpdate_frame (p : Player) (d : UpdateData) (now : Int) :
    (mergeUpdate p d now).velocity = p.velocity ∧ (mergeUpdate p d now).id = p.id ∧
    (mergeUpdate p d now).name = p.name ∧ (mergeUpdate p d now).roomId = p.roomId :=
  ⟨rfl, rfl, rfl, rfl⟩

theorem velocityInv_updatePlayerLoop (l : List (String × Room)) {g : Game} (h : VelocityInv g)
    (socketId : String) (data : Option UpdateData) (now : Int)
    (hl : ∀ e ∈ l, ∀ q ∈ e.2.players, q.2.velocity = zeroVelocity) :
    VelocityInv (updatePlayerLoop l g socketId data now).2 := by
  induction l with
  | nil => exact h
  | cons e rest ih =>
    obtain ⟨roomId, room⟩ := e
    have hroom := hl (roomId, room) (List.mem_cons_self _ _)
    cases hp : JsMap.get room.players socketId with
    | none =>
      simp only [updatePlayerLoop, hp]
      exact ih (fun e he => hl e (List.mem_cons_of_mem _ he))
    | some player =>
      cases data with
      | none =>
        simp only [updatePlayerLoop, hp]
        exact h
      | some d =>
        simp only [updatePlayerLoop, hp]
        refine velocityInv_set h roomId _ ?_
        intro q hq
        rcases JsMap.mem_set hq with h1 | h1
        · rw [h1]
          exact hroom (socketId, player) (JsMap.mem_of_get hp)
        · exact hroom q h1

theorem velocityInv_cleanupLoop (l : List (String × Room)) {g : Game} (h : VelocityInv g)
    (removed : Nat) (now maxInactiveTime : Int) :
    VelocityInv (cleanupLoop l g removed now maxInactiveTime).2 := by
  induction l generalizing g removed with
  | nil => exact h
  | cons e rest ih =>
    obtain ⟨roomId, room⟩ := e
    by_cases hs : now - room.lastActivity > maxInactiveTime
    · simp only [cleanupLoop, if_pos hs]
      exact ih (velocityInv_delete h roomId) _
    · simp only [cleanupLoop, if_neg hs]
      exact ih h _

theorem velocityInv_applyOp {g : Game} (h : VelocityInv g) (op : Op) :
    VelocityInv (applyOp g op) := by
  cases op with
  | addPlayer s pd r t1 t2 t3 => exact velocityInv_addPlayer h s pd r t1 t2 t3
  | removePlayer s => exact velocityInv_removePlayerLoop g.rooms h s h
  | updatePlayer s d t => exact velocityInv_updatePlayerLoop g.rooms h s d t h
  | findAvailableRoom r t => exact velocityInv_findAvailableRoom h r t
  | createRoom r t => exact velocityInv_createRoom h r t
  | cleanupInactiveRooms t m => exact velocityInv_cleanupLoop g.rooms h 0 t m

theorem velocityInv_run (ops : List Op) {g : Game} (h : VelocityInv g) :
    VelocityInv (run ops g) := by
  induction ops generalizing g with
  | nil => exact h
  | cons op rest ih => exact ih (velocityInv_applyOp h op)

theorem updatePlayerLoop_result (l : List (String × Room)) (g : Game) (socketId : String)
    (data : Option UpdateData) (now : Int) (r : Player × Room)
    (h : (updatePlayerLoop l g socketId data now).1 = Completion.returned (some r)) :
    ∃ e ∈ l, ∃ p d, JsMap.get e.2.players socketId = some p ∧ data = some d ∧
      r.1 = mergeUpdate p d now := by
  induction l with
  | nil => simp [updatePlayerLoop] at h
  | cons e rest ih =>
    obtain ⟨roomId, room⟩ := e
    cases hp : JsMap.get room.players socketId with
    | none =>
      simp only [updatePlayerLoop, hp] at h
      obtain ⟨e, he, p, d, h1, h2, h3⟩ := ih h
      exact ⟨e, List.mem_cons_of_mem _ he, p, d, h1, h2, h3⟩
    | some player =>
      cases data with
      | none => simp [updatePlayerLoop, hp] at h
      | some d =>
        simp only [updatePlayerLoop, hp] at h
        refine ⟨(roomId, room), List.mem_cons_self _ _, player, d, hp, rfl, ?_⟩
        injection h with h
        injection h with h
        rw [← h]

theorem onPlayerUpdate_velocity (g : Game) (hv : VelocityInv g) (socketId : String)
    (data : Option UpdateData) (tUpdate tEmit : Int) (emit : Emit)
    (h : (onPlayerUpdate g socketId data tUpdate tEmit).1 = some emit) :
    ∃ position rotation,
      emit.event = ServerEvent.playerUpdated socketId position rotation zeroVelocity tEmit := by
  unfold onPlayerUpdate at h
  rcases hu : updatePlayer g socketId data tUpdate with ⟨c, g1⟩
  rw [hu] at h
  cases c with
  | threw => simp at h
  | returned res =>
    cases res with
    | none => simp at h
    | some r =>
      simp only [Option.some.injEq] at h
      have hres : (updatePlayerLoop g.rooms g socketId data tUpdate).1 =
          Completion.returned (some r) := by
        have : (updatePlayer g socketId data tUpdate).1 = Completion.returned (some r) := by
          rw [hu]
        exact this
      obtain ⟨e, he, p, d, h1, _, h3⟩ := updatePlayerLoop_result _ _ _ _ _ _ hres
      have hz : p.velocity = zeroVelocity := hv e he (socketId, p) (JsMap.mem_of_get h1)
      refine ⟨r.1.position, r.1.rotation, ?_⟩
      rw [← h]
      simp only
      rw [h3, (mergeUpdate_frame p d tUpdate).1, hz]

theorem getPlayer_none {g : Game} {socketId : String} (h : getPlayer g socketId = none) :
    ∀ e ∈ g.rooms, JsMap.get e.2.players socketId = none := by
  unfold getPlayer at h
  intro e he
  exact List.findSome?_eq_none_iff.mp h e he

/-- C23: on every registry (room identifiers distinct), for every connection
and payload, `updatePlayer` changes at most the player it finds: the rooms
before and after its room are the same, the room keeps its identifier, its
other fields and the keys of its player mapping, every other connection of
the room keeps its player, and the player found keeps its velocity, id, name
and roomId; when the connection is unknown the registry is unchanged.  On
every registry reached from the empty one, the velocity in a `player-updated`
broadcast is the zero vector assigned at join, whatever the client sent. -/
theorem updatePlayer_frame (g : Game) (socketId : String) (data : UpdateData) (now : Int)
    (hu : JsMap.UniqueKeys g.rooms) :
    (∀ p, getPlayer g socketId = some p →
      ∃ pre roomId R post,
        g.rooms = pre ++ (roomId, R) :: post ∧
        (∀ e ∈ pre, JsMap.get e.2.players socketId = none) ∧
        JsMap.get R.players socketId = some p ∧
        (updatePlayer g socketId (some data) now).2.rooms =
          pre ++ (roomId,
            { R with players := JsMap.set R.players socketId (mergeUpdate p data now) }) :: post ∧
        JsMap.keys (JsMap.set R.players socketId (mergeUpdate p data now)) =
          JsMap.keys R.players ∧
        (∀ other, other ≠ socketId →
          JsMap.get (JsMap.set R.players socketId (mergeUpdate p data now)) other =
            JsMap.get R.players other) ∧
        (mergeUpdate p data now).velocity = p.velocity ∧
        (mergeUpdate p data now).id = p.id ∧
        (mergeUpdate p data now).name = p.name ∧
        (mergeUpdate p data now).roomId = p.roomId) ∧
    (getPlayer g socketId = none → (updatePlayer g socketId (some data) now).2 = g) ∧
    (∀ (ops : List Op) (d : Option UpdateData) (tUpdate tEmit : Int) (emit : Emit),
      (onPlayerUpdate (run ops Game.new) socketId d tUpdate tEmit).1 = some emit →
      ∃ position rotation,
        emit.event = ServerEvent.playerUpdated socketId position rotation
          [("x", Prim.num 0), ("y", Prim.num 0), ("z", Prim.num 0)] tEmit) := by
  refine ⟨?_, ?_, ?_⟩
  · intro p hp
    obtain ⟨pre, e, post, hg, hpre, he⟩ := findSome_split _ _ _ hp
    obtain ⟨roomId, R⟩ := e
    have hupd := updatePlayer_found g socketId roomId R p pre post data now hu hg hpre he
    refine ⟨pre, roomId, R, post, hg, hpre, he, ?_, ?_, ?_, rfl, rfl, rfl, rfl⟩
    · rw [hupd]
    · exact JsMap.keys_set_of_mem_keys _ (JsMap.mem_keys_of_mem (JsMap.mem_of_get he))
    · intro other hne
      exact JsMap.get_set_other _ _ (Ne.symm hne)
  · intro hn
    rw [updatePlayer_unknown g socketId (some data) now (getPlayer_none hn)]
  · intro ops d tUpdate tEmit emit h
    exact onPlayerUpdate_velocity (run ops Game.new) (velocityInv_run ops velocityInv_new)
      socketId d tUpdate tEmit emit h

/-- Instance of C23: connection `"y"` of `twoRooms` sends a payload with
velocity `(9, 0, 9)`; after a single join, the broadcast for connection `"a"`
carries the velocity `(0, 0, 0)`. -/
theorem updatePlayer_frame_witness :
    (∃ pre roomId R post,
        twoRooms.rooms = pre ++ (roomId, R) :: post ∧
        (∀ e ∈ pre, JsMap.get e.2.players "y" = none) ∧
        JsMap.get R.players "y" = some (defaultPlayer "y" "b") ∧
        (updatePlayer twoRooms "y" (some speeding) 7).2.rooms =
          pre ++ (roomId,
            { R with players := JsMap.set R.players "y" speedingY }) :: post ∧
        JsMap.keys (JsMap.set R.players "y" speedingY) =
          JsMap.keys R.players ∧
        (∀ other, other ≠ "y" →
          JsMap.get (JsMap.set R.players "y" speedingY) other =
            JsMap.get R.players other) ∧
        speedingY.velocity = (defaultPlayer "y" "b").velocity ∧
        speedingY.id = (defaultPlayer "y" "b").id ∧
        speedingY.name = (defaultPlayer "y" "b").name ∧
        speedingY.roomId = (defaultPlayer "y" "b").roomId) ∧
    (onPlayerUpdate soloRegistry "a" (some speeding) 7 8).1 =
      some { room := "i", exceptSender := some "a"
             event := ServerEvent.playerUpdated "a"
               (JsVal.obj [("x", Prim.num 5), ("y", Prim.num 0), ("z", Prim.num 3)])
               (JsVal.prim (Prim.num 1)) zeroVelocity 8 } :=
  ⟨(updatePlayer_frame twoRooms "y" speeding 7 (by decide)).1 (defaultPlayer "y" "b") (by decide),
    by decide⟩

/-! ## Remote views hold their pose without a next entry -/

theorem noVelocity_set {α : Type} {players : JsMap (RemotePlayer α)}
    (h : ∀ e ∈ players, e.2.velocity = none ∧ e.2.angularVelocity = none) (k : String)
    (q : RemotePlayer α) (hq : q.velocity = none ∧ q.angularVelocity = none) :
    ∀ e ∈ JsMap.set players k q, e.2.velocity = none ∧ e.2.angularVelocity = none := by
  intro e he
  rcases JsMap.mem_set he with h1 | h1
  · rw [h1]
    exact hq
  · exact h e h1

section ViewLemmas

variable {α : Type} [LinearOrderedField α] [FloorRing α]

theorem updateRemotePlayer_keeps_velocity (pi now : α) (p : RemotePlayer α) :
    (updateRemotePlayer pi now p).velocity = p.velocity ∧
    (updateRemotePlayer pi now p).angularVelocity = p.angularVelocity := by
  unfold updateRemotePlayer
  split
  · exact ⟨rfl, rfl⟩
  · split
    · exact ⟨rfl, rfl⟩
    · split
      · exact ⟨rfl, rfl⟩
      · split
        · exact ⟨rfl, rfl⟩
        · simp only []
          split
          · exact ⟨rfl, rfl⟩
          · split
            · exact ⟨rfl, rfl⟩
            · exact ⟨rfl, rfl⟩

theorem updateRemotePlayer_hold (pi now : α) (p : RemotePlayer α) (hv : p.velocity = none)
    (hnext : ∀ buffer, p.buffer = some buffer → nextEntry buffer now = none) :
    (updateRemotePlayer pi now p).mesh = p.mesh := by
  unfold updateRemotePlayer
  cases hm : p.mesh with
  | none => simp only [hm]
  | some mesh =>
    cases hb : p.buffer with
    | none => simp only [hm]
    | some buffer =>
      simp only []
      split
      · exact hm
      · split
        · exact hm
        · simp only [hnext buffer hb, hv]

theorem noVelocity_applyClientEvent (pi : α) {players : JsMap (RemotePlayer α)}
    (h : NoVelocity players) (ev : ClientEvent α) :
    NoVelocity (applyClientEvent pi players ev) := by
  cases ev with
  | addOtherPlayer d =>
    simp only [applyClientEvent, addOtherPlayer]
    split
    · exact h
    · exact noVelocity_set h _ _ ⟨rfl, rfl⟩
  | playerInputUpdate id input =>
    simp only [applyClientEvent, onPlayerInputUpdate]
    split
    · rename_i player hget
      exact noVelocity_set h _ _ (h (id, player) (JsMap.mem_of_get hget))
    · exact h
  | playerUpdated now data =>
    simp only [applyClientEvent, onPlayerUpdated]
    split
    · exact h
    · rename_i player hget
      exact noVelocity_set h _ _ (h (data.id, player) (JsMap.mem_of_get hget))
  | updateRemotePlayers now =>
    simp only [applyClientEvent, updateRemotePlayers]
    intro e he
    obtain ⟨e0, he0, rfl⟩ := List.mem_map.mp he
    have := updateRemotePlayer_keeps_velocity pi now e0.2
    exact ⟨this.1.trans (h e0 he0).1, this.2.trans (h e0 he0).2⟩

theorem noVelocity_runClient (pi : α) (events : List (ClientEvent α))
    {players : JsMap (RemotePlayer α)} (h : NoVelocity players) :
    NoVelocity (runClient pi events players) := by
  induction events generalizing players with
  | nil => exact h
  | cons ev rest ih => exact ih (noVelocity_applyClientEvent pi h ev)

/-- C24: starting from no view, after any sequence of `addOtherPlayer`,
`player-input-update`, `player-updated` and `updateRemotePlayers` steps, no
view has a `velocity` or `angularVelocity` field, so a pass of
`updateRemotePlayers` in which the view has no next entry leaves the mesh
position and rotation as they were, whatever the buffered states carry. -/
theorem remote_view_holds_pose (pi : α) (events : List (ClientEvent α))
    (e : String × RemotePlayer α) (he : e ∈ runClient pi events []) :
    e.2.velocity = none ∧ e.2.angularVelocity = none ∧
    ∀ now, (∀ buffer, e.2.buffer = some buffer → nextEntry buffer now = none) →
      (updateRemotePlayer pi now e.2).mesh = e.2.mesh := by
  have hinv : NoVelocity (runClient pi events ([] : JsMap (RemotePlayer α))) :=
    noVelocity_runClient pi events (fun _ h => absurd h (List.not_mem_nil _))
  refine ⟨(hinv e he).1, (hinv e he).2, ?_⟩
  intro now hnext
  exact updateRemotePlayer_hold pi now e.2 (hinv e he).1 hnext

end ViewLemmas

theorem runClient_announced :
    runClient mathPI [ClientEvent.addOtherPlayer announced,
      ClientEvent.playerUpdated 1000 movingUpdate] [] = [("r", announcedView)] := by
  simp [runClient, applyClientEvent, addOtherPlayer, onPlayerUpdated, announced, movingUpdate,
    announcedView, JsMap.get, JsMap.set, jsNumOr, CONSTANTS.INTERPOLATION_BUFFER_SIZE]

/-- Instance of C24: a view is announced, then receives one state carrying the
velocity `(5, 0, 5)`; the pass at `now = 1010` finds no next entry and keeps
the mesh. -/
theorem remote_view_holds_pose_witness :
    ("r", announcedView) ∈ runClient mathPI [ClientEvent.addOtherPlayer announced,
      ClientEvent.playerUpdated 1000 movingUpdate] [] ∧
    (announcedView.buffer.map (fun b => b.map (fun st => st.velocity))) =
      some [some { x := 5, y := 0, z := 5 }] ∧
    (updateRemotePlayer mathPI 1010 announcedView).mesh = announcedView.mesh :=
  ⟨by rw [runClient_announced]; exact List.mem_singleton_self _,
    by simp [announcedView, bufferedState, movingUpdate],
    (remote_view_holds_pose mathPI [ClientEvent.addOtherPlayer announced,
      ClientEvent.playerUpdated 1000 movingUpdate] ("r", announcedView)
      (by rw [runClient_announced]; exact List.mem_singleton_self _)).2.2 1010
      (by
        intro buffer hb
        have : buffer = [bufferedState movingUpdate 1000] := by
          simp [announcedView] at hb
          exact hb.symm
        subst this
        simp [nextEntry, pruneBuffer, selectTargetIndex, findTargetIndex, bufferedState,
          movingUpdate, timestampOr]
        intro _
        exact List.length_filter_le _ _)⟩

end DrivingGame
